import Mathlib

/-!
# Lich / Witch patches: ring buffers, prime table and the SilkyVerb reverb

A shallow embedding of `src/PingPong/CircularBuffer.hpp`, `src/PingPong/DcFilter.hpp`
and `src/Silkverb/SilkyVerbPatch.hpp`, and of the ratio control of
`src/PingPong/TempoSyncedPingPongDelayPatch.hpp`.

Conventions of the embedding.

* `float` samples are elements of a field `K`; the library functions `expf` and
  `sqrtf` are parameters, instantiated with `Real.exp` and `Real.sqrt` where a
  statement is about the reals.  The decimal constants of the source are the
  rationals they denote.
* The definitions named after the source (`fade`, `set`, `processAudio`, ...) compute
  in exact arithmetic.  Where the rounding of the `float` operations decides a
  statement, a second definition with the suffix `Fl` makes the same operations with
  their roundings as a parameter `fl` (`fadeFl`, `Node.setFl`, `fDelaySamplesFl`,
  `configureNodesFl`): `round32` and `round64` round to binary32 and binary64 (to
  nearest, ties to even), and `IsRounding u fl` admits every rounding with a relative
  error of at most `u`.
* Infinities and NaN are not elements of `K`.  Where a statement depends on the
  operands being finite, the values are of type `FloatValue K` (`mixSample`) and the
  bound `FLT_MAX` is a hypothesis.
* `unsigned int`, `size_t` and `int` are 32 bits wide (the ARM Cortex-M target of
  the patches); `uint16_t` is 16 bits wide.  Values are `Nat`/`Int` with the
  wrap-around written out.
* Arrays are lists.  An access outside an array, an integer remainder by zero, a
  conversion of a `float` to an integer type that cannot hold its integral part,
  and a loop that never ends are all reported as `none`.
* The class `TapTempo` and the host (`Patch`, `AudioBuffer`, `FloatArray`) are not
  part of the repository; what `processAudio` reads from them is an input.
-/

namespace Lich

/-! ## Machine integers -/

/-- Conversion of an integer value to a 32-bit unsigned (`unsigned int`, `size_t`). -/
def toUInt32 (z : Int) : Nat := (z % 4294967296).toNat

/-- Conversion of an integer value to a 32-bit two's complement `int`. -/
def toInt32 (z : Int) : Int := (z + 2147483648) % 4294967296 - 2147483648

/-- Conversion of an integer value to `uint16_t`. -/
def toUInt16 (z : Int) : Nat := (z % 65536).toNat

/-- The C loop `for (i = 0; i < n; i++) body(i)` over a state, stopping at the first failure. -/
def forLoop {σ : Type} (body : Nat → σ → Option σ) : Nat → σ → Option σ
  | 0, s => some s
  | n + 1, s => (forLoop body n s).bind (body n)

/-! ## CircularBuffer.hpp -/

/-- The class `CircularBuffer`: the sample storage and the write cursor. -/
structure CircularBuffer (K : Type) where
  buffer : List K
  writeIndex : Nat

namespace CircularBuffer

variable {K : Type}

/-- The method `getSize()`: capacity of the storage. -/
def getSize (cb : CircularBuffer K) : Nat := cb.buffer.length

/-- The method `write(float value)`:
`if(++writeIndex == getSize()) writeIndex = 0; buffer[writeIndex] = value;` -/
def write (cb : CircularBuffer K) (value : K) : Option (CircularBuffer K) :=
  let w1 := (cb.writeIndex + 1) % 4294967296
  let w := if w1 = cb.getSize then 0 else w1
  if w < cb.buffer.length then
    some { buffer := cb.buffer.set w value, writeIndex := w }
  else none

/-- The method `read(int index)`: `buffer[(writeIndex-index) % buffer.getSize()]`, the
subtraction being done on 32-bit unsigned values. -/
def read (cb : CircularBuffer K) (index : Int) : Option K :=
  if cb.getSize = 0 then none
  else cb.buffer[toUInt32 ((cb.writeIndex : Int) - index) % cb.getSize]?

/-- First loop of the block write, `while(ptr < end && cnt--) *ptr++ = *source++;`.
The state is the storage, `ptr` (as an index), `cnt` and the position in `source`; the
result is the storage, `cnt` and the source position at loop exit. -/
def writeLoop1 (source : List K) (endp : Nat) :
    Nat → List K → Nat → Int → Nat → Option (List K × Int × Nat)
  | 0, _, _, _, _ => none
  | fuel + 1, buf, ptr, cnt, s =>
    if ptr < endp then
      if cnt ≠ 0 then
        match source[s]? with
        | none => none
        | some v =>
          if ptr < buf.length then
            writeLoop1 source endp fuel (buf.set ptr v) (ptr + 1) (cnt - 1) (s + 1)
          else none
      else some (buf, cnt - 1, s)
    else some (buf, cnt, s)

/-- Second loop of the block write, `while(cnt-- > 0) *ptr++ = *source++;`. -/
def writeLoop2 (source : List K) : Nat → List K → Nat → Int → Nat → Option (List K)
  | 0, _, _, _, _ => none
  | fuel + 1, buf, ptr, cnt, s =>
    if cnt > 0 then
      match source[s]? with
      | none => none
      | some v =>
        if ptr < buf.length then
          writeLoop2 source fuel (buf.set ptr v) (ptr + 1) (cnt - 1) (s + 1)
        else none
    else some buf

/-- The method `write(float* source, size_t len)`.  The first loop moves `ptr` up to `end`, so
it runs at most `getSize()` times, and the second counts `cnt` down from at most `len`: the
loop budgets below are never exhausted. -/
def writeBlock (cb : CircularBuffer K) (source : List K) : Option (CircularBuffer K) :=
  let len := source.length
  let cnt : Int := toInt32 len
  let writeIndex := toUInt32 ((cb.writeIndex : Int) + cnt) &&& toUInt32 ((cb.getSize : Int) - 1)
  match writeLoop1 source cb.getSize (cb.getSize + 1) cb.buffer cb.writeIndex cnt 0 with
  | none => none
  | some (buf, cnt, s) =>
    match writeLoop2 source (len + 1) buf 0 cnt s with
    | none => none
    | some buf => some { buffer := buf, writeIndex := writeIndex }

/-- First loop of the block read, `while(ptr < end && cnt--) *destination++ = *ptr++;`.
The destination is the list of the samples stored so far. -/
def readLoop1 (buf : List K) (endp : Nat) :
    Nat → List K → Nat → Int → Option (List K × Int)
  | 0, _, _, _ => none
  | fuel + 1, dst, ptr, cnt =>
    if ptr < endp then
      if cnt ≠ 0 then
        match buf[ptr]? with
        | none => none
        | some v => readLoop1 buf endp fuel (dst ++ [v]) (ptr + 1) (cnt - 1)
      else some (dst, cnt - 1)
    else some (dst, cnt)

/-- Second loop of the block read, `while(cnt-- > 0) *destination++ = *ptr++;`. -/
def readLoop2 (buf : List K) : Nat → List K → Nat → Int → Option (List K)
  | 0, _, _, _ => none
  | fuel + 1, dst, ptr, cnt =>
    if cnt > 0 then
      match buf[ptr]? with
      | none => none
      | some v => readLoop2 buf fuel (dst ++ [v]) (ptr + 1) (cnt - 1)
    else some dst

/-- The method `read(int readIndex, float* destination, size_t len)`; the result is the
content of `destination[0..len)`.  The start slot is
`(writeIndex + ~(readIndex+len)) & (buffer.getSize()-1)` on 32-bit unsigned values. -/
def readBlock (cb : CircularBuffer K) (readIndex : Int) (len : Nat) : Option (List K) :=
  let start := toUInt32 ((cb.writeIndex : Int) + (4294967295 - (toUInt32 (readIndex + len) : Int)))
    &&& toUInt32 ((cb.getSize : Int) - 1)
  let cnt : Int := toInt32 len
  match readLoop1 cb.buffer cb.getSize (cb.getSize + 1) [] start cnt with
  | none => none
  | some (dst, cnt) => readLoop2 cb.buffer (len + 1) dst 0 cnt

/-- Writing the samples of a list one at a time with `write(float)`. -/
def writeAll (cb : CircularBuffer K) : List K → Option (CircularBuffer K)
  | [] => some cb
  | v :: vs => (cb.write v).bind (fun cb1 => writeAll cb1 vs)

end CircularBuffer

/-! ## SilkyVerbPatch.hpp: CrossFadeBuffer -/

/-- The class `CrossFadeBuffer`: a `CircularBuffer` with the read offset `readIndex`. -/
structure CrossFadeBuffer (K : Type) extends CircularBuffer K where
  readIndex : Int

namespace CrossFadeBuffer

variable {K : Type} [Field K]

/-- The first `n` passes of the loop of `fade`: for `i < n`,
`x1 = i/(float)len; x0 = 1.0-x1;
 *destination++ = read(readIndex+len-i)*x0 + read(newReadIndex+len-i)*x1;`.
The offsets are computed as `size_t` and passed to `read` as `int`. -/
def fadeLoop (cb : CrossFadeBuffer K) (newReadIndex : Int) (len : Nat) : Nat → Option (List K)
  | 0 => some []
  | i + 1 =>
    match fadeLoop cb newReadIndex len i with
    | none => none
    | some dst =>
      let x1 : K := (i : K) / (len : K)
      let x0 : K := 1 - x1
      match cb.toCircularBuffer.read (toInt32 (cb.readIndex + len - i)),
            cb.toCircularBuffer.read (toInt32 (newReadIndex + len - i)) with
      | some a, some b => some (dst ++ [a * x0 + b * x1])
      | _, _ => none

/-- The method `fade(int newReadIndex, float* destination, size_t len)`: the content of
`destination[0..len)` and the buffer with `readIndex = newReadIndex`. -/
def fade (cb : CrossFadeBuffer K) (newReadIndex : Int) (len : Nat) :
    Option (List K × CrossFadeBuffer K) :=
  match fadeLoop cb newReadIndex len len with
  | none => none
  | some dst => some (dst, { cb with readIndex := newReadIndex })

/-- The two offsets that pass `i` of the loop of `fade` gives to `read`: `readIndex+len-i` and
`newReadIndex+len-i`, as `int` values. -/
def fadeOffsets (cb : CrossFadeBuffer K) (newReadIndex : Int) (len i : Nat) : Int × Int :=
  (toInt32 (cb.readIndex + len - i), toInt32 (newReadIndex + len - i))

end CrossFadeBuffer

/-! ## SilkyVerbPatch.hpp: the prime table -/

/-- The macro `PRIME_NUMBER_TABLE_SIZE`. -/
def PRIME_NUMBER_TABLE_SIZE : Nat := 7600

/-- The first loop of `BuildPrimeTable`, `for(i=...; i<PRIME_NUMBER_TABLE_SIZE; i++)
prime_number_table[i] = 1;`, from the current value of `i` with `n` passes left to make. -/
def fillOnes : Nat → Nat → List Nat → Option (List Nat)
  | 0, _, t => some t
  | n + 1, i, t => if i < t.length then fillOnes n (i + 1) (t.set i 1) else none

/-- The loop `for(size_t i=...; i<PRIME_NUMBER_TABLE_SIZE; i+=stride) prime_number_table[i] = 0;`
of `BuildPrimeTable`, from the current value of `i`. -/
def clearMultiples (stride : Nat) : Nat → Nat → List Nat → Option (List Nat)
  | 0, _, _ => none
  | fuel + 1, i, t =>
    if i < PRIME_NUMBER_TABLE_SIZE then
      if i < t.length then clearMultiples stride fuel ((i + stride) % 4294967296) (t.set i 0)
      else none
    else some t

/-- The loop `while (prime_number_table[stride] == 0) stride++;` of `BuildPrimeTable`, on the
16-bit counter `stride`. -/
def nextStride (t : List Nat) : Nat → Nat → Option Nat
  | 0, _ => none
  | fuel + 1, stride =>
    match t[stride]? with
    | none => none
    | some v => if v = 0 then nextStride t fuel ((stride + 1) % 65536) else some stride

/-- The loop `while (stride <= max_stride)` of `BuildPrimeTable`; the result is the table and
the value of `stride` at loop exit.  One pass of the inner `for` loop takes at most
`PRIME_NUMBER_TABLE_SIZE` steps when `stride` is positive, and the search for the next
non-zero entry either stops within 65536 steps or never does. -/
def sieveLoop (max_stride : Nat) : Nat → Nat → List Nat → Option (List Nat × Nat)
  | 0, _, _ => none
  | fuel + 1, stride, t =>
    if stride ≤ max_stride then
      match clearMultiples stride (PRIME_NUMBER_TABLE_SIZE + 1) (2 * stride) t with
      | none => none
      | some t1 =>
        match nextStride t1 65536 ((stride + 1) % 65536) with
        | none => none
        | some stride1 => sieveLoop max_stride fuel stride1 t1
    else some (t, stride)

/-- The function `BuildPrimeTable(prime_number_table)`, with a budget `fuel` of passes of the
outer loop; the result is the table and the final value of `stride`.
`max_stride = (uint16_t)sqrtf(PRIME_NUMBER_TABLE_SIZE)` is the integer square root. -/
def BuildPrimeTableAux (fuel : Nat) (prime_number_table : List Nat) : Option (List Nat × Nat) :=
  let max_stride := Nat.sqrt PRIME_NUMBER_TABLE_SIZE
  match fillOnes PRIME_NUMBER_TABLE_SIZE 0 prime_number_table with
  | none => none
  | some t =>
    if 1 < t.length then sieveLoop max_stride fuel 2 ((t.set 0 0).set 1 0) else none

/-- The function `BuildPrimeTable(prime_number_table)`: the table it leaves. -/
def BuildPrimeTable (fuel : Nat) (prime_number_table : List Nat) : Option (List Nat) :=
  (BuildPrimeTableAux fuel prime_number_table).map Prod.fst

/-- The values of `stride` for which the outer loop of `BuildPrimeTable` makes a pass, in the
order of the passes: the loop of `sieveLoop` with a record of its passes. -/
def sieveStrides (max_stride : Nat) : Nat → Nat → List Nat → Option (List Nat)
  | 0, _, _ => none
  | fuel + 1, stride, t =>
    if stride ≤ max_stride then
      match clearMultiples stride (PRIME_NUMBER_TABLE_SIZE + 1) (2 * stride) t with
      | none => none
      | some t1 =>
        match nextStride t1 65536 ((stride + 1) % 65536) with
        | none => none
        | some stride1 => (sieveStrides max_stride fuel stride1 t1).map (fun l => stride :: l)
    else some []

/-- The values of `stride` for which `BuildPrimeTable(prime_number_table)` makes a pass of its
outer loop. -/
def BuildPrimeTableStrides (fuel : Nat) (prime_number_table : List Nat) : Option (List Nat) :=
  let max_stride := Nat.sqrt PRIME_NUMBER_TABLE_SIZE
  match fillOnes PRIME_NUMBER_TABLE_SIZE 0 prime_number_table with
  | none => none
  | some t =>
    if 1 < t.length then sieveStrides max_stride fuel 2 ((t.set 0 0).set 1 0) else none

/-- The loop of `FindNearestPrime`, `while (prime_number_table[number] == 0) number--;`. -/
def findLoop (prime_number_table : List Nat) : Nat → Nat → Option Nat
  | 0, _ => none
  | fuel + 1, number =>
    match prime_number_table[number]? with
    | none => none
    | some v =>
      if v = 0 then findLoop prime_number_table fuel ((number + 65535) % 65536)
      else some number

/-- The function `FindNearestPrime(prime_number_table, number)`.  The table is not written and
`number` is a 16-bit counter, so a scan that has not stopped after 65536 steps never stops. -/
def FindNearestPrime (prime_number_table : List Nat) (number : Nat) : Option Nat :=
  findLoop prime_number_table 65536 number

/-- The global `primeNumberTable` once the constructor has run `BuildPrimeTable` on it (the
global array is zero-initialised); 100 passes of the outer loop are more than are ever made. -/
def primeNumberTable : List Nat :=
  (BuildPrimeTable 100 (List.replicate PRIME_NUMBER_TABLE_SIZE 0)).getD []

/-- What survives the passes of the sieve made for the primes below `stride`: the numbers
from 2 on that no smaller such prime divides. -/
def Unsieved (stride i : Nat) : Prop :=
  2 ≤ i ∧ ∀ q : Nat, q.Prime → q < stride → q ∣ i → q = i

/-- The invariant of the outer loop of `BuildPrimeTable` at the test of `stride`. -/
def SieveInv (stride : Nat) (t : List Nat) : Prop :=
  t.length = PRIME_NUMBER_TABLE_SIZE ∧
    ∀ i, i < PRIME_NUMBER_TABLE_SIZE → ∃ v, t[i]? = some v ∧ (v ≠ 0 ↔ Unsieved stride i)

/-- A table of `PRIME_NUMBER_TABLE_SIZE` entries that flags the primes. -/
def IsPrimeTable (t : List Nat) : Prop :=
  t.length = PRIME_NUMBER_TABLE_SIZE ∧
    ∀ i, i < PRIME_NUMBER_TABLE_SIZE → ∃ v, t[i]? = some v ∧ (v ≠ 0 ↔ i.Prime)

/-! ## DcFilter.hpp -/

/-- The class `DcFilter`: the coefficient `lambda` and the state `x1`, `y1`. -/
structure DcFilter (K : Type) where
  lambda : K
  x1 : K
  y1 : K

namespace DcFilter

variable {K : Type} [Field K]

/-- The method `process(float x)`: `y1 = x - x1 + lambda*y1; x1 = x; return y1;`. -/
def process (f : DcFilter K) (x : K) : K × DcFilter K :=
  let y1 := x - f.x1 + f.lambda * f.y1
  (y1, { f with y1 := y1, x1 := x })

/-- The loop of `process(float* input, float* output, size_t size)` over the samples still to
read; the state is `x1`, the local `y` and the samples stored so far. -/
def blockLoop (lambda : K) : List K → K → K → List K → K × K × List K
  | [], x1, y, out => (x1, y, out)
  | x :: rest, x1, y, out =>
    let y := x - x1 + lambda * y
    blockLoop lambda rest x y (out ++ [y])

/-- The method `process(float* input, float* output, size_t size)` on an array of `size`
samples: `float y = y1; while(size--){ ... } y1 = y;`. -/
def processBlock (f : DcFilter K) (input : List K) : List K × DcFilter K :=
  match blockLoop f.lambda input f.x1 f.y1 [] with
  | (x1, y, out) => (out, { f with x1 := x1, y1 := y })

/-- The calls `process(x[0])`, ..., `process(x[n-1])` of the method `process(float x)` made in
order on the samples of a block: the values returned and the filter after the last call. -/
def processEach (f : DcFilter K) : List K → List K × DcFilter K
  | [] => ([], f)
  | x :: rest =>
    let r := f.process x
    let s := processEach r.2 rest
    (r.1 :: s.1, s.2)

end DcFilter

/-- The class `StereoDcFilter`. -/
structure StereoDcFilter (K : Type) where
  left : DcFilter K
  right : DcFilter K

/-! ## SilkyVerbPatch.hpp: constants and conversions -/

section Constants

variable (K : Type) [LinearOrderedField K]

/-- The macro `#define MAX_ROOM_SIZE 7552`. -/
def MAX_ROOM_SIZE : K := 7552

/-- The macro `#define MIN_ROOM_SIZE 192`. -/
def MIN_ROOM_SIZE : K := 192

/-- The macro `#define MAX_CUTOFF 0.4975`. -/
def MAX_CUTOFF : K := 4975 / 10000

/-- The macro `#define MIN_CUTOFF 0.1134`. -/
def MIN_CUTOFF : K := 1134 / 10000

/-- The macro `#define SQRT8 2.82842712474619`. -/
def SQRT8 : K := 282842712474619 / 100000000000000

/-- The macro `#define ONE_OVER_SQRT8 0.353553390593274`. -/
def ONE_OVER_SQRT8 : K := 353553390593274 / 1000000000000000

/-- The macro `#define ALPHA 0.943722057435498`. -/
def ALPHA : K := 943722057435498 / 1000000000000000

end Constants

/-- The macro `#define MAX_PREDELAY_SIZE 32768`. -/
def MAX_PREDELAY_SIZE : Nat := 32768

/-- The macro `#define MIN_PREDELAY_SIZE 0`. -/
def MIN_PREDELAY_SIZE : Nat := 0

/-- The macro `#define BUFFER_LIMIT 8192`. -/
def BUFFER_LIMIT : Nat := 8192

section Conversions

variable {K : Type} [LinearOrderedField K] [FloorRing K]

/-- The integral part of a `float`, rounded towards zero. -/
def truncInt (x : K) : Int := if 0 ≤ x then Int.floor x else Int.ceil x

/-- Conversion of a `float` to `int`; undefined when the integral part is out of range. -/
def floatToInt (x : K) : Option Int :=
  let z := truncInt x
  if -2147483648 ≤ z ∧ z < 2147483648 then some z else none

/-- Conversion of a `float` to `uint16_t`; undefined when the integral part is out of range. -/
def floatToUInt16 (x : K) : Option Nat :=
  let z := truncInt x
  if 0 ≤ z ∧ z < 65536 then some z.toNat else none

/-- Conversion of a `float` to `size_t`; undefined when the integral part is out of range. -/
def floatToSize (x : K) : Option Nat :=
  let z := truncInt x
  if 0 ≤ z ∧ z < 4294967296 then some z.toNat else none

/-- The method `CircularBuffer::interpolate(float index)`:
`int idx = (int)index; float low = read(idx); float high = read(idx+1);`
`float frac = index - idx; return low*frac + high*(1.0-frac);`.
The signed sum `idx+1` is undefined when it overflows. -/
def CircularBuffer.interpolate (cb : CircularBuffer K) (index : K) : Option K :=
  match floatToInt index with
  | none => none
  | some idx =>
    if idx + 1 < 2147483648 then
      match cb.read idx, cb.read (idx + 1) with
      | some low, some high =>
        let frac : K := index - (idx : K)
        some (low * frac + high * (1 - frac))
      | _, _ => none
    else none

end Conversions

/-! ## SilkyVerbPatch.hpp: Node -/

/-- The class `Node`. -/
structure Node (K : Type) where
  delay_samples : Nat
  b0 : K
  a1 : K
  y1 : K
  result : List K
  buffer : CrossFadeBuffer K

namespace Node

variable {K : Type} [LinearOrderedField K] [FloorRing K]

/-- The method `write(float sample)`: `buffer->write(sample);`. -/
def write (nd : Node K) (sample : K) : Option (Node K) :=
  match nd.buffer.toCircularBuffer.write sample with
  | none => none
  | some cb => some { nd with buffer := { nd.buffer with toCircularBuffer := cb } }

/-- The method `filter(float x)`: `y1 = b0*x + a1*y1; return y1;`. -/
def filter (nd : Node K) (x : K) : K × Node K :=
  let y1 := nd.b0 * x + nd.a1 * nd.y1
  (y1, { nd with y1 := y1 })

/-- The method `set(float beta, float fDelaySamples, float fCutoffCoef)`, with the global
`primeNumberTable` and the library function `expf` as parameters. -/
def set (expf : K → K) (table : List Nat) (nd : Node K) (beta fDelaySamples fCutoffCoef : K) :
    Option (Node K) :=
  match floatToInt fDelaySamples with
  | none => none
  | some n =>
    match FindNearestPrime table (toUInt16 n) with
    | none => none
    | some p =>
      let prime_value : K := (p : K)
      match floatToSize (prime_value - (nd.result.length : K)) with
      | none => none
      | some d =>
        let a1 := prime_value * fCutoffCoef
        some { nd with
          delay_samples := d
          a1 := a1
          b0 := ONE_OVER_SQRT8 K * expf (beta * prime_value) * (a1 - 1) }

/-- The loop of `process`, `for(i...) result[i] = filter(result[i]);`: pass `i`. -/
def filterStep (i : Nat) (nd : Node K) : Option (Node K) :=
  match nd.result[i]? with
  | none => none
  | some x =>
    match nd.filter x with
    | (y, nd1) => some { nd1 with result := nd1.result.set i y }

/-- The method `process()`: `buffer->fade(delay_samples, result);` and the filter loop. -/
def process (nd : Node K) : Option (Node K) :=
  match nd.buffer.fade (toInt32 nd.delay_samples) nd.result.length with
  | none => none
  | some (res, buf) =>
    forLoop filterStep res.length { nd with result := res, buffer := buf }

end Node

/-! ## SilkyVerbPatch.hpp: the patch -/

/-- The state of the class `SilkyVerbPatch`; `node k` is the member `node0` ... `node7`. The
`TapTempo` member is outside this repository and enters `processAudio` through the value of
`tempo.getPeriod()*TRIGGER_LIMIT`. -/
structure SilkyVerbPatch (K : Type) where
  tempocounter : Int
  dc : StereoDcFilter K
  delayBufferL : CrossFadeBuffer K
  delayBufferR : CrossFadeBuffer K
  preL : List K
  preR : List K
  fPreDelaySamples : K
  dry_coef : K
  wet_coef0 : K
  wet_coef1 : K
  left_reverb_state : K
  right_reverb_state : K
  node : Fin 8 → Node K

/-- What one call of `processAudio` reads from the host: the two channels of the audio buffer,
the parameters `Size`, `Time`, `Brightness` and `Dry/Wet`, the sample rate, and the 32-bit value
`tempo.getPeriod()*TRIGGER_LIMIT`. -/
structure BlockInput (K : Type) where
  left_input : List K
  right_input : List K
  size : K
  time : K
  cutoff : K
  wet : K
  sampleRate : K
  tempoTime : Nat

/-- What one call of `processAudio` leaves: the two channels of the audio buffer, the values
given to `setParameterValue` for `PARAMETER_F` and `PARAMETER_G`, the value of the last
`setButton(PUSHBUTTON, ...)` if any, and the new state. -/
structure BlockOutput (K : Type) where
  left : List K
  right : List K
  parameterF : K
  parameterG : K
  pushbutton : Option Nat
  state : SilkyVerbPatch K

/-- The loop `while(time > MAX_PREDELAY_SIZE) time >>= 1;` of `delaySamples`. -/
def halveLoop : Nat → Nat → Option Nat
  | 0, _ => none
  | fuel + 1, time => if time > MAX_PREDELAY_SIZE then halveLoop fuel (time / 2) else some time

/-- The loop `while(time < MIN_PREDELAY_SIZE) time <<= 1;` of `delaySamples`. -/
def doubleLoop : Nat → Nat → Option Nat
  | 0, _ => none
  | fuel + 1, time =>
    if time < MIN_PREDELAY_SIZE then doubleLoop fuel ((time * 2) % 4294967296) else some time

/-- The method `delaySamples()` on `time = tempo.getPeriod()*TRIGGER_LIMIT`.  Thirty-two shifts
of a 32-bit value leave zero, so a loop that has not stopped after 33 tests never stops. -/
def delaySamples (time : Nat) : Option Int :=
  match halveLoop 34 (time % 4294967296) with
  | none => none
  | some t =>
    match doubleLoop 34 t with
    | none => none
    | some t => some (toInt32 t)

/-- All eight results of a computation made for each node, or a failure if one fails. -/
def allNodes {α : Type} (f : Fin 8 → Option α) : Option (Fin 8 → α) :=
  if h : ∀ k, (f k).isSome then some (fun k => (f k).get (h k)) else none

section Feedback

variable {K : Type} [Ring K]

/-- Whether the first summand of the sample written to node `k` is `preL[i]` (else `preR[i]`). -/
def usesPreL (k : Fin 8) : Bool :=
  match k with
  | 0 => true | 1 => false | 2 => false | 3 => true
  | 4 => false | 5 => true | 6 => true | 7 => false

/-- The value of `acc` written to node `k` in the eight loops of `processAudio`, from the
pre-delayed sample `pre` and the samples `x 0 ... x 7` of the node results. -/
def feedbackAcc (k : Fin 8) (pre : K) (x : Fin 8 → K) : K :=
  match k with
  | 0 => pre + x 0 + x 1 + x 2 + x 3 - x 4 - x 5 - x 6 - x 7
  | 1 => pre + x 0 + x 1 - x 2 - x 3 + x 4 + x 5 - x 6 - x 7
  | 2 => pre + x 0 + x 1 - x 2 - x 3 - x 4 - x 5 + x 6 + x 7
  | 3 => pre + x 0 - x 1 + x 2 - x 3 + x 4 - x 5 + x 6 - x 7
  | 4 => pre + x 0 - x 1 + x 2 - x 3 - x 4 + x 5 - x 6 + x 7
  | 5 => pre + x 0 - x 1 - x 2 + x 3 + x 4 - x 5 - x 6 + x 7
  | 6 => pre + x 0 - x 1 - x 2 + x 3 - x 4 + x 5 + x 6 - x 7
  | 7 => pre + x 0 + x 1 + x 2 + x 3 + x 4 + x 5 + x 6 + x 7

end Feedback

/-- The sign matrix of the feedback network read off the eight loops: the entry in row `k` and
column `j` is the value of `acc` for node `k` when `x j` is one and every other summand zero. -/
def signMatrix (k j : Fin 8) : Int :=
  feedbackAcc k 0 (fun m => if m = j then 1 else 0)

section Patch

variable {K : Type} [LinearOrderedField K] [FloorRing K]

/-- The value of `fDelaySamples` at the call `node<k>.set(...)`: it starts at
`fRoomSizeSamples` and is multiplied by `ALPHA` between two calls. -/
def fDelaySamplesAt (fRoomSizeSamples : K) : Nat → K
  | 0 => fRoomSizeSamples
  | k + 1 => fDelaySamplesAt fRoomSizeSamples k * ALPHA K

/-- The samples `x0[i] ... x7[i]` of the node results. -/
def samplesAt (x : Fin 8 → List K) (i : Nat) : Option (Fin 8 → K) :=
  allNodes (fun j => (x j)[i]?)

/-- Pass `i` of the loop of `processAudio` that writes to node `k`. -/
def feedStep (k : Fin 8) (preL preR : List K) (x : Fin 8 → List K) (i : Nat) (nd : Node K) :
    Option (Node K) :=
  match (if usesPreL k then preL else preR)[i]?, samplesAt x i with
  | some pre, some xi => nd.write (feedbackAcc k pre xi)
  | _, _ => none

/-- Pass `i` of an output loop of `processAudio`; the state is the samples stored so far,
`reverb_output_state` and `rms`, and `xa ... xd` are the four node results of the channel. -/
def mixStep (dry_coef wet_coef0 wet_coef1 : K) (input xa xb xc xd : List K) (i : Nat)
    (s : List K × K × K) : Option (List K × K × K) :=
  match input[i]?, xa[i]?, xb[i]?, xc[i]?, xd[i]? with
  | some v, some a, some b, some c, some d =>
    let reverb_output := a + b + c + d
    let output_acc := dry_coef * v + wet_coef0 * reverb_output + wet_coef1 * s.2.1
    some (s.1 ++ [output_acc], reverb_output, s.2.2 + reverb_output * reverb_output)
  | _, _, _, _, _ => none

/-- The value of `reverb_output` at position `i` of an output loop over the node results
`xa`, `xb`, `xc`, `xd`:
`*(x0++) + *(x2++) + *(x4++) + *(x6++)` for the left channel. -/
def tapAt (xa xb xc xd : List K) (i : Nat) : K :=
  xa.getD i 0 + xb.getD i 0 + xc.getD i 0 + xd.getD i 0

/-- The value `expf(-6.28318530717959*cutoff)` first given to `fCutoffCoef`. -/
def cutoffCoef (expf : K → K) (inp : BlockInput K) : K :=
  expf (-(628318530717959 / 100000000000000) * inp.cutoff)

/-- The value `time*getSampleRate()` of `fReverbTimeSamples`. -/
def reverbTimeSamples (inp : BlockInput K) : K := inp.time * inp.sampleRate

/-- The value `1.0 - wet` given to `dry_coef`. -/
def dryCoef (inp : BlockInput K) : K := 1 - inp.wet

/-- The local `dryWet` of the branch `wet > 0`. -/
def dryWet (expf : K → K) (inp : BlockInput K) : K :=
  inp.wet * SQRT8 K * (1 - expf (-10 * inp.size / (reverbTimeSamples inp * (1 / 8))))

/-- The value given to `wet_coef0`. -/
def wetCoef0 (expf : K → K) (inp : BlockInput K) : K :=
  if inp.wet > 0 then dryWet expf inp else 0

/-- The value given to `wet_coef1`. -/
def wetCoef1 (expf : K → K) (inp : BlockInput K) : K :=
  if inp.wet > 0 then -cutoffCoef expf inp * dryWet expf inp else 0

/-- The value `-6.90775527898214/fReverbTimeSamples` of `beta`. -/
def betaOf (inp : BlockInput K) : K :=
  -(690775527898214 / 100000000000000) / reverbTimeSamples inp

/-- The configuration of the nodes in `processAudio`:
`fCutoffCoef /= (float)FindNearestPrime(primeNumberTable, fRoomSizeSamples);` and the calls
`node0.set(beta, fDelaySamples, fCutoffCoef)` ... `node7.set(...)`. -/
def configureNodes (expf : K → K) (table : List Nat) (node : Fin 8 → Node K)
    (inp : BlockInput K) : Option (Fin 8 → Node K) := do
  let number ← floatToUInt16 inp.size
  let p0 ← FindNearestPrime table number
  let fCutoffCoef := cutoffCoef expf inp / (p0 : K)
  allNodes (fun k => (node k).set expf table (betaOf inp)
    (fDelaySamplesAt inp.size k) fCutoffCoef)

/-- The pre-delay of `processAudio`: `fPreDelaySamples = delaySamples();`, the block writes
to the two pre-delay buffers and the two calls of `fade`.  The result is `fPreDelaySamples`,
`preL`, `preR` and the two buffers. -/
def preDelay (st : SilkyVerbPatch K) (left_input right_input : List K) (tempoTime : Nat) :
    Option (K × List K × List K × CrossFadeBuffer K × CrossFadeBuffer K) := do
  let t ← delaySamples tempoTime
  let fPreDelaySamples : K := (t : K)
  let cbL ← st.delayBufferL.toCircularBuffer.writeBlock left_input
  let cbR ← st.delayBufferR.toCircularBuffer.writeBlock right_input
  let newReadIndex ← floatToInt fPreDelaySamples
  let fL ← ({ st.delayBufferL with toCircularBuffer := cbL } : CrossFadeBuffer K).fade
    newReadIndex st.preL.length
  let fR ← ({ st.delayBufferR with toCircularBuffer := cbR } : CrossFadeBuffer K).fade
    newReadIndex st.preR.length
  pure (fPreDelaySamples, fL.1, fR.1, fL.2, fR.2)

/-- The update of `tempocounter` and of the push button in `processAudio`; the result is the
new `tempocounter` and the value given to `setButton(PUSHBUTTON, ...)` if it is called. -/
def tempoButton (tempocounter : Int) (len : Nat) (fPreDelaySamples : K) :
    Option (Int × Option Nat) :=
  let tempocounter := toInt32 (tempocounter + len)
  if fPreDelaySamples ≠ 0 ∧ (tempocounter : K) ≥ fPreDelaySamples then
    (floatToInt ((tempocounter : K) - fPreDelaySamples)).map (fun c => (c, some 4095))
  else if (tempocounter : K) > fPreDelaySamples / 4 then some (tempocounter, some 0)
  else some (tempocounter, none)

/-- The method `processAudio(AudioBuffer &buffer)`, with the global `primeNumberTable` and the
library functions `expf` and `sqrtf` as parameters. -/
def processAudio (expf sqrtf : K → K) (table : List Nat) (st : SilkyVerbPatch K)
    (inp : BlockInput K) : Option (BlockOutput K) := do
  let len := inp.left_input.length
  -- dc.process(buffer)
  let dcL := st.dc.left.processBlock inp.left_input
  let dcR := st.dc.right.processBlock inp.right_input
  let left_input := dcL.1
  let right_input := dcR.1
  -- coefficients and node0.set(...) ... node7.set(...)
  let dry_coef := dryCoef inp
  let wet_coef0 := wetCoef0 expf inp
  let wet_coef1 := wetCoef1 expf inp
  let node1 ← configureNodes expf table st.node inp
  -- pre-delay, tempo counter and push button
  let pre ← preDelay st left_input right_input inp.tempoTime
  let fPreDelaySamples := pre.1
  let preL := pre.2.1
  let preR := pre.2.2.1
  let tb ← tempoButton st.tempocounter len fPreDelaySamples
  -- the node results of the previous block
  let x : Fin 8 → List K := fun k => (node1 k).result
  -- the eight loops writing to the nodes
  let node2 ← allNodes (fun k => forLoop (feedStep k preL preR x) len (node1 k))
  -- the two output loops
  let mixL ← forLoop (mixStep dry_coef wet_coef0 wet_coef1 left_input (x 0) (x 2) (x 4) (x 6))
    len ([], st.left_reverb_state, 0)
  let mixR ← forLoop (mixStep dry_coef wet_coef0 wet_coef1 right_input (x 1) (x 3) (x 5) (x 7))
    len ([], st.right_reverb_state, 0)
  -- node0.process() ... node7.process()
  let node3 ← allNodes (fun k => (node2 k).process)
  pure {
    left := mixL.1
    right := mixR.1
    parameterF := sqrtf (mixL.2.2 / (len : K))
    parameterG := sqrtf (mixR.2.2 / (len : K))
    pushbutton := tb.2
    state := {
      tempocounter := tb.1
      dc := { left := dcL.2, right := dcR.2 }
      delayBufferL := pre.2.2.2.1
      delayBufferR := pre.2.2.2.2
      preL := preL
      preR := preR
      fPreDelaySamples := fPreDelaySamples
      dry_coef := dry_coef
      wet_coef0 := wet_coef0
      wet_coef1 := wet_coef1
      left_reverb_state := mixL.2.1
      right_reverb_state := mixR.2.1
      node := node3 } }

end Patch


/-! ## The `float` operations and their rounding -/

section Rounding

variable {K : Type} [LinearOrderedField K]

/-- The standard model of floating-point arithmetic: `fl n` is the rounding made by the `n`-th
`float` operation of a computation, and every rounded result has a relative error of at most
`u`. -/
def IsRounding (u : K) (fl : Nat → K → K) : Prop :=
  ∀ (n : Nat) (x : K), |fl n x - x| ≤ u * |x|

variable [FloorRing K]

/-- The integer nearest to `x`, the even one of the two when `x` is half-way between them. -/
def roundHalfEven (x : K) : Int :=
  if 2 * (x - (Int.floor x : K)) < 1 then Int.floor x
  else if 1 < 2 * (x - (Int.floor x : K)) then Int.floor x + 1
  else if Int.floor x % 2 = 0 then Int.floor x else Int.floor x + 1

/-- Rounding to the binary floating-point format with `t + 1` significant bits: to nearest,
ties to even. The range of the exponent is not modelled (no overflow, no subnormal
numbers). -/
def roundBits (t : Nat) (x : K) : K :=
  if x = 0 then 0
  else (roundHalfEven (x / (2 : K) ^ (Int.log 2 |x| - (t : Int))) : K)
    * (2 : K) ^ (Int.log 2 |x| - (t : Int))

/-- Rounding to `float` (binary32, 24 significant bits). -/
def round32 (x : K) : K := roundBits 23 x

/-- Rounding to `double` (binary64, 53 significant bits). -/
def round64 (x : K) : K := roundBits 52 x

end Rounding

namespace CrossFadeBuffer

variable {K : Type} [Field K]

/-- The first `n` passes of the loop of `fade` with the rounding of its `float` operations made
explicit: `x1 = i/(float)len`, `x0 = 1.0-x1`, the two products and their sum are each rounded by
`fl`. With `fl` the identity this is `fadeLoop`. -/
def fadeLoopFl (fl : K → K) (cb : CrossFadeBuffer K) (newReadIndex : Int) (len : Nat) :
    Nat → Option (List K)
  | 0 => some []
  | i + 1 =>
    match fadeLoopFl fl cb newReadIndex len i with
    | none => none
    | some dst =>
      let x1 : K := fl ((i : K) / (len : K))
      let x0 : K := fl (1 - x1)
      match cb.toCircularBuffer.read (toInt32 (cb.readIndex + len - i)),
            cb.toCircularBuffer.read (toInt32 (newReadIndex + len - i)) with
      | some a, some b => some (dst ++ [fl (fl (a * x0) + fl (b * x1))])
      | _, _ => none

end CrossFadeBuffer

namespace Node

variable {K : Type} [LinearOrderedField K] [FloorRing K]

/-- The method `set` with the rounding of its `float` operations made explicit, the operations
numbered in the order of evaluation: `fl 0` rounds `prime_value*fCutoffCoef`, `fl 1` rounds
`beta*prime_value`, `fl 2` rounds the constant `ONE_OVER_SQRT8`, `fl 3` rounds
`ONE_OVER_SQRT8*expf(...)`, `fl 4` rounds `a1-1`, `fl 5` rounds the product by `(a1-1)` and
`fl 6` rounds the value assigned to `b0`. The conversions between integers and `float` are
exact for values below `2^24`. With `fl` the identity this is `set`. -/
def setFl (fl : Nat → K → K) (expf : K → K) (table : List Nat) (nd : Node K)
    (beta fDelaySamples fCutoffCoef : K) : Option (Node K) :=
  match floatToInt fDelaySamples with
  | none => none
  | some n =>
    match FindNearestPrime table (toUInt16 n) with
    | none => none
    | some p =>
      let prime_value : K := (p : K)
      match floatToSize (prime_value - (nd.result.length : K)) with
      | none => none
      | some d =>
        let a1 := fl 0 (prime_value * fCutoffCoef)
        some { nd with
          delay_samples := d
          a1 := a1
          b0 := fl 6 (fl 5 (fl 3 (fl 2 (ONE_OVER_SQRT8 K) * expf (fl 1 (beta * prime_value)))
            * fl 4 (a1 - 1))) }

/-- The rounding of the operations of `set` in the code: `ONE_OVER_SQRT8` is a `double`
constant, so the two products of `ONE_OVER_SQRT8*expf(...)*(a1-1)` are made in `double`
(operations 2, 3 and 5); the other operations have `float` operands and a `float` result. -/
def setRounding : Nat → K → K
  | 2 => round64
  | 3 => round64
  | 5 => round64
  | _ => round32

end Node

section ChainDefs

variable {K : Type} [LinearOrderedField K] [FloorRing K]

/-- The value of `fDelaySamples` at the call `node<k>.set(...)` with the rounding of the `float`
variable made explicit: `fl k` rounds the result of the statement `fDelaySamples *= ALPHA;`
that stands between the calls for node `k` and node `k + 1` (the product is made in `double`
with the constant `ALPHA` and converted to `float`). With `fl` the identity this is
`fDelaySamplesAt`. -/
def fDelaySamplesFl (fl : Nat → K → K) (fRoomSizeSamples : K) : Nat → K
  | 0 => fRoomSizeSamples
  | k + 1 => fl k (fDelaySamplesFl fl fRoomSizeSamples k * ALPHA K)

/-- The configuration of the nodes in `processAudio` with the rounding of the statements
`fDelaySamples *= ALPHA;` made explicit. With `fl` the identity this is `configureNodes`. -/
def configureNodesFl (fl : Nat → K → K) (expf : K → K) (table : List Nat)
    (node : Fin 8 → Node K) (inp : BlockInput K) : Option (Fin 8 → Node K) := do
  let number ← floatToUInt16 inp.size
  let p0 ← FindNearestPrime table number
  let fCutoffCoef := cutoffCoef expf inp / (p0 : K)
  allNodes (fun k => (node k).set expf table (betaOf inp)
    (fDelaySamplesFl fl inp.size k) fCutoffCoef)

end ChainDefs

/-! ## The `float` values that are not finite -/

section FloatRange

variable (K : Type) [LinearOrderedField K]

/-- The largest finite `float`, `FLT_MAX = (2 - 2^-23) * 2^127` (about `3.4e38`); a `float`
operation whose result is beyond it gives an infinity. -/
def FLT_MAX : K := (2 - 1 / 2 ^ 23) * 2 ^ 127

end FloatRange

/-- A value of the type `float`: a finite number, or a value that is not finite (an infinity
or a NaN). -/
inductive FloatValue (K : Type) where
  | finite (x : K) : FloatValue K
  | notFinite : FloatValue K

namespace FloatValue

variable {K : Type} [LinearOrderedField K]

/-- The `float` result of an operation whose exact result is `x`: it is finite unless `x` is
beyond `FLT_MAX`, where the operation overflows to an infinity. The rounding of a finite
result is not modelled. -/
def ofExact (x : K) : FloatValue K :=
  if |x| ≤ FLT_MAX K then finite x else notFinite

/-- The sum of two `float` values: not finite when an operand is not finite or the sum
overflows. -/
def add : FloatValue K → FloatValue K → FloatValue K
  | finite x, finite y => ofExact (x + y)
  | _, _ => notFinite

/-- The product of two `float` values: not finite when an operand is not finite (the product
of zero and an infinity is a NaN) or the product overflows. -/
def mul : FloatValue K → FloatValue K → FloatValue K
  | finite x, finite y => ofExact (x * y)
  | _, _ => notFinite

end FloatValue

section MixSample

variable {K : Type} [LinearOrderedField K]

/-- The sample that one pass of an output loop of `processAudio` stores, on `float` values that
may not be finite: `output_acc = dry_coef * (*input++);`
`reverb_output = *(x0++) + *(x2++) + *(x4++) + *(x6++);`
`output_acc += wet_coef0 * reverb_output; output_acc += wet_coef1 * reverb_output_state;`. -/
def mixSample (dry_coef wet_coef0 wet_coef1 input xa xb xc xd reverb_output_state :
    FloatValue K) : FloatValue K :=
  let output_acc := dry_coef.mul input
  let reverb_output := ((xa.add xb).add xc).add xd
  let output_acc := output_acc.add (wet_coef0.mul reverb_output)
  output_acc.add (wet_coef1.mul reverb_output_state)

end MixSample

/-! ## TempoSyncedPingPongDelayPatch.hpp: the ratio control -/

namespace TempoSyncedPingPongDelayPatch

/-- The constant `RATIOS_COUNT`. -/
def RATIOS_COUNT : Nat := 9

/-- The table `counters[RATIOS_COUNT]`. -/
def counters : List Nat := [1, 1, 1, 1, 1, 3, 2, 3, 4]

section Tables

variable (K : Type) [LinearOrderedField K]

/-- The table `ratios[RATIOS_COUNT]`. -/
def ratios : List K := [1 / 4, 1 / 3, 1 / 2, 3 / 4, 1, 3 / 2, 2, 3, 4]

end Tables

section Ratios

variable {K : Type} [LinearOrderedField K] [FloorRing K]

/-- The assignment `ratio = (int)(getParameterValue(PARAMETER_C) * RATIOS_COUNT);` of
`processAudio`, on the value `v` of the parameter. -/
def ratioOf (v : K) : Option Int := floatToInt (v * (RATIOS_COUNT : K))

/-- The method `delayTime(int ratio)` on the value `period` of `tempo.getPeriod()`:
`float time = tempo.getPeriod() * ratios[ratio]; time = max(0.0001, min(0.9999, time));`.
An index outside the table is undefined. -/
def delayTime (period : K) (ratio : Int) : Option K :=
  if 0 ≤ ratio then
    match (ratios K)[ratio.toNat]? with
    | none => none
    | some r => some (max (1 / 10000) (min (9999 / 10000) (period * r)))
  else none

end Ratios

/-- The read `counters[ratio]` of `buttonChanged`. -/
def counterOf (ratio : Int) : Option Nat :=
  if 0 ≤ ratio then counters[ratio.toNat]? else none

end TempoSyncedPingPongDelayPatch

/-! ## The state set up by the constructors -/

section Invariant

variable {K : Type} [LinearOrderedField K] [FloorRing K]

/-- The constructor `DcFilter(float lambda = 0.995)`. -/
def DcFilter.init : DcFilter K := { lambda := 995 / 1000, x1 := 0, y1 := 0 }

/-- The constructor `Node(size_t bufsize)`: a result array of `bufsize` samples and a buffer of
`BUFFER_LIMIT` samples, both cleared; `delay_samples`, which the constructor leaves unset, is
taken to be zero. -/
def Node.init (bufsize : Nat) : Node K :=
  { delay_samples := 0
    b0 := -ONE_OVER_SQRT8 K
    a1 := 0
    y1 := 0
    result := List.replicate bufsize 0
    buffer := { buffer := List.replicate BUFFER_LIMIT 0, writeIndex := 0, readIndex := 0 } }

/-- The constructor `SilkyVerbPatch()` for the block size `getBlockSize() = blockSize`; the
members it leaves unset are taken to be zero. -/
def SilkyVerbPatch.init (blockSize : Nat) : SilkyVerbPatch K :=
  { tempocounter := 0
    dc := { left := DcFilter.init, right := DcFilter.init }
    delayBufferL :=
      { buffer := List.replicate MAX_PREDELAY_SIZE 0, writeIndex := 0, readIndex := 0 }
    delayBufferR :=
      { buffer := List.replicate MAX_PREDELAY_SIZE 0, writeIndex := 0, readIndex := 0 }
    preL := List.replicate blockSize 0
    preR := List.replicate blockSize 0
    fPreDelaySamples := 0
    dry_coef := 0
    wet_coef0 := 0
    wet_coef1 := 0
    left_reverb_state := 0
    right_reverb_state := 0
    node := fun _ => Node.init blockSize }

/-- The shape of the state of the patch for the block size `L`, as the constructor sets it up:
arrays of `L` samples, pre-delay buffers of `MAX_PREDELAY_SIZE` samples and node buffers of
`BUFFER_LIMIT` samples, with the write cursors inside the buffers. -/
structure SilkyVerbPatch.WellFormed (st : SilkyVerbPatch K) (L : Nat) : Prop where
  preL_length : st.preL.length = L
  preR_length : st.preR.length = L
  delayL_size : st.delayBufferL.toCircularBuffer.getSize = MAX_PREDELAY_SIZE
  delayR_size : st.delayBufferR.toCircularBuffer.getSize = MAX_PREDELAY_SIZE
  delayL_index : st.delayBufferL.writeIndex < MAX_PREDELAY_SIZE
  delayR_index : st.delayBufferR.writeIndex < MAX_PREDELAY_SIZE
  result_length : ∀ k, (st.node k).result.length = L
  node_size : ∀ k, (st.node k).buffer.toCircularBuffer.getSize = BUFFER_LIMIT
  node_index : ∀ k, (st.node k).buffer.writeIndex < BUFFER_LIMIT

/-- The input of a block of `L` samples per channel with the `Size` parameter inside its range
`[MIN_ROOM_SIZE, MAX_ROOM_SIZE]`. -/
structure BlockInput.InRange (inp : BlockInput K) (L : Nat) : Prop where
  left_length : inp.left_input.length = L
  right_length : inp.right_input.length = L
  size_min : MIN_ROOM_SIZE K ≤ inp.size
  size_max : inp.size ≤ MAX_ROOM_SIZE K

end Invariant

/-! # Theorems -/

/-! ## Machine integers -/

theorem toUInt32_sub_toInt32 (w z : Int) : toUInt32 (w - toInt32 z) = toUInt32 (w - z) := by
  unfold toUInt32 toInt32
  congr 1
  omega

theorem toUInt32_natCast {n : Nat} (h : n < 4294967296) : toUInt32 (n : Int) = n := by
  unfold toUInt32
  omega

theorem toInt32_natCast {n : Nat} (h : n < 2147483648) : toInt32 (n : Int) = n := by
  unfold toInt32
  omega

theorem toInt32_range (z : Int) : -2147483648 ≤ toInt32 z ∧ toInt32 z < 2147483648 := by
  unfold toInt32
  omega

theorem toUInt32_cast (z : Int) : ((toUInt32 z : Nat) : Int) = z % 4294967296 := by
  unfold toUInt32
  exact Int.toNat_of_nonneg (Int.emod_nonneg _ (by norm_num))

theorem toUInt16_of_range {z : Int} (h0 : 0 ≤ z) (h1 : z < 65536) : toUInt16 z = z.toNat := by
  unfold toUInt16
  rw [Int.emod_eq_of_lt h0 h1]

/-- Two 32-bit unsigned values whose difference is a multiple of a capacity that divides
`2^32` select the same slot. -/
theorem slot_congr (N : Nat) (hN : (N : Int) ∣ 4294967296) (x y : Int) (i : Nat)
    (h : (N : Int) ∣ (x + i - y)) : (toUInt32 x % N + i) % N = toUInt32 y % N := by
  rw [Nat.mod_add_mod]
  zify
  rw [toUInt32_cast, toUInt32_cast, Int.emod_emod_of_dvd _ hN]
  rw [Int.add_emod, Int.emod_emod_of_dvd _ hN, ← Int.add_emod]
  exact Int.emod_eq_emod_iff_emod_sub_eq_zero.2 (Int.emod_eq_zero_of_dvd h)

/-! ## CircularBuffer: `write(float)` and `read` -/

namespace CircularBuffer

variable {K : Type}

theorem read_toInt32 (cb : CircularBuffer K) (z : Int) : cb.read (toInt32 z) = cb.read z := by
  unfold read
  rw [toUInt32_sub_toInt32]

theorem read_isSome (cb : CircularBuffer K) (h : 0 < cb.getSize) (z : Int) :
    ∃ a, cb.read z = some a := by
  unfold read
  rw [if_neg (by omega)]
  have hlt : toUInt32 ((cb.writeIndex : Int) - z) % cb.getSize < cb.buffer.length :=
    Nat.mod_lt _ h
  exact ⟨cb.buffer[toUInt32 ((cb.writeIndex : Int) - z) % cb.getSize], List.getElem?_eq_getElem hlt⟩

/-- The slot read by `read(k)`, for a capacity that divides `2^32`. -/
theorem read_eq_slot (cb : CircularBuffer K) (e : Nat) (he : e ≤ 32) (hN : cb.getSize = 2 ^ e)
    (k : Nat) (hk : k ≤ cb.getSize) :
    cb.read k = cb.buffer[(cb.writeIndex + cb.getSize - k) % cb.getSize]? := by
  have hpos : 0 < cb.getSize := by rw [hN]; positivity
  unfold read
  rw [if_neg (by omega)]
  congr 1
  have hdvd : ((cb.getSize : Int)) ∣ 4294967296 := by
    rw [hN]
    have : (4294967296 : Int) = 2 ^ 32 := by norm_num
    rw [this]
    push_cast
    exact pow_dvd_pow 2 he
  unfold toUInt32
  zify
  rw [Int.toNat_of_nonneg (Int.emod_nonneg _ (by norm_num)), Int.emod_emod_of_dvd _ hdvd]
  rw [Nat.cast_sub (by omega)]
  push_cast
  have : (cb.writeIndex : Int) + cb.getSize - k = (cb.writeIndex - k) + cb.getSize := by ring
  rw [this, Int.add_emod_self]

theorem write_eq (cb : CircularBuffer K) (v : K) (hw : cb.writeIndex < cb.getSize)
    (hN : cb.getSize ≤ 4294967296) :
    cb.write v = some { buffer := cb.buffer.set ((cb.writeIndex + 1) % cb.getSize) v,
                        writeIndex := (cb.writeIndex + 1) % cb.getSize } := by
  unfold write
  unfold getSize at *
  dsimp only
  by_cases h1 : cb.writeIndex + 1 = cb.buffer.length
  · have hz : (cb.writeIndex + 1) % cb.buffer.length = 0 := by rw [h1]; exact Nat.mod_self _
    have hpos : 0 < cb.buffer.length := by omega
    by_cases h2 : cb.buffer.length = 4294967296
    · have h3 : (cb.writeIndex + 1) % 4294967296 = 0 := by rw [h1, h2]
      rw [h3, hz]
      simp [hpos]
    · have h3 : (cb.writeIndex + 1) % 4294967296 = cb.buffer.length := by
        rw [h1]; exact Nat.mod_eq_of_lt (by omega)
      rw [h3, hz]
      simp [hpos]
  · have h3 : (cb.writeIndex + 1) % 4294967296 = cb.writeIndex + 1 :=
      Nat.mod_eq_of_lt (by omega)
    have h4 : (cb.writeIndex + 1) % cb.buffer.length = cb.writeIndex + 1 :=
      Nat.mod_eq_of_lt (by omega)
    have h5 : cb.writeIndex + 1 < cb.buffer.length := by omega
    rw [h3, h4]
    simp [h1, h5]

/-- The invariant of sample-by-sample writing: the history `h` (latest sample first) is stored
backwards from the write cursor. -/
theorem writeAll_history (s : List K) : ∀ (cb : CircularBuffer K) (h : List K),
    cb.writeIndex < cb.getSize → cb.getSize ≤ 4294967296 →
    (∀ k, k < h.length → k < cb.getSize →
      cb.buffer[(cb.writeIndex + cb.getSize - k) % cb.getSize]? = h[k]?) →
    ∃ cb1, cb.writeAll s = some cb1 ∧ cb1.getSize = cb.getSize ∧
      cb1.writeIndex < cb1.getSize ∧
      ∀ k, k < (s.reverse ++ h).length → k < cb1.getSize →
        cb1.buffer[(cb1.writeIndex + cb1.getSize - k) % cb1.getSize]? = (s.reverse ++ h)[k]? := by
  induction s with
  | nil =>
    intro cb h hw _ hh
    exact ⟨cb, rfl, rfl, hw, by simpa using hh⟩
  | cons v vs ih =>
    intro cb h hw hN hh
    have hpos : 0 < cb.getSize := by omega
    have hwr := write_eq cb v hw hN
    have hlt : (cb.writeIndex + 1) % cb.getSize < cb.getSize := Nat.mod_lt _ hpos
    obtain ⟨cb1, h1, h2, h3, h4⟩ := ih
      { buffer := cb.buffer.set ((cb.writeIndex + 1) % cb.getSize) v,
        writeIndex := (cb.writeIndex + 1) % cb.getSize } (v :: h)
      (by simpa [getSize] using hlt) (by simpa [getSize] using hN)
      (by
        intro k hk hkN
        simp only [getSize, List.length_set] at hkN ⊢
        simp only [getSize] at hlt hh hpos hw
        rcases k with _ | k
        · simp only [Nat.sub_zero, Nat.add_mod_right, Nat.mod_mod, List.getElem?_cons_zero]
          rw [List.getElem?_set_self hlt]
        · simp only [List.getElem?_cons_succ]
          have hidx : ((cb.writeIndex + 1) % cb.buffer.length + cb.buffer.length - (k + 1))
              % cb.buffer.length = (cb.writeIndex + cb.buffer.length - k) % cb.buffer.length := by
            by_cases hc : cb.writeIndex + 1 = cb.buffer.length
            · rw [hc, Nat.mod_self]
              have : cb.writeIndex + cb.buffer.length - k
                  = (0 + cb.buffer.length - (k + 1)) + cb.buffer.length := by omega
              rw [this, Nat.add_mod_right]
            · rw [Nat.mod_eq_of_lt (show cb.writeIndex + 1 < cb.buffer.length by omega)]
              congr 1
              omega
          rw [hidx]
          have hne : (cb.writeIndex + 1) % cb.buffer.length
              ≠ (cb.writeIndex + cb.buffer.length - k) % cb.buffer.length := by
            by_cases hc : cb.writeIndex + 1 = cb.buffer.length
            · rw [hc, Nat.mod_self]
              by_cases hk0 : k ≤ cb.writeIndex
              · have : cb.writeIndex + cb.buffer.length - k
                    = (cb.writeIndex - k) + cb.buffer.length := by omega
                rw [this, Nat.add_mod_right, Nat.mod_eq_of_lt (by omega)]
                omega
              · rw [Nat.mod_eq_of_lt (by omega)]
                omega
            · rw [Nat.mod_eq_of_lt (show cb.writeIndex + 1 < cb.buffer.length by omega)]
              by_cases hk0 : k ≤ cb.writeIndex
              · have : cb.writeIndex + cb.buffer.length - k
                    = (cb.writeIndex - k) + cb.buffer.length := by omega
                rw [this, Nat.add_mod_right, Nat.mod_eq_of_lt (by omega)]
                omega
              · rw [Nat.mod_eq_of_lt (by omega)]
                omega
          rw [List.getElem?_set_ne hne]
          exact hh k (by simpa using hk) (by omega))
    refine ⟨cb1, ?_, ?_, h3, ?_⟩
    · simp only [writeAll, hwr, Option.some_bind]
      exact h1
    · rw [h2]; simp [getSize]
    · intro k hk hkN
      have := h4 k (by simpa using hk) hkN
      rw [this]
      simp

/-- Claim C2: for a buffer whose capacity is a power of two, after the samples of `s` have been
written one at a time with `write(float)`, `read(k)` returns the sample written `k` writes
before the last one, for every `k` below both the number of samples written and the capacity;
`read(0)` is the last sample written. -/
theorem read_after_writes (cb : CircularBuffer K) (e : Nat) (he : e < 32)
    (hN : cb.getSize = 2 ^ e) (hw : cb.writeIndex < cb.getSize) (s : List K) :
    ∃ cb1, cb.writeAll s = some cb1 ∧
      ∀ k : Nat, k < min s.length cb.getSize →
        ∃ v, s[s.length - 1 - k]? = some v ∧ cb1.read (k : Int) = some v := by
  have hle : cb.getSize ≤ 4294967296 := by
    rw [hN]
    calc 2 ^ e ≤ 2 ^ 32 := Nat.pow_le_pow_right (by norm_num) (by omega)
      _ = 4294967296 := by norm_num
  obtain ⟨cb1, h1, h2, _, h4⟩ := writeAll_history s cb [] hw hle (by simp)
  refine ⟨cb1, h1, ?_⟩
  intro k hk
  have hks : k < s.length := lt_of_lt_of_le hk (min_le_left _ _)
  have hkN : k < cb.getSize := lt_of_lt_of_le hk (min_le_right _ _)
  have hidx : s.length - 1 - k < s.length := by omega
  refine ⟨s[s.length - 1 - k], List.getElem?_eq_getElem hidx, ?_⟩
  rw [read_eq_slot cb1 e (by omega) (by rw [h2, hN]) k (by omega)]
  rw [h4 k (by simpa using hks) (by omega)]
  rw [List.append_nil, List.getElem?_reverse hks]
  exact List.getElem?_eq_getElem hidx

theorem read_after_writes_witness :
    ((CircularBuffer.mk [0, 0, 0, 0] 0 : CircularBuffer ℚ).getSize = 2 ^ 2 ∧
      (CircularBuffer.mk [0, 0, 0, 0] 0 : CircularBuffer ℚ).writeIndex
        < (CircularBuffer.mk [0, 0, 0, 0] 0 : CircularBuffer ℚ).getSize) ∧
    ∃ cb1, (CircularBuffer.mk [0, 0, 0, 0] 0 : CircularBuffer ℚ).writeAll [1, 2, 3, 4, 5, 6]
        = some cb1 ∧
      ∀ k : Nat, k < min ([1, 2, 3, 4, 5, 6] : List ℚ).length
          (CircularBuffer.mk [0, 0, 0, 0] 0 : CircularBuffer ℚ).getSize →
        ∃ v, ([1, 2, 3, 4, 5, 6] : List ℚ)[([1, 2, 3, 4, 5, 6] : List ℚ).length - 1 - k]?
          = some v ∧ cb1.read (k : Int) = some v :=
  ⟨⟨rfl, by decide⟩,
    read_after_writes (CircularBuffer.mk [0, 0, 0, 0] 0) 2 (by decide) rfl (by decide)
      [1, 2, 3, 4, 5, 6]⟩

end CircularBuffer

/-! ## CircularBuffer: the block write -/

namespace CircularBuffer

variable {K : Type}

theorem writeLoop1_spec (source : List K) (N : Nat) :
    ∀ (fuel : Nat) (buf : List K) (ptr cnt s : Nat), buf.length = N → ptr ≤ N →
      N - ptr < fuel → s + cnt ≤ source.length →
      ∃ buf1, writeLoop1 source N fuel buf ptr (cnt : Int) s
          = some (buf1, (if cnt < N - ptr then -1 else ((cnt - (N - ptr) : Nat) : Int)),
              s + min cnt (N - ptr)) ∧
        buf1.length = N ∧
        ∀ j, buf1[j]? =
          if ptr ≤ j ∧ j < ptr + min cnt (N - ptr) then source[s + (j - ptr)]? else buf[j]? := by
  intro fuel
  induction fuel with
  | zero => intro buf ptr cnt s _ _ h; omega
  | succ fuel ih =>
    intro buf ptr cnt s hlen hptr hf hs
    by_cases hp : ptr < N
    · rcases cnt with _ | c
      · refine ⟨buf, ?_, hlen, ?_⟩
        · simp only [writeLoop1]
          rw [if_pos hp]
          simp [show 0 < N - ptr by omega]
        · intro j
          rw [if_neg (by simp)]
      · have hsv : s < source.length := by omega
        obtain ⟨buf1, h1, h2, h3⟩ := ih (buf.set ptr source[s]) (ptr + 1) c (s + 1)
          (by simpa using hlen) (by omega) (by omega) (by omega)
        refine ⟨buf1, ?_, h2, ?_⟩
        · simp only [writeLoop1]
          rw [if_pos hp, if_pos (by push_cast; omega), List.getElem?_eq_getElem hsv]
          simp only []
          rw [if_pos (by omega)]
          have hc : ((c + 1 : Nat) : Int) - 1 = (c : Int) := by push_cast; ring
          rw [hc, h1]
          have e1 : s + 1 + min c (N - (ptr + 1)) = s + min (c + 1) (N - ptr) := by
            simp only [Nat.min_def]
            split_ifs <;> omega
          have e2 : (if c < N - (ptr + 1) then (-1 : Int) else ((c - (N - (ptr + 1)) : Nat) : Int))
              = (if c + 1 < N - ptr then (-1 : Int) else ((c + 1 - (N - ptr) : Nat) : Int)) := by
            by_cases hlt : c < N - (ptr + 1)
            · rw [if_pos hlt, if_pos (by omega)]
            · rw [if_neg hlt, if_neg (by omega)]
              congr 1
              omega
          rw [e1, e2]
        · intro j
          rw [h3 j]
          by_cases hj : ptr = j
          · subst hj
            rw [if_neg (by omega), if_pos (by omega), List.getElem?_set_self (by omega)]
            simp [List.getElem?_eq_getElem hsv]
          · rw [List.getElem?_set_ne hj]
            by_cases hc : ptr + 1 ≤ j ∧ j < ptr + 1 + min c (N - (ptr + 1))
            · rw [if_pos hc, if_pos (by omega)]
              congr 1
              omega
            · rw [if_neg hc, if_neg (by omega)]
    · have hpe : ptr = N := by omega
      refine ⟨buf, ?_, hlen, ?_⟩
      · simp only [writeLoop1]
        rw [if_neg hp]
        simp [hpe]
      · intro j
        rw [if_neg (by omega)]

theorem writeLoop2_spec (source : List K) (N : Nat) :
    ∀ (fuel : Nat) (buf : List K) (ptr : Nat) (cnt : Int) (s : Nat), buf.length = N →
      ptr + cnt.toNat ≤ N → cnt.toNat < fuel → s + cnt.toNat ≤ source.length →
      ∃ buf1, writeLoop2 source fuel buf ptr cnt s = some buf1 ∧ buf1.length = N ∧
        ∀ j, buf1[j]? =
          if ptr ≤ j ∧ j < ptr + cnt.toNat then source[s + (j - ptr)]? else buf[j]? := by
  intro fuel
  induction fuel with
  | zero => intro buf ptr cnt s _ _ h; omega
  | succ fuel ih =>
    intro buf ptr cnt s hlen hptr hf hs
    by_cases hc : cnt > 0
    · have hsv : s < source.length := by omega
      obtain ⟨buf1, h1, h2, h3⟩ := ih (buf.set ptr source[s]) (ptr + 1) (cnt - 1) (s + 1)
        (by simpa using hlen) (by omega) (by omega) (by omega)
      refine ⟨buf1, ?_, h2, ?_⟩
      · simp only [writeLoop2]
        rw [if_pos hc, List.getElem?_eq_getElem hsv]
        simp only []
        rw [if_pos (by omega)]
        exact h1
      · intro j
        rw [h3 j]
        by_cases hj : ptr = j
        · subst hj
          rw [if_neg (by omega), if_pos (by omega), List.getElem?_set_self (by omega)]
          simp [List.getElem?_eq_getElem hsv]
        · rw [List.getElem?_set_ne hj]
          by_cases hc2 : ptr + 1 ≤ j ∧ j < ptr + 1 + (cnt - 1).toNat
          · rw [if_pos hc2, if_pos (by omega)]
            congr 1
            omega
          · rw [if_neg hc2, if_neg (by omega)]
    · refine ⟨buf, ?_, hlen, ?_⟩
      · simp only [writeLoop2]
        rw [if_neg hc]
      · intro j
        rw [if_neg (by omega)]

/-- What the block write does: the samples go to the slots from the old write cursor on,
wrapping to slot 0 at the end of the storage. -/
theorem writeBlock_spec (cb : CircularBuffer K) (source : List K)
    (hw : cb.writeIndex ≤ cb.getSize) (hL : source.length ≤ cb.getSize)
    (hN : cb.getSize < 2147483648) :
    ∃ cb1, cb.writeBlock source = some cb1 ∧ cb1.getSize = cb.getSize ∧
      cb1.writeIndex = (cb.writeIndex + source.length) &&& (cb.getSize - 1) ∧
      ∀ j, cb1.buffer[j]? =
        if cb.writeIndex ≤ j ∧ j < cb.writeIndex + source.length ∧ j < cb.getSize then
          source[j - cb.writeIndex]?
        else if j + cb.getSize < cb.writeIndex + source.length then
          source[j + cb.getSize - cb.writeIndex]?
        else cb.buffer[j]? := by
  unfold getSize at *
  obtain ⟨buf1, a1, a2, a3⟩ := writeLoop1_spec source cb.buffer.length (cb.buffer.length + 1)
    cb.buffer cb.writeIndex source.length 0 rfl hw (by omega) (by omega)
  obtain ⟨buf2, b1, b2, b3⟩ := writeLoop2_spec source cb.buffer.length (source.length + 1) buf1 0
    (if source.length < cb.buffer.length - cb.writeIndex then -1
      else ((source.length - (cb.buffer.length - cb.writeIndex) : Nat) : Int))
    (0 + min source.length (cb.buffer.length - cb.writeIndex)) a2
    (by split_ifs <;> simp; omega) (by split_ifs <;> simp; omega)
    (by split_ifs <;> simp; omega)
  refine ⟨{ buffer := buf2, writeIndex :=
    (cb.writeIndex + source.length) &&& (cb.buffer.length - 1) }, ?_, b2, rfl, ?_⟩
  · unfold writeBlock getSize
    simp only [toInt32_natCast (show source.length < 2147483648 by omega), a1, b1]
    congr 2
    by_cases h0 : cb.buffer.length = 0
    · have hw0 : cb.writeIndex = 0 := by omega
      have hl0 : source.length = 0 := by omega
      simp [h0, hw0, hl0, toUInt32]
    · have e1 : ((cb.buffer.length : Int) - 1) = ((cb.buffer.length - 1 : Nat) : Int) := by
        omega
      have e2 : ((cb.writeIndex : Int) + (source.length : Int))
          = ((cb.writeIndex + source.length : Nat) : Int) := by push_cast; ring
      rw [e1, e2, toUInt32_natCast (by omega), toUInt32_natCast (by omega)]
  · intro j
    simp only []
    rw [b3 j, a3 j]
    by_cases hlt : source.length < cb.buffer.length - cb.writeIndex
    · simp only [if_pos hlt]
      have hmin : min source.length (cb.buffer.length - cb.writeIndex) = source.length := by
        omega
      rw [hmin]
      rw [if_neg (by simp)]
      by_cases hc : cb.writeIndex ≤ j ∧ j < cb.writeIndex + source.length
      · rw [if_pos hc, if_pos ⟨hc.1, hc.2, by omega⟩]
        simp
      · rw [if_neg hc, if_neg (by omega), if_neg (by omega)]
    · simp only [if_neg hlt]
      have hmin : min source.length (cb.buffer.length - cb.writeIndex)
          = cb.buffer.length - cb.writeIndex := by omega
      rw [hmin]
      simp only [Int.toNat_ofNat, Nat.zero_add, Nat.zero_le, true_and, Nat.sub_zero]
      by_cases hc : j < source.length - (cb.buffer.length - cb.writeIndex)
      · rw [if_pos hc, if_neg (by omega), if_pos (by omega)]
        congr 1
        omega
      · rw [if_neg hc]
        by_cases hc2 : cb.writeIndex ≤ j ∧ j < cb.writeIndex + (cb.buffer.length - cb.writeIndex)
        · rw [if_pos hc2, if_pos ⟨hc2.1, by omega, by omega⟩]
        · rw [if_neg hc2, if_neg (by omega), if_neg (by omega)]

/-- After the block write of `b` to a buffer whose capacity is a power of two, the last sample
of the block is one step back from the write cursor: `read(k)` returns `b[L-k]` for
`1 ≤ k ≤ L`, and `read(0)` returns the slot after the block. -/
theorem read_after_writeBlock (cb : CircularBuffer K) (e : Nat) (he : e < 31)
    (hN : cb.getSize = 2 ^ e) (hw : cb.writeIndex < cb.getSize) (b : List K)
    (hL : b.length ≤ cb.getSize) :
    ∃ cb1, cb.writeBlock b = some cb1 ∧ cb1.getSize = cb.getSize ∧
      cb1.writeIndex = (cb.writeIndex + b.length) % cb.getSize ∧
      (∀ k : Nat, 1 ≤ k → k ≤ b.length →
        ∃ v, b[b.length - k]? = some v ∧ cb1.read (k : Int) = some v) ∧
      (b.length < cb.getSize →
        cb1.read 0 = cb.buffer[(cb.writeIndex + b.length) % cb.getSize]?) := by
  have hlt : cb.getSize < 2147483648 := by
    rw [hN]
    calc 2 ^ e ≤ 2 ^ 30 := Nat.pow_le_pow_right (by norm_num) (by omega)
      _ < 2147483648 := by norm_num
  have hpos : 0 < cb.getSize := by rw [hN]; positivity
  obtain ⟨cb1, h1, h2, h3, h4⟩ := writeBlock_spec cb b (le_of_lt hw) hL hlt
  have hw1 : cb1.writeIndex = (cb.writeIndex + b.length) % cb.getSize := by
    rw [h3, hN, Nat.and_pow_two_sub_one_eq_mod]
  have hw1lt : cb1.writeIndex < cb.getSize := by rw [hw1]; exact Nat.mod_lt _ hpos
  refine ⟨cb1, h1, h2, hw1, ?_, ?_⟩
  · intro k hk1 hk2
    have hidx : b.length - k < b.length := by omega
    refine ⟨b[b.length - k], List.getElem?_eq_getElem hidx, ?_⟩
    rw [read_eq_slot cb1 e (by omega) (by rw [h2, hN]) k (by rw [h2]; omega), h2, hw1]
    have hslot : ((cb.writeIndex + b.length) % cb.getSize + cb.getSize - k) % cb.getSize
        = (cb.writeIndex + (b.length - k)) % cb.getSize := by
      have e1 : (cb.writeIndex + b.length) % cb.getSize + cb.getSize - k
          = (cb.writeIndex + b.length) % cb.getSize + (cb.getSize - k) := by omega
      have e2 : cb.writeIndex + (b.length - k) + cb.getSize
          = (cb.writeIndex + b.length) + (cb.getSize - k) := by omega
      rw [e1, ← Nat.add_mod_right (cb.writeIndex + (b.length - k)), e2]
      exact Nat.mod_add_mod _ _ _
    rw [hslot, h4]
    by_cases hc : cb.writeIndex + (b.length - k) < cb.getSize
    · rw [Nat.mod_eq_of_lt hc, if_pos ⟨by omega, by omega, hc⟩]
      rw [show cb.writeIndex + (b.length - k) - cb.writeIndex = b.length - k by omega]
      exact List.getElem?_eq_getElem hidx
    · have hm : (cb.writeIndex + (b.length - k)) % cb.getSize
          = cb.writeIndex + (b.length - k) - cb.getSize := by
        rw [Nat.mod_eq_sub_mod (by omega)]
        exact Nat.mod_eq_of_lt (by omega)
      rw [hm, if_neg (by omega), if_pos (by omega)]
      rw [show cb.writeIndex + (b.length - k) - cb.getSize + cb.getSize - cb.writeIndex
        = b.length - k by omega]
      exact List.getElem?_eq_getElem hidx
  · intro hlen
    have := read_eq_slot cb1 e (by omega) (by rw [h2, hN]) 0 (by omega)
    rw [Int.ofNat_zero] at this
    rw [this, h2, hw1, Nat.sub_zero, Nat.add_mod_right, Nat.mod_mod, h4]
    by_cases hc : cb.writeIndex + b.length < cb.getSize
    · rw [Nat.mod_eq_of_lt hc, if_neg (by omega), if_neg (by omega)]
    · have hm : (cb.writeIndex + b.length) % cb.getSize
          = cb.writeIndex + b.length - cb.getSize := by
        rw [Nat.mod_eq_sub_mod (by omega)]
        exact Nat.mod_eq_of_lt (by omega)
      rw [hm, if_neg (by omega), if_neg (by omega)]

/-- Evaluation for claim C9: after the block `[1, 2]` is written with `write(float*, size_t)` to
an empty buffer of capacity 4, `read(0)` is the untouched slot 2 and the last sample of the
block is at `read(1)`. -/
theorem writeBlock_then_read :
    ((CircularBuffer.mk [0, 0, 0, 0] 0 : CircularBuffer ℚ).writeBlock [1, 2]).map
        (fun cb => (cb.buffer, cb.writeIndex, cb.read 0, cb.read 1, cb.read 2))
      = some ([1, 2, 0, 0], 2, some 0, some 2, some 1) := by
  decide

end CircularBuffer

/-! ## CircularBuffer: the block read -/

namespace CircularBuffer

variable {K : Type}

theorem readLoop1_spec (buf : List K) (N : Nat) (hbuf : buf.length = N) :
    ∀ (fuel : Nat) (dst : List K) (ptr cnt : Nat), ptr ≤ N → N - ptr < fuel →
      ∃ dst1, readLoop1 buf N fuel dst ptr (cnt : Int)
          = some (dst1, (if cnt < N - ptr then -1 else ((cnt - (N - ptr) : Nat) : Int))) ∧
        dst1.length = dst.length + min cnt (N - ptr) ∧
        ∀ i, dst1[i]? = if i < dst.length then dst[i]?
          else if i < dst.length + min cnt (N - ptr) then buf[ptr + (i - dst.length)]?
          else none := by
  intro fuel
  induction fuel with
  | zero => intro dst ptr cnt _ h; omega
  | succ fuel ih =>
    intro dst ptr cnt hptr hf
    by_cases hp : ptr < N
    · rcases cnt with _ | c
      · refine ⟨dst, ?_, by simp, ?_⟩
        · simp only [readLoop1]
          rw [if_pos hp]
          simp [show 0 < N - ptr by omega]
        · intro i
          by_cases hi : i < dst.length
          · rw [if_pos hi]
          · rw [if_neg hi, if_neg (by simpa using hi), List.getElem?_eq_none (by omega)]
      · have hpv : ptr < buf.length := by omega
        obtain ⟨dst1, h1, h2, h3⟩ := ih (dst ++ [buf[ptr]]) (ptr + 1) c (by omega) (by omega)
        have e1 : min c (N - (ptr + 1)) + 1 = min (c + 1) (N - ptr) := by
          simp only [Nat.min_def]
          split_ifs <;> omega
        have e2 : (if c < N - (ptr + 1) then (-1 : Int) else ((c - (N - (ptr + 1)) : Nat) : Int))
            = (if c + 1 < N - ptr then (-1 : Int) else ((c + 1 - (N - ptr) : Nat) : Int)) := by
          by_cases hlt : c < N - (ptr + 1)
          · rw [if_pos hlt, if_pos (by omega)]
          · rw [if_neg hlt, if_neg (by omega)]
            congr 1
            omega
        refine ⟨dst1, ?_, ?_, ?_⟩
        · simp only [readLoop1]
          rw [if_pos hp, if_pos (by push_cast; omega), List.getElem?_eq_getElem hpv]
          simp only []
          have hc : ((c + 1 : Nat) : Int) - 1 = (c : Int) := by push_cast; ring
          rw [hc, h1, e2]
        · rw [h2, List.length_append, List.length_singleton, ← e1]
          omega
        · intro i
          rw [h3 i, List.length_append, List.length_singleton]
          by_cases hi : i < dst.length
          · rw [if_pos (by omega), if_pos hi, List.getElem?_append_left hi]
          · by_cases hi2 : i = dst.length
            · subst hi2
              rw [if_pos (by omega), if_neg (by omega), if_pos (by omega),
                List.getElem?_append_right (le_refl _)]
              simp [List.getElem?_eq_getElem hpv]
            · rw [if_neg (by omega), if_neg hi]
              by_cases hi3 : i < dst.length + 1 + min c (N - (ptr + 1))
              · rw [if_pos hi3, if_pos (by omega)]
                congr 1
                omega
              · rw [if_neg hi3, if_neg (by omega)]
    · have hpe : ptr = N := by omega
      refine ⟨dst, ?_, by simp [hpe], ?_⟩
      · simp only [readLoop1]
        rw [if_neg hp]
        simp [hpe]
      · intro i
        by_cases hi : i < dst.length
        · rw [if_pos hi]
        · rw [if_neg hi, if_neg (by omega), List.getElem?_eq_none (by omega)]

theorem readLoop2_spec (buf : List K) (N : Nat) (hbuf : buf.length = N) :
    ∀ (fuel : Nat) (dst : List K) (ptr : Nat) (cnt : Int), ptr + cnt.toNat ≤ N →
      cnt.toNat < fuel →
      ∃ dst1, readLoop2 buf fuel dst ptr cnt = some dst1 ∧
        dst1.length = dst.length + cnt.toNat ∧
        ∀ i, dst1[i]? = if i < dst.length then dst[i]?
          else if i < dst.length + cnt.toNat then buf[ptr + (i - dst.length)]?
          else none := by
  intro fuel
  induction fuel with
  | zero => intro dst ptr cnt _ h; omega
  | succ fuel ih =>
    intro dst ptr cnt hptr hf
    by_cases hc : cnt > 0
    · have hpv : ptr < buf.length := by omega
      obtain ⟨dst1, h1, h2, h3⟩ := ih (dst ++ [buf[ptr]]) (ptr + 1) (cnt - 1) (by omega)
        (by omega)
      refine ⟨dst1, ?_, ?_, ?_⟩
      · simp only [readLoop2]
        rw [if_pos hc, List.getElem?_eq_getElem hpv]
        exact h1
      · rw [h2, List.length_append, List.length_singleton]
        omega
      · intro i
        rw [h3 i, List.length_append, List.length_singleton]
        by_cases hi : i < dst.length
        · rw [if_pos (by omega), if_pos hi, List.getElem?_append_left hi]
        · by_cases hi2 : i = dst.length
          · subst hi2
            rw [if_pos (by omega), if_neg (by omega), if_pos (by omega),
              List.getElem?_append_right (le_refl _)]
            simp [List.getElem?_eq_getElem hpv]
          · rw [if_neg (by omega), if_neg hi]
            by_cases hi3 : i < dst.length + 1 + (cnt - 1).toNat
            · rw [if_pos hi3, if_pos (by omega)]
              congr 1
              omega
            · rw [if_neg hi3, if_neg (by omega)]
    · refine ⟨dst, ?_, by omega, ?_⟩
      · simp only [readLoop2]
        rw [if_neg hc]
      · intro i
        by_cases hi : i < dst.length
        · rw [if_pos hi]
        · rw [if_neg hi, if_neg (by omega), List.getElem?_eq_none (by omega)]

/-- What the block read does: `out[i]` is the sample `read(readIndex + len + 1 - i)`, so the
last sample of the block is `read(readIndex + 2)`. -/
theorem readBlock_spec (cb : CircularBuffer K) (e : Nat) (he : e < 31)
    (hN : cb.getSize = 2 ^ e) (readIndex : Int) (len : Nat) (hlen : len ≤ cb.getSize) :
    ∃ out, cb.readBlock readIndex len = some out ∧ out.length = len ∧
      ∀ i : Nat, i < len → out[i]? = cb.read (readIndex + len + 1 - i) := by
  have hlt : cb.getSize < 2147483648 := by
    rw [hN]
    calc 2 ^ e ≤ 2 ^ 30 := Nat.pow_le_pow_right (by norm_num) (by omega)
      _ < 2147483648 := by norm_num
  have hpos : 0 < cb.getSize := by rw [hN]; positivity
  have hdvd : ((cb.getSize : Nat) : Int) ∣ 4294967296 := by
    rw [hN]
    have : (4294967296 : Int) = 2 ^ 32 := by norm_num
    rw [this]
    push_cast
    have he32 : e ≤ 32 := by omega
    exact pow_dvd_pow 2 he32
  have hmask : toUInt32 ((cb.getSize : Int) - 1) = 2 ^ e - 1 := by
    rw [← hN]
    have : ((cb.getSize : Int) - 1) = ((cb.getSize - 1 : Nat) : Int) := by omega
    have h32 : cb.getSize - 1 < 4294967296 := by omega
    rw [this, toUInt32_natCast h32]
  have hstart : toUInt32 ((cb.writeIndex : Int)
        + (4294967295 - (toUInt32 (readIndex + len) : Int))) &&& toUInt32 ((cb.getSize : Int) - 1)
      = toUInt32 ((cb.writeIndex : Int)
        + (4294967295 - (toUInt32 (readIndex + len) : Int))) % cb.getSize := by
    rw [hmask, Nat.and_pow_two_sub_one_eq_mod, hN]
  have hslt : toUInt32 ((cb.writeIndex : Int)
        + (4294967295 - (toUInt32 (readIndex + len) : Int))) % cb.getSize < cb.getSize :=
    Nat.mod_lt _ hpos
  generalize hS : toUInt32 ((cb.writeIndex : Int)
        + (4294967295 - (toUInt32 (readIndex + len) : Int))) % cb.getSize = start at hstart hslt
  obtain ⟨dst1, a1, a2, a3⟩ := readLoop1_spec cb.buffer cb.getSize rfl (cb.getSize + 1) []
    start len (by omega) (by omega)
  obtain ⟨dst2, b1, b2, b3⟩ := readLoop2_spec cb.buffer cb.getSize rfl (len + 1) dst1 0
    (if len < cb.getSize - start then -1 else ((len - (cb.getSize - start) : Nat) : Int))
    (by split_ifs <;> simp; omega) (by split_ifs <;> simp; omega)
  have hlen2 : dst2.length = len := by
    rw [b2, a2]
    simp only [List.length_nil, Nat.zero_add]
    split_ifs <;> simp <;> omega
  refine ⟨dst2, ?_, hlen2, ?_⟩
  · unfold readBlock
    simp only [hstart, toInt32_natCast (show len < 2147483648 by omega), a1, b1]
  · intro i hi
    have hread : cb.read (readIndex + len + 1 - i) = cb.buffer[(start + i) % cb.getSize]? := by
      unfold read
      rw [if_neg (by omega)]
      congr 1
      rw [← hS]
      symm
      apply slot_congr cb.getSize hdvd
      have hM : (4294967296 : Int) ∣ ((cb.writeIndex : Int)
          + (4294967295 - (toUInt32 (readIndex + len) : Int)) + i
          - ((cb.writeIndex : Int) - (readIndex + len + 1 - i))) := by
        rw [toUInt32_cast]
        refine ⟨1 + (readIndex + len) / 4294967296, ?_⟩
        have := Int.emod_add_ediv (readIndex + len) 4294967296
        linarith
      exact dvd_trans hdvd hM
    rw [hread, b3 i, a2, a3 i]
    simp only [List.length_nil, Nat.zero_add, Nat.not_lt_zero, if_false, Nat.sub_zero]
    by_cases hc : len < cb.getSize - start
    · have hmin : min len (cb.getSize - start) = len := by omega
      rw [hmin, if_pos hi, if_pos hi, Nat.mod_eq_of_lt (by omega)]
    · have hmin : min len (cb.getSize - start) = cb.getSize - start := by omega
      rw [hmin]
      by_cases hi2 : i < cb.getSize - start
      · rw [if_pos hi2, if_pos hi2, Nat.mod_eq_of_lt (by omega)]
      · rw [if_neg hi2, if_neg hc]
        simp only [Int.toNat_ofNat]
        rw [if_pos (by omega)]
        have hm : (start + i) % cb.getSize = start + i - cb.getSize := by
          rw [Nat.mod_eq_sub_mod (by omega)]
          exact Nat.mod_eq_of_lt (by omega)
        rw [hm]
        congr 1
        omega

/-- Evaluation for claim C10: with the write cursor at slot 5 of a buffer of capacity 8, the
block read of three samples at offset 0 returns the slots 1, 2, 3, that is `read(4)`, `read(3)`
and `read(2)`, while `read(0)` is slot 5. -/
theorem readBlock_then_read :
    ((CircularBuffer.mk [10, 11, 12, 13, 14, 15, 16, 17] 5 : CircularBuffer ℚ).readBlock 0 3,
      (CircularBuffer.mk [10, 11, 12, 13, 14, 15, 16, 17] 5 : CircularBuffer ℚ).read 0,
      (CircularBuffer.mk [10, 11, 12, 13, 14, 15, 16, 17] 5 : CircularBuffer ℚ).read 2,
      (CircularBuffer.mk [10, 11, 12, 13, 14, 15, 16, 17] 5 : CircularBuffer ℚ).read 4)
      = (some [11, 12, 13], some 15, some 13, some 11) := by
  decide

end CircularBuffer

/-! ## CrossFadeBuffer: `fade` -/

namespace CrossFadeBuffer

variable {K : Type} [Field K]

theorem fadeLoop_spec (cb : CrossFadeBuffer K) (hN : 0 < cb.toCircularBuffer.getSize)
    (newReadIndex : Int) (len : Nat) : ∀ n : Nat,
    ∃ out, cb.fadeLoop newReadIndex len n = some out ∧ out.length = n ∧
      ∀ i : Nat, i < n → ∃ a b,
        cb.toCircularBuffer.read (cb.readIndex + len - i) = some a ∧
        cb.toCircularBuffer.read (newReadIndex + len - i) = some b ∧
        out[i]? = some (a * (1 - (i : K) / (len : K)) + b * ((i : K) / (len : K))) := by
  intro n
  induction n with
  | zero => exact ⟨[], rfl, rfl, by intro i hi; omega⟩
  | succ n ih =>
    obtain ⟨out, h1, h2, h3⟩ := ih
    obtain ⟨a, ha⟩ := CircularBuffer.read_isSome cb.toCircularBuffer hN (cb.readIndex + len - n)
    obtain ⟨b, hb⟩ := CircularBuffer.read_isSome cb.toCircularBuffer hN (newReadIndex + len - n)
    refine ⟨out ++ [a * (1 - (n : K) / (len : K)) + b * ((n : K) / (len : K))], ?_, ?_, ?_⟩
    · simp only [fadeLoop, h1, CircularBuffer.read_toInt32, ha, hb]
    · simp [h2]
    · intro i hi
      by_cases hin : i = n
      · subst hin
        refine ⟨a, b, ha, hb, ?_⟩
        rw [List.getElem?_append_right (by omega)]
        simp [h2]
      · obtain ⟨a1, b1, ha1, hb1, ho⟩ := h3 i (by omega)
        refine ⟨a1, b1, ha1, hb1, ?_⟩
        rw [List.getElem?_append_left (by omega)]
        exact ho

end CrossFadeBuffer

namespace CrossFadeBuffer

variable {K : Type} [Field K] [CharZero K]

/-- Claim C1: `fade(newReadIndex, out)` with `out` of length `L ≥ 1` returns, and for every
`i < L` `out[i] = read(readIndex + L - i) * (1 - i/L) + read(newReadIndex + L - i) * (i/L)`, the
reads being made on the buffer at the call; `out[0] = read(readIndex + L)` and
`out[L-1] = read(readIndex + 1)/L + read(newReadIndex + 1)*(L-1)/L`. -/
theorem fade_formula (cb : CrossFadeBuffer K) (hN : 0 < cb.toCircularBuffer.getSize)
    (newReadIndex : Int) (L : Nat) (hL : 1 ≤ L) :
    ∃ out cb1, cb.fade newReadIndex L = some (out, cb1) ∧ out.length = L ∧
      (∀ i : Nat, i < L → ∃ a b,
        cb.toCircularBuffer.read (cb.readIndex + L - i) = some a ∧
        cb.toCircularBuffer.read (newReadIndex + L - i) = some b ∧
        out[i]? = some (a * (1 - (i : K) / (L : K)) + b * ((i : K) / (L : K)))) ∧
      (∃ a, cb.toCircularBuffer.read (cb.readIndex + L) = some a ∧ out[0]? = some a) ∧
      (∃ a b, cb.toCircularBuffer.read (cb.readIndex + 1) = some a ∧
        cb.toCircularBuffer.read (newReadIndex + 1) = some b ∧
        out[L - 1]? = some (a / (L : K) + b * ((L : K) - 1) / (L : K))) := by
  obtain ⟨out, h1, h2, h3⟩ := fadeLoop_spec cb hN newReadIndex L L
  refine ⟨out, { cb with readIndex := newReadIndex }, ?_, h2, h3, ?_, ?_⟩
  · simp only [fade, h1]
  · obtain ⟨a, b, ha, _, ho⟩ := h3 0 (by omega)
    refine ⟨a, ?_, ?_⟩
    · simpa using ha
    · rw [ho]; simp
  · obtain ⟨a, b, ha, hb, ho⟩ := h3 (L - 1) (by omega)
    have hcast : ((L - 1 : Nat) : Int) = (L : Int) - 1 := by omega
    have hne : (L : K) ≠ 0 := by
      have : L ≠ 0 := by omega
      exact_mod_cast this
    refine ⟨a, b, ?_, ?_, ?_⟩
    · rw [← ha]; congr 1; rw [hcast]; ring
    · rw [← hb]; congr 1; rw [hcast]; ring
    · rw [ho]
      congr 1
      rw [Nat.cast_sub hL]
      field_simp

theorem fade_formula_witness :
    (0 < (CrossFadeBuffer.mk (CircularBuffer.mk [10, 11, 12, 13, 14, 15, 16, 17] 5) 1 :
        CrossFadeBuffer ℚ).toCircularBuffer.getSize ∧ 1 ≤ 4) ∧
    ∃ out cb1, (CrossFadeBuffer.mk (CircularBuffer.mk [10, 11, 12, 13, 14, 15, 16, 17] 5) 1 :
        CrossFadeBuffer ℚ).fade 2 4 = some (out, cb1) ∧ out.length = 4 := by
  obtain ⟨out, cb1, h1, h2, _⟩ := fade_formula
    (CrossFadeBuffer.mk (CircularBuffer.mk [10, 11, 12, 13, 14, 15, 16, 17] 5) 1 :
      CrossFadeBuffer ℚ) (by decide) 2 4 (by decide)
  exact ⟨⟨by decide, by decide⟩, out, cb1, h1, h2⟩

end CrossFadeBuffer

/-! ## The prime table: `BuildPrimeTable` -/

theorem sqrt_table_size : Nat.sqrt PRIME_NUMBER_TABLE_SIZE = 87 := by
  symm
  rw [Nat.eq_sqrt]
  unfold PRIME_NUMBER_TABLE_SIZE
  constructor <;> norm_num

theorem fillOnes_spec : ∀ (n i : Nat) (t : List Nat), i + n ≤ t.length →
    ∃ t1, fillOnes n i t = some t1 ∧ t1.length = t.length ∧
      ∀ j, t1[j]? = if i ≤ j ∧ j < i + n then some 1 else t[j]? := by
  intro n
  induction n with
  | zero =>
    intro i t _
    refine ⟨t, rfl, rfl, ?_⟩
    intro j
    rw [if_neg (by omega)]
  | succ n ih =>
    intro i t h
    obtain ⟨t1, h1, h2, h3⟩ := ih (i + 1) (t.set i 1) (by simp; omega)
    refine ⟨t1, ?_, ?_, ?_⟩
    · simp only [fillOnes]
      rw [if_pos (by omega)]
      exact h1
    · simpa using h2
    · intro j
      rw [h3 j]
      by_cases hj : i = j
      · subst hj
        rw [if_neg (by omega), if_pos (by omega)]
        exact List.getElem?_set_self (by omega)
      · rw [List.getElem?_set_ne hj]
        by_cases hc : i + 1 ≤ j ∧ j < i + 1 + n
        · rw [if_pos hc, if_pos (by omega)]
        · rw [if_neg hc, if_neg (by omega)]

theorem clearMultiples_spec (stride : Nat) (hs : 0 < stride) (hs2 : stride < 65536) :
    ∀ (fuel i : Nat) (t : List Nat), t.length = PRIME_NUMBER_TABLE_SIZE →
      PRIME_NUMBER_TABLE_SIZE - i < fuel →
      ∃ t1, clearMultiples stride fuel i t = some t1 ∧ t1.length = PRIME_NUMBER_TABLE_SIZE ∧
        ∀ j, t1[j]? =
          if i ≤ j ∧ j < PRIME_NUMBER_TABLE_SIZE ∧ stride ∣ (j - i) then some 0 else t[j]? := by
  intro fuel
  induction fuel with
  | zero => intro i t _ h; omega
  | succ fuel ih =>
    intro i t ht hf
    by_cases hi : i < PRIME_NUMBER_TABLE_SIZE
    · have hmod : (i + stride) % 4294967296 = i + stride :=
        Nat.mod_eq_of_lt (by unfold PRIME_NUMBER_TABLE_SIZE at hi; omega)
      obtain ⟨t1, h1, h2, h3⟩ := ih (i + stride) (t.set i 0) (by simpa using ht) (by omega)
      refine ⟨t1, ?_, h2, ?_⟩
      · simp only [clearMultiples]
        rw [if_pos hi, if_pos (by omega), hmod]
        exact h1
      · intro j
        rw [h3 j]
        by_cases hj : i = j
        · subst hj
          rw [if_neg (by omega), if_pos ⟨le_refl _, hi, by simp⟩]
          exact List.getElem?_set_self (by omega)
        · rw [List.getElem?_set_ne hj]
          by_cases hc : i ≤ j ∧ j < PRIME_NUMBER_TABLE_SIZE ∧ stride ∣ (j - i)
          · obtain ⟨c1, c2, c3⟩ := hc
            have hpos : 0 < j - i := by omega
            have hge : stride ≤ j - i := Nat.le_of_dvd hpos c3
            have hd : stride ∣ (j - (i + stride)) := by
              have : j - (i + stride) = (j - i) - stride := by omega
              rw [this]
              exact Nat.dvd_sub' c3 (dvd_refl _)
            rw [if_pos ⟨by omega, c2, hd⟩, if_pos ⟨c1, c2, c3⟩]
          · rw [if_neg hc, if_neg]
            rintro ⟨c1, c2, c3⟩
            apply hc
            refine ⟨by omega, c2, ?_⟩
            have : j - i = (j - (i + stride)) + stride := by omega
            rw [this]
            exact Dvd.dvd.add c3 (dvd_refl _)
    · refine ⟨t, ?_, ht, ?_⟩
      · simp only [clearMultiples]
        rw [if_neg hi]
      · intro j
        rw [if_neg (by omega)]

theorem nextStride_spec (t : List Nat) (j : Nat) (hj : j < 65536)
    (hv : ∃ v, t[j]? = some v ∧ v ≠ 0) :
    ∀ (fuel s : Nat), s ≤ j → j - s < fuel → (∀ m, s ≤ m → m < j → t[m]? = some 0) →
      nextStride t fuel s = some j := by
  intro fuel
  induction fuel with
  | zero => intro s _ h; omega
  | succ fuel ih =>
    intro s hs hf hz
    by_cases hsj : s = j
    · subst hsj
      obtain ⟨v, h1, h2⟩ := hv
      simp only [nextStride, h1]
      rw [if_neg h2]
    · have h0 := hz s (le_refl _) (by omega)
      have hmod : (s + 1) % 65536 = s + 1 := Nat.mod_eq_of_lt (by omega)
      simp only [nextStride, h0, if_true, hmod]
      exact ih (s + 1) (by omega) (by omega) (fun m h1 h2 => hz m (by omega) h2)

theorem prime_89 : Nat.Prime 89 := by norm_num

/-- A number that is not prime has a prime factor other than itself, at most any bound that
no prime lies between and the number. -/
theorem unsieved_of_prime {stride i : Nat} (hi : i.Prime) : Unsieved stride i :=
  ⟨hi.two_le, fun _ hq _ hd => (Nat.prime_dvd_prime_iff_eq hq hi).1 hd⟩

theorem sieve_step (stride : Nat) (t : List Nat) (hinv : SieveInv stride t)
    (hp : stride.Prime) (hle : stride ≤ 87) :
    ∃ t1 stride1,
      clearMultiples stride (PRIME_NUMBER_TABLE_SIZE + 1) (2 * stride) t = some t1 ∧
      nextStride t1 65536 ((stride + 1) % 65536) = some stride1 ∧
      stride1.Prime ∧ stride < stride1 ∧ stride1 ≤ 89 ∧
      (∀ m, stride < m → m < stride1 → ¬ m.Prime) ∧ SieveInv stride1 t1 := by
  obtain ⟨hlen, hent⟩ := hinv
  have h2 : 2 ≤ stride := hp.two_le
  obtain ⟨t1, hc1, hc2, hc3⟩ := clearMultiples_spec stride (by omega) (by omega)
    (PRIME_NUMBER_TABLE_SIZE + 1) (2 * stride) t hlen (by omega)
  -- the table after the pass for `stride`
  have hmid : ∀ i, i < PRIME_NUMBER_TABLE_SIZE →
      ∃ v, t1[i]? = some v ∧ (v ≠ 0 ↔ Unsieved (stride + 1) i) := by
    intro i hi
    rw [hc3 i]
    by_cases hc : 2 * stride ≤ i ∧ i < PRIME_NUMBER_TABLE_SIZE ∧ stride ∣ (i - 2 * stride)
    · rw [if_pos hc]
      refine ⟨0, rfl, ?_⟩
      constructor
      · intro h; exact absurd rfl h
      · rintro ⟨_, hu⟩
        obtain ⟨c1, _, c3⟩ := hc
        have hd : stride ∣ i := by
          have : i = (i - 2 * stride) + 2 * stride := by omega
          rw [this]
          exact Dvd.dvd.add c3 (Dvd.intro_left 2 rfl)
        have := hu stride hp (by omega) hd
        omega
    · rw [if_neg hc]
      obtain ⟨v, hv1, hv2⟩ := hent i hi
      refine ⟨v, hv1, ?_⟩
      rw [hv2]
      constructor
      · rintro ⟨g1, g2⟩
        refine ⟨g1, ?_⟩
        intro q hq hlt hd
        by_cases hqs : q < stride
        · exact g2 q hq hqs hd
        · have hqe : q = stride := by omega
          subst hqe
          obtain ⟨m, hm⟩ := hd
          by_contra hne
          apply hc
          have hm2 : 2 ≤ m := by
            rcases m with _ | _ | m
            · simp at hm; omega
            · simp at hm; omega
            · omega
          have hge : 2 * q ≤ i := by
            rw [hm]; rw [Nat.mul_comm 2 q]; exact Nat.mul_le_mul_left q hm2
          refine ⟨hge, hi, ?_⟩
          refine ⟨m - 2, ?_⟩
          rw [hm, Nat.mul_sub, Nat.mul_comm q 2]
      · rintro ⟨g1, g2⟩
        exact ⟨g1, fun q hq hlt hd => g2 q hq (by omega) hd⟩
  -- the next prime
  have hex : ∃ p, stride < p ∧ p.Prime := ⟨89, by omega, prime_89⟩
  have hfind := Nat.find_spec hex
  have hmin : ∀ m, stride < m → m < Nat.find hex → ¬ m.Prime := by
    intro m h1 h2 h3
    exact Nat.find_min hex h2 ⟨h1, h3⟩
  have hj89 : Nat.find hex ≤ 89 := Nat.find_min' hex ⟨by omega, prime_89⟩
  have hjlt : Nat.find hex < PRIME_NUMBER_TABLE_SIZE := by
    unfold PRIME_NUMBER_TABLE_SIZE; omega
  have hzero : ∀ m, stride + 1 ≤ m → m < Nat.find hex → t1[m]? = some 0 := by
    intro m h1 h2
    obtain ⟨v, hv1, hv2⟩ := hmid m (by omega)
    have hnp := hmin m (by omega) h2
    have hv0 : v = 0 := by
      by_contra hne
      obtain ⟨_, g2⟩ := hv2.1 hne
      have hmf : m.minFac.Prime := Nat.minFac_prime (by omega)
      have hmle : m.minFac ≤ m := Nat.minFac_le (by omega)
      have hms : m.minFac < stride + 1 := by
        by_contra hcon
        exact hmin m.minFac (by omega) (by omega) hmf
      have := g2 m.minFac hmf hms (Nat.minFac_dvd m)
      exact hnp (this ▸ hmf)
    rw [hv1, hv0]
  have hnz : ∃ v, t1[Nat.find hex]? = some v ∧ v ≠ 0 := by
    obtain ⟨v, hv1, hv2⟩ := hmid (Nat.find hex) hjlt
    exact ⟨v, hv1, hv2.2 (unsieved_of_prime hfind.2)⟩
  have hmod : (stride + 1) % 65536 = stride + 1 := Nat.mod_eq_of_lt (by omega)
  have hnext := nextStride_spec t1 (Nat.find hex) (by omega) hnz 65536 (stride + 1)
    (by omega) (by omega) hzero
  refine ⟨t1, Nat.find hex, hc1, by rw [hmod]; exact hnext, hfind.2, hfind.1, hj89, hmin,
    hc2, ?_⟩
  intro i hi
  obtain ⟨v, hv1, hv2⟩ := hmid i hi
  refine ⟨v, hv1, ?_⟩
  rw [hv2]
  constructor
  · rintro ⟨g1, g2⟩
    refine ⟨g1, fun q hq hlt hd => g2 q hq ?_ hd⟩
    by_contra hcon
    exact hmin q (by omega) hlt hq
  · rintro ⟨g1, g2⟩
    exact ⟨g1, fun q hq hlt hd => g2 q hq (by omega) hd⟩

theorem sieveLoop_spec : ∀ (fuel stride : Nat) (t : List Nat), SieveInv stride t →
    stride.Prime → stride ≤ 89 → 90 - stride ≤ fuel →
    ∃ t1 stride1, sieveLoop 87 fuel stride t = some (t1, stride1) ∧
      stride1.Prime ∧ 87 < stride1 ∧ stride1 ≤ 89 ∧ SieveInv stride1 t1 := by
  intro fuel
  induction fuel with
  | zero => intro stride t _ _ h1 h2; omega
  | succ fuel ih =>
    intro stride t hinv hp h89 hf
    by_cases hle : stride ≤ 87
    · obtain ⟨t1, s1, a1, a2, a3, a4, a5, _, a7⟩ := sieve_step stride t hinv hp hle
      obtain ⟨t2, s2, b1, b2⟩ := ih s1 t1 a7 a3 a5 (by omega)
      refine ⟨t2, s2, ?_, b2⟩
      simp only [sieveLoop]
      rw [if_pos hle]
      simp only [a1, a2]
      exact b1
    · refine ⟨t, stride, ?_, hp, by omega, h89, hinv⟩
      simp only [sieveLoop]
      rw [if_neg hle]

theorem isPrimeTable_of_sieveInv {stride : Nat} {t : List Nat} (h : SieveInv stride t)
    (hs : 87 < stride) : IsPrimeTable t := by
  obtain ⟨hlen, hent⟩ := h
  refine ⟨hlen, ?_⟩
  intro i hi
  obtain ⟨v, hv1, hv2⟩ := hent i hi
  refine ⟨v, hv1, ?_⟩
  rw [hv2]
  constructor
  · rintro ⟨g1, g2⟩
    by_contra hnp
    have hmf : i.minFac.Prime := Nat.minFac_prime (by omega)
    have hsq : i.minFac ^ 2 ≤ i := Nat.minFac_sq_le_self (by omega) hnp
    have hlt : i.minFac < 88 := by
      by_contra hcon
      have : 88 ^ 2 ≤ i.minFac ^ 2 := Nat.pow_le_pow_left (by omega) 2
      unfold PRIME_NUMBER_TABLE_SIZE at hi
      omega
    have := g2 i.minFac hmf (by omega) (Nat.minFac_dvd i)
    exact hnp (this ▸ hmf)
  · intro hp
    exact unsieved_of_prime hp

theorem buildPrimeTableAux_spec (fuel : Nat) (hf : 88 ≤ fuel) (t0 : List Nat)
    (h0 : t0.length = PRIME_NUMBER_TABLE_SIZE) :
    ∃ t stride, BuildPrimeTableAux fuel t0 = some (t, stride) ∧ IsPrimeTable t ∧
      stride.Prime ∧ 87 < stride ∧ stride ≤ 89 := by
  obtain ⟨t1, h1, h2, h3⟩ := fillOnes_spec PRIME_NUMBER_TABLE_SIZE 0 t0 (by omega)
  have hlen1 : t1.length = PRIME_NUMBER_TABLE_SIZE := by rw [h2, h0]
  have hinv : SieveInv 2 ((t1.set 0 0).set 1 0) := by
    refine ⟨by simpa using hlen1, ?_⟩
    intro i hi
    have hsz : 1 < t1.length := by rw [hlen1]; unfold PRIME_NUMBER_TABLE_SIZE; omega
    rcases i with _ | _ | i
    · refine ⟨0, ?_, ?_⟩
      · rw [List.getElem?_set_ne (by omega)]
        exact List.getElem?_set_self (by omega)
      · constructor
        · intro h; exact absurd rfl h
        · rintro ⟨g, _⟩; omega
    · refine ⟨0, ?_, ?_⟩
      · exact List.getElem?_set_self (by simpa using hsz)
      · constructor
        · intro h; exact absurd rfl h
        · rintro ⟨g, _⟩; omega
    · refine ⟨1, ?_, ?_⟩
      · rw [List.getElem?_set_ne (by omega), List.getElem?_set_ne (by omega), h3]
        rw [if_pos (by omega)]
      · constructor
        · intro _
          refine ⟨by omega, ?_⟩
          intro q hq hlt _
          have := hq.two_le
          omega
        · intro _; exact one_ne_zero
  obtain ⟨t2, s2, b1, b2, b3, b4, b5⟩ := sieveLoop_spec fuel 2 _ hinv Nat.prime_two
    (by omega) (by omega)
  refine ⟨t2, s2, ?_, isPrimeTable_of_sieveInv b5 b3, b2, b3, b4⟩
  unfold BuildPrimeTableAux
  simp only [h1, sqrt_table_size]
  rw [if_pos (by rw [hlen1]; unfold PRIME_NUMBER_TABLE_SIZE; omega)]
  exact b1

theorem buildPrimeTable_spec (fuel : Nat) (hf : 88 ≤ fuel) (t0 : List Nat)
    (h0 : t0.length = PRIME_NUMBER_TABLE_SIZE) :
    ∃ t, BuildPrimeTable fuel t0 = some t ∧ IsPrimeTable t := by
  obtain ⟨t, s, h1, h2, _⟩ := buildPrimeTableAux_spec fuel hf t0 h0
  exact ⟨t, by simp [BuildPrimeTable, h1], h2⟩

theorem primeNumberTable_isPrimeTable : IsPrimeTable primeNumberTable := by
  obtain ⟨t, h1, h2⟩ := buildPrimeTable_spec 100 (by omega)
    (List.replicate PRIME_NUMBER_TABLE_SIZE 0) (by simp)
  unfold primeNumberTable
  rw [h1]
  exact h2

/-- Claim C3: `BuildPrimeTable` on a table of `PRIME_NUMBER_TABLE_SIZE = 7600` entries returns,
and in the table it leaves the entry at every index `i < 7600` is non-zero if and only if `i`
is a prime number. -/
theorem buildPrimeTable_flags_primes (fuel : Nat) (hf : 88 ≤ fuel) (table : List Nat)
    (h0 : table.length = 7600) :
    ∃ t, BuildPrimeTable fuel table = some t ∧ t.length = 7600 ∧
      ∀ i : Nat, i < 7600 → ∃ v, t[i]? = some v ∧ (v ≠ 0 ↔ i.Prime) := by
  obtain ⟨t, h1, h2, h3⟩ := buildPrimeTable_spec fuel hf table h0
  exact ⟨t, h1, h2, h3⟩

theorem buildPrimeTable_flags_primes_witness :
    (88 ≤ 100 ∧ (List.replicate 7600 0 : List Nat).length = 7600) ∧
    ∃ t, BuildPrimeTable 100 (List.replicate 7600 0) = some t ∧ t.length = 7600 ∧
      ∀ i : Nat, i < 7600 → ∃ v, t[i]? = some v ∧ (v ≠ 0 ↔ i.Prime) :=
  ⟨⟨by decide, List.length_replicate 7600 0⟩,
    buildPrimeTable_flags_primes 100 (by decide) (List.replicate 7600 0)
      (List.length_replicate 7600 0)⟩

/-! ## The prime table: `FindNearestPrime` -/

theorem findLoop_spec (t : List Nat) (ht : IsPrimeTable t) :
    ∀ (fuel n : Nat), 2 ≤ n → n < PRIME_NUMBER_TABLE_SIZE → n < fuel →
      ∃ p, findLoop t fuel n = some p ∧ p.Prime ∧ p ≤ n ∧ ∀ q : Nat, q.Prime → q ≤ n → q ≤ p := by
  intro fuel
  induction fuel with
  | zero => intro n _ _ h; omega
  | succ fuel ih =>
    intro n h2 hn hf
    obtain ⟨v, hv1, hv2⟩ := ht.2 n hn
    by_cases hv : v = 0
    · have hnp : ¬ n.Prime := by
        intro hp
        exact hv2.2 hp hv
      have hn2 : n ≠ 2 := by
        intro h
        exact hnp (h ▸ Nat.prime_two)
      have hmod : (n + 65535) % 65536 = n - 1 := by
        unfold PRIME_NUMBER_TABLE_SIZE at hn
        omega
      obtain ⟨p, a1, a2, a3, a4⟩ := ih (n - 1) (by omega) (by omega) (by omega)
      refine ⟨p, ?_, a2, by omega, ?_⟩
      · simp only [findLoop, hv1, hv, if_true, hmod]
        exact a1
      · intro q hq hle
        have hqn : q ≠ n := by
          intro h
          exact hnp (h ▸ hq)
        exact a4 q hq (by omega)
    · refine ⟨n, ?_, hv2.1 hv, le_refl _, fun q _ h => h⟩
      simp only [findLoop, hv1]
      rw [if_neg hv]

theorem findNearestPrime_spec (t : List Nat) (ht : IsPrimeTable t) (n : Nat) (h2 : 2 ≤ n)
    (hn : n < PRIME_NUMBER_TABLE_SIZE) :
    ∃ p, FindNearestPrime t n = some p ∧ p.Prime ∧ p ≤ n ∧
      ∀ q : Nat, q.Prime → q ≤ n → q ≤ p :=
  findLoop_spec t ht 65536 n h2 hn (by unfold PRIME_NUMBER_TABLE_SIZE at hn; omega)

/-- Claim C4: for every `n` with `2 ≤ n < 7600`, `FindNearestPrime` on the table built by
`BuildPrimeTable` returns the largest prime `p ≤ n`: `p` is prime, `p ≤ n`, and no prime `q`
has `p < q ≤ n`. -/
theorem findNearestPrime_largest_prime_le (fuel : Nat) (hf : 88 ≤ fuel) (table : List Nat)
    (h0 : table.length = 7600) (n : Nat) (h2 : 2 ≤ n) (hn : n < 7600) :
    ∃ t p, BuildPrimeTable fuel table = some t ∧ FindNearestPrime t n = some p ∧
      p.Prime ∧ p ≤ n ∧ ∀ q : Nat, q.Prime → p < q → n < q := by
  obtain ⟨t, h1, ht⟩ := buildPrimeTable_spec fuel hf table h0
  obtain ⟨p, a1, a2, a3, a4⟩ := findNearestPrime_spec t ht n h2 hn
  refine ⟨t, p, h1, a1, a2, a3, ?_⟩
  intro q hq hpq
  by_contra hcon
  have := a4 q hq (by omega)
  omega

theorem findNearestPrime_largest_prime_le_witness :
    (88 ≤ 100 ∧ (List.replicate 7600 0 : List Nat).length = 7600 ∧ 2 ≤ 100 ∧ 100 < 7600) ∧
    ∃ t p, BuildPrimeTable 100 (List.replicate 7600 0) = some t ∧
      FindNearestPrime t 100 = some p ∧
      p.Prime ∧ p ≤ 100 ∧ ∀ q : Nat, q.Prime → p < q → 100 < q :=
  ⟨⟨by decide, List.length_replicate 7600 0, by decide, by decide⟩,
    findNearestPrime_largest_prime_le 100 (by decide) (List.replicate 7600 0)
      (List.length_replicate 7600 0) 100
      (by decide) (by decide)⟩

/-! ## The feedback matrix -/

theorem signMatrix_rows :
    (fun k j => signMatrix k j) = ![![1, 1, 1, 1, -1, -1, -1, -1],
      ![1, 1, -1, -1, 1, 1, -1, -1],
      ![1, 1, -1, -1, -1, -1, 1, 1],
      ![1, -1, 1, -1, 1, -1, 1, -1],
      ![1, -1, 1, -1, -1, 1, -1, 1],
      ![1, -1, -1, 1, 1, -1, -1, 1],
      ![1, -1, -1, 1, -1, 1, 1, -1],
      ![1, 1, 1, 1, 1, 1, 1, 1]] := by
  funext k j
  fin_cases k <;> fin_cases j <;> rfl

theorem feedbackAcc_eq_sum {K : Type} [Ring K] (k : Fin 8) (pre : K) (x : Fin 8 → K) :
    feedbackAcc k pre x = pre + ∑ j, (signMatrix k j : K) * x j := by
  rw [Fin.sum_univ_eight]
  fin_cases k <;> simp [feedbackAcc, signMatrix] <;> abel

theorem signMatrix_orthogonal (j k : Fin 8) :
    (∑ i, signMatrix j i * signMatrix k i) = if j = k then 8 else 0 := by
  rw [Fin.sum_univ_eight]
  fin_cases j <;> fin_cases k <;> rfl

theorem signMatrix_pm (k j : Fin 8) : signMatrix k j = 1 ∨ signMatrix k j = -1 := by
  fin_cases k <;> fin_cases j <;> decide

theorem signMatrix_scaled (j k : Fin 8) :
    (∑ i, ((signMatrix j i : ℝ) / Real.sqrt 8) * ((signMatrix k i : ℝ) / Real.sqrt 8))
      = if j = k then 1 else 0 := by
  have h8 : Real.sqrt 8 * Real.sqrt 8 = 8 := Real.mul_self_sqrt (by norm_num)
  have hterm : ∀ i, ((signMatrix j i : ℝ) / Real.sqrt 8) * ((signMatrix k i : ℝ) / Real.sqrt 8)
      = ((signMatrix j i * signMatrix k i : Int) : ℝ) / 8 := by
    intro i
    rw [div_mul_div_comm, h8]
    push_cast
    ring
  simp only [hterm]
  rw [← Finset.sum_div, ← Int.cast_sum, signMatrix_orthogonal]
  split_ifs <;> norm_num

/-- Claim C5: let `S` be the 8x8 matrix of signs in which row `k` lists the signs with which the
node outputs `x0 ... x7` are accumulated into the sample written to node `k` in `processAudio`.
The entries are `+1` or `-1` and `S * Sᵀ = 8 * I`: the inner product of two distinct rows is 0
and of a row with itself is 8, so `(1/√8) * S` is orthogonal. -/
theorem signMatrix_mul_transpose :
    (∀ (k : Fin 8) (pre : ℝ) (x : Fin 8 → ℝ),
      feedbackAcc k pre x = pre + ∑ j, (signMatrix k j : ℝ) * x j) ∧
    (∀ k j : Fin 8, signMatrix k j = 1 ∨ signMatrix k j = -1) ∧
    (∀ j k : Fin 8, (∑ i, signMatrix j i * signMatrix k i) = if j = k then 8 else 0) ∧
    (Matrix.of signMatrix * (Matrix.of signMatrix).transpose
      = (8 : Int) • (1 : Matrix (Fin 8) (Fin 8) Int)) ∧
    (∀ j k : Fin 8,
      (∑ i, ((signMatrix j i : ℝ) / Real.sqrt 8) * ((signMatrix k i : ℝ) / Real.sqrt 8))
        = if j = k then 1 else 0) := by
  refine ⟨fun k pre x => feedbackAcc_eq_sum k pre x, signMatrix_pm, signMatrix_orthogonal, ?_,
    signMatrix_scaled⟩
  ext j k
  rw [Matrix.mul_apply]
  simp only [Matrix.transpose_apply, Matrix.of_apply, Matrix.smul_apply, Matrix.one_apply]
  rw [signMatrix_orthogonal]
  split_ifs <;> simp

/-! ## The reverb: conversions and delay lengths -/

theorem allNodes_some {α : Type} (f : Fin 8 → Option α) (g : Fin 8 → α)
    (h : ∀ k, f k = some (g k)) : allNodes f = some g := by
  unfold allNodes
  have hs : ∀ k, (f k).isSome := fun k => by rw [h k]; rfl
  rw [dif_pos hs]
  congr 1
  funext k
  simp [h k]

theorem allNodes_eq_some {α : Type} {f : Fin 8 → Option α} {g : Fin 8 → α}
    (h : allNodes f = some g) (k : Fin 8) : f k = some (g k) := by
  unfold allNodes at h
  split at h
  · rename_i hs
    simp only [Option.some.injEq] at h
    rw [← h]
    simp
  · exact absurd h (by simp)

theorem allNodes_exists {α : Type} (f : Fin 8 → Option α) (h : ∀ k, ∃ a, f k = some a) :
    ∃ g, allNodes f = some g ∧ ∀ k, f k = some (g k) := by
  choose g hg using h
  exact ⟨g, allNodes_some f g hg, hg⟩

section Truncation

variable {K : Type} [LinearOrderedField K] [FloorRing K]

theorem truncInt_intCast (z : Int) : truncInt (z : K) = z := by
  unfold truncInt
  split_ifs <;> simp

theorem truncInt_of_nonneg {x : K} (h : 0 ≤ x) : truncInt x = Int.floor x := by
  unfold truncInt
  rw [if_pos h]

theorem floatToInt_intCast (z : Int) (h1 : -2147483648 ≤ z) (h2 : z < 2147483648) :
    floatToInt (z : K) = some z := by
  unfold floatToInt
  simp only [truncInt_intCast]
  rw [if_pos ⟨h1, h2⟩]

theorem floatToSize_sub (p L : Nat) (h : L ≤ p) (hp : p < 4294967296) :
    floatToSize ((p : K) - (L : K)) = some (p - L) := by
  unfold floatToSize
  have : ((p : K) - (L : K)) = (((p - L : Nat) : Int) : K) := by
    push_cast [Nat.cast_sub h]
    ring
  rw [this]
  simp only [truncInt_intCast]
  rw [if_pos ⟨by omega, by omega⟩]
  simp

theorem floatToInt_of_range {x : K} (h0 : 0 ≤ x) (h1 : x < 2147483648) :
    floatToInt x = some (Int.floor x) := by
  unfold floatToInt
  simp only [truncInt_of_nonneg h0]
  have hf0 : 0 ≤ Int.floor x := Int.floor_nonneg.2 h0
  have hf1 : Int.floor x < 2147483648 := by
    rw [Int.floor_lt]
    exact_mod_cast h1
  rw [if_pos ⟨by omega, hf1⟩]

theorem floatToUInt16_of_range {x : K} (h0 : 0 ≤ x) (h1 : x < 65536) :
    floatToUInt16 x = some (Int.floor x).toNat := by
  unfold floatToUInt16
  simp only [truncInt_of_nonneg h0]
  have hf0 : 0 ≤ Int.floor x := Int.floor_nonneg.2 h0
  have hf1 : Int.floor x < 65536 := by
    rw [Int.floor_lt]
    exact_mod_cast h1
  rw [if_pos ⟨hf0, hf1⟩]

end Truncation

section DelayLengths

variable {K : Type} [LinearOrderedField K]

theorem ALPHA_pos : 0 < ALPHA K := by unfold ALPHA; positivity

theorem ALPHA_le_one : ALPHA K ≤ 1 := by
  unfold ALPHA
  rw [div_le_one (by positivity)]
  norm_num

theorem fDelaySamplesAt_eq (s : K) (k : Nat) : fDelaySamplesAt s k = s * ALPHA K ^ k := by
  induction k with
  | zero => simp [fDelaySamplesAt]
  | succ k ih => rw [fDelaySamplesAt, ih, pow_succ]; ring

theorem ALPHA_pow_seven : (127 : K) ≤ 192 * ALPHA K ^ 7 := by
  unfold ALPHA
  rw [div_pow, ← mul_div_assoc, le_div_iff₀ (by positivity)]
  norm_num

theorem fDelaySamplesAt_bounds (s : K) (h1 : MIN_ROOM_SIZE K ≤ s) (h2 : s ≤ MAX_ROOM_SIZE K)
    (k : Nat) (hk : k ≤ 7) :
    127 ≤ fDelaySamplesAt s k ∧ fDelaySamplesAt s k ≤ s ∧ fDelaySamplesAt s k ≤ 7552 := by
  unfold MIN_ROOM_SIZE at h1
  unfold MAX_ROOM_SIZE at h2
  rw [fDelaySamplesAt_eq]
  have hs : 0 ≤ s := by linarith
  have hpow1 : ALPHA K ^ k ≤ 1 := pow_le_one₀ (le_of_lt ALPHA_pos) ALPHA_le_one
  have hpow7 : ALPHA K ^ 7 ≤ ALPHA K ^ k :=
    pow_le_pow_of_le_one (le_of_lt ALPHA_pos) ALPHA_le_one hk
  have hpos7 : 0 ≤ ALPHA K ^ 7 := pow_nonneg (le_of_lt ALPHA_pos) 7
  have hle : s * ALPHA K ^ k ≤ s := by
    calc s * ALPHA K ^ k ≤ s * 1 := mul_le_mul_of_nonneg_left hpow1 hs
      _ = s := mul_one s
  refine ⟨?_, hle, by linarith⟩
  calc (127 : K) ≤ 192 * ALPHA K ^ 7 := ALPHA_pow_seven
    _ ≤ s * ALPHA K ^ 7 := mul_le_mul_of_nonneg_right h1 hpos7
    _ ≤ s * ALPHA K ^ k := mul_le_mul_of_nonneg_left hpow7 hs

end DelayLengths

/-! ## The reverb: node configuration and pre-delay length -/

theorem prime_127 : Nat.Prime 127 := by norm_num

section NodeConfiguration

variable {K : Type} [LinearOrderedField K] [FloorRing K]

theorem floor_toNat_bounds {x : K} (h1 : 127 ≤ x) (h2 : x ≤ 7552) :
    127 ≤ (Int.floor x).toNat ∧ (Int.floor x).toNat ≤ 7552 ∧ 0 ≤ Int.floor x := by
  have a1 : (127 : Int) ≤ Int.floor x := by
    rw [Int.le_floor]
    exact_mod_cast h1
  have a2 : Int.floor x ≤ 7552 := by
    have : Int.floor x < 7552 + 1 := by
      rw [Int.floor_lt]
      push_cast
      linarith
    omega
  omega

theorem Node.set_spec (expf : K → K) (table : List Nat) (ht : IsPrimeTable table) (nd : Node K)
    (beta x c : K) (hx1 : 127 ≤ x) (hx2 : x ≤ 7552) (hL : nd.result.length ≤ 127) :
    ∃ p, FindNearestPrime table (Int.floor x).toNat = some p ∧ p.Prime ∧ 127 ≤ p ∧
      p ≤ (Int.floor x).toNat ∧
      nd.set expf table beta x c = some { nd with
        delay_samples := p - nd.result.length
        a1 := (p : K) * c
        b0 := ONE_OVER_SQRT8 K * expf (beta * (p : K)) * ((p : K) * c - 1) } := by
  obtain ⟨b1, b2, b3⟩ := floor_toNat_bounds hx1 hx2
  obtain ⟨p, a1, a2, a3, a4⟩ := findNearestPrime_spec table ht (Int.floor x).toNat (by omega)
    (by unfold PRIME_NUMBER_TABLE_SIZE; omega)
  have hp127 : 127 ≤ p := a4 127 prime_127 b1
  refine ⟨p, a1, a2, hp127, a3, ?_⟩
  unfold Node.set
  rw [floatToInt_of_range (by linarith) (by linarith)]
  simp only []
  rw [toUInt16_of_range b3 (by omega), a1]
  simp only []
  rw [floatToSize_sub p nd.result.length (by omega) (by omega)]

theorem Node.set_result (expf : K → K) (table : List Nat) (nd nd1 : Node K)
    (beta x c : K) (h : nd.set expf table beta x c = some nd1) : nd1.result = nd.result := by
  unfold Node.set at h
  split at h
  · exact absurd h (by simp)
  · split at h
    · exact absurd h (by simp)
    · dsimp only at h
      split at h
      · exact absurd h (by simp)
      · simp only [Option.some.injEq] at h
        rw [← h]

theorem configureNodes_spec (expf : K → K) (table : List Nat) (ht : IsPrimeTable table)
    (node : Fin 8 → Node K) (inp : BlockInput K)
    (h1 : MIN_ROOM_SIZE K ≤ inp.size) (h2 : inp.size ≤ MAX_ROOM_SIZE K)
    (hL : ∀ k, (node k).result.length ≤ 127) :
    ∃ (p0 : Nat) (p : Fin 8 → Nat),
      FindNearestPrime table (Int.floor inp.size).toNat = some p0 ∧ p0.Prime ∧
      (∀ k : Fin 8, FindNearestPrime table (Int.floor (fDelaySamplesAt inp.size k)).toNat
          = some (p k) ∧ (p k).Prime ∧ 127 ≤ p k ∧ p k ≤ p0) ∧
      configureNodes expf table node inp = some (fun k => { node k with
        delay_samples := p k - (node k).result.length
        a1 := (p k : K) * (cutoffCoef expf inp / (p0 : K))
        b0 := ONE_OVER_SQRT8 K * expf (betaOf inp * (p k : K))
          * ((p k : K) * (cutoffCoef expf inp / (p0 : K)) - 1) }) := by
  have hs1 : (127 : K) ≤ inp.size := by unfold MIN_ROOM_SIZE at h1; linarith
  have hs2 : inp.size ≤ 7552 := h2
  obtain ⟨b1, b2, b3⟩ := floor_toNat_bounds hs1 hs2
  obtain ⟨p0, a1, a2, a3, a4⟩ := findNearestPrime_spec table ht (Int.floor inp.size).toNat
    (by omega) (by unfold PRIME_NUMBER_TABLE_SIZE; omega)
  have hnode : ∀ k : Fin 8, ∃ p, FindNearestPrime table
      (Int.floor (fDelaySamplesAt inp.size k)).toNat = some p ∧ p.Prime ∧ 127 ≤ p ∧ p ≤ p0 ∧
      (node k).set expf table (betaOf inp) (fDelaySamplesAt inp.size k)
          (cutoffCoef expf inp / (p0 : K)) = some { node k with
        delay_samples := p - (node k).result.length
        a1 := (p : K) * (cutoffCoef expf inp / (p0 : K))
        b0 := ONE_OVER_SQRT8 K * expf (betaOf inp * (p : K))
          * ((p : K) * (cutoffCoef expf inp / (p0 : K)) - 1) } := by
    intro k
    obtain ⟨c1, c2, c3⟩ := fDelaySamplesAt_bounds inp.size h1 h2 k (by omega)
    obtain ⟨p, d1, d2, d3, d4, d5⟩ := Node.set_spec expf table ht (node k) (betaOf inp)
      (fDelaySamplesAt inp.size k) (cutoffCoef expf inp / (p0 : K)) c1 c3 (hL k)
    refine ⟨p, d1, d2, d3, ?_, d5⟩
    apply a4 p d2
    have hfl : Int.floor (fDelaySamplesAt inp.size k) ≤ Int.floor inp.size :=
      Int.floor_le_floor c2
    have := Int.toNat_le_toNat hfl
    omega
  choose p hp using hnode
  refine ⟨p0, p, a1, a2, fun k => ⟨(hp k).1, (hp k).2.1, (hp k).2.2.1, (hp k).2.2.2.1⟩, ?_⟩
  unfold configureNodes
  rw [floatToUInt16_of_range (by linarith) (by linarith)]
  simp only [Option.bind_eq_bind, Option.some_bind, a1]
  exact allNodes_some _ _ (fun k => (hp k).2.2.2.2)

theorem configureNodes_result (expf : K → K) (table : List Nat) (node node1 : Fin 8 → Node K)
    (inp : BlockInput K) (h : configureNodes expf table node inp = some node1) (k : Fin 8) :
    (node1 k).result = (node k).result := by
  unfold configureNodes at h
  simp only [Option.bind_eq_bind, Option.bind_eq_some] at h
  obtain ⟨number, _, p0, _, h3⟩ := h
  exact Node.set_result expf table _ _ _ _ _ (allNodes_eq_some h3 k)

end NodeConfiguration

section SetOfSome

variable {K : Type} [LinearOrderedField K] [FloorRing K]

/-- What `set` leaves whenever it returns: the coefficients computed from the prime length
that `FindNearestPrime` returned. -/
theorem Node.set_of_some (expf : K → K) (table : List Nat) (nd nd1 : Node K)
    (beta x c : K) (h : nd.set expf table beta x c = some nd1) :
    ∃ (n : Int) (p : Nat), floatToInt x = some n ∧
      FindNearestPrime table (toUInt16 n) = some p ∧
      nd1.a1 = (p : K) * c ∧
      nd1.b0 = ONE_OVER_SQRT8 K * expf (beta * (p : K)) * (nd1.a1 - 1) := by
  unfold Node.set at h
  split at h
  · exact absurd h (by simp)
  · rename_i n hn
    split at h
    · exact absurd h (by simp)
    · rename_i p hp
      dsimp only at h
      split at h
      · exact absurd h (by simp)
      · simp only [Option.some.injEq] at h
        refine ⟨n, p, hn, hp, ?_, ?_⟩
        · rw [← h]
        · rw [← h]

end SetOfSome

/-! ## Rounding to `float` and `double` -/

section RoundingLemmas

variable {K : Type} [LinearOrderedField K] [FloorRing K]

theorem roundHalfEven_of_lt (x : K) (f : Int) (h1 : (f : K) ≤ x) (h2 : 2 * (x - (f : K)) < 1) :
    roundHalfEven x = f := by
  have hf : Int.floor x = f := by
    rw [Int.floor_eq_iff]
    constructor
    · exact h1
    · linarith
  unfold roundHalfEven
  rw [hf, if_pos h2]

theorem roundHalfEven_of_gt (x : K) (f : Int) (h1 : x < (f : K) + 1)
    (h2 : 1 < 2 * (x - (f : K))) : roundHalfEven x = f + 1 := by
  have hf : Int.floor x = f := by
    rw [Int.floor_eq_iff]
    constructor
    · linarith
    · exact h1
  unfold roundHalfEven
  rw [hf, if_neg (by linarith), if_pos h2]

theorem roundHalfEven_intCast (m : Int) : roundHalfEven (m : K) = m :=
  roundHalfEven_of_lt _ m (le_refl _) (by simp)

theorem roundHalfEven_sub_le (x : K) : |(roundHalfEven x : K) - x| ≤ 1 / 2 := by
  have h1 := Int.floor_le x
  have h2 := Int.lt_floor_add_one x
  unfold roundHalfEven
  rw [abs_le]
  split_ifs with a b c
  · constructor <;> linarith
  · push_cast
    constructor <;> linarith
  · constructor <;> linarith
  · push_cast
    constructor <;> linarith

theorem log_two_eq (x : K) (e : Int) (h1 : (2 : K) ^ e ≤ x) (h2 : x < (2 : K) ^ (e + 1)) :
    Int.log 2 x = e := by
  have hx : 0 < x := lt_of_lt_of_le (zpow_pos (by norm_num) e) h1
  have a : e ≤ Int.log 2 x := by
    rw [← Int.zpow_le_iff_le_log (by norm_num) hx]
    exact_mod_cast h1
  have b : Int.log 2 x < e + 1 := by
    rw [← Int.lt_zpow_iff_log_lt (by norm_num) hx]
    exact_mod_cast h2
  omega

/-- The value of `roundBits t` at an `x` with `|x|` in the binade `[2^(e+t), 2^(e+t+1))`, where
the unit in the last place is `2^e`. -/
theorem roundBits_eq (t : Nat) (x : K) (e m : Int) (h1 : (2 : K) ^ (e + t) ≤ |x|)
    (h2 : |x| < (2 : K) ^ (e + t + 1)) (hm : roundHalfEven (x / (2 : K) ^ e) = m) :
    roundBits t x = (m : K) * (2 : K) ^ e := by
  have hx : 0 < |x| := lt_of_lt_of_le (zpow_pos (by norm_num) _) h1
  have hlog : Int.log 2 |x| = e + t := log_two_eq |x| (e + t) h1 h2
  unfold roundBits
  rw [if_neg (abs_pos.1 hx), hlog, show e + (t : Int) - (t : Int) = e by ring, hm]

/-- The value of `round32` at a positive `x` in the binade `[2^(e+23), 2^(e+24))`, where the
unit in the last place is `2^e`. -/
theorem round32_eq (x : K) (e m : Int) (h1 : (2 : K) ^ (e + 23) ≤ x)
    (h2 : x < (2 : K) ^ (e + 23 + 1)) (hm : roundHalfEven (x / (2 : K) ^ e) = m) :
    round32 x = (m : K) * (2 : K) ^ e := by
  have hx : 0 < x := lt_of_lt_of_le (zpow_pos (by norm_num) _) h1
  have h := roundBits_eq 23 x e m (by rw [abs_of_pos hx]; exact_mod_cast h1)
    (by rw [abs_of_pos hx]; exact_mod_cast h2) hm
  exact h

/-- The value of `round32` at a negative `x` with `-x` in the binade `[2^(e+23), 2^(e+24))`. -/
theorem round32_eq_of_neg (x : K) (e m : Int) (h1 : (2 : K) ^ (e + 23) ≤ -x)
    (h2 : -x < (2 : K) ^ (e + 23 + 1)) (hm : roundHalfEven (x / (2 : K) ^ e) = m) :
    round32 x = (m : K) * (2 : K) ^ e := by
  have hx : 0 < -x := lt_of_lt_of_le (zpow_pos (by norm_num) _) h1
  have hx2 : x < 0 := by linarith
  have h := roundBits_eq 23 x e m (by rw [abs_of_neg hx2]; exact_mod_cast h1)
    (by rw [abs_of_neg hx2]; exact_mod_cast h2) hm
  exact h

/-- The value of `round64` at a positive `x` in the binade `[2^(e+52), 2^(e+53))`. -/
theorem round64_eq (x : K) (e m : Int) (h1 : (2 : K) ^ (e + 52) ≤ x)
    (h2 : x < (2 : K) ^ (e + 52 + 1)) (hm : roundHalfEven (x / (2 : K) ^ e) = m) :
    round64 x = (m : K) * (2 : K) ^ e := by
  have hx : 0 < x := lt_of_lt_of_le (zpow_pos (by norm_num) _) h1
  have h := roundBits_eq 52 x e m (by rw [abs_of_pos hx]; exact_mod_cast h1)
    (by rw [abs_of_pos hx]; exact_mod_cast h2) hm
  exact h

/-- The value of `round64` at a negative `x` with `-x` in the binade `[2^(e+52), 2^(e+53))`. -/
theorem round64_eq_of_neg (x : K) (e m : Int) (h1 : (2 : K) ^ (e + 52) ≤ -x)
    (h2 : -x < (2 : K) ^ (e + 52 + 1)) (hm : roundHalfEven (x / (2 : K) ^ e) = m) :
    round64 x = (m : K) * (2 : K) ^ e := by
  have hx : 0 < -x := lt_of_lt_of_le (zpow_pos (by norm_num) _) h1
  have hx2 : x < 0 := by linarith
  have h := roundBits_eq 52 x e m (by rw [abs_of_neg hx2]; exact_mod_cast h1)
    (by rw [abs_of_neg hx2]; exact_mod_cast h2) hm
  exact h

/-- Rounding to `t + 1` significant bits has a relative error of at most `2^-(t+1)`. -/
theorem roundBits_sub_le (t : Nat) (x : K) :
    |roundBits t x - x| ≤ 1 / 2 ^ (t + 1) * |x| := by
  by_cases hx : x = 0
  · simp [roundBits, hx]
  · have hax : 0 < |x| := abs_pos.2 hx
    have hq : (0 : K) < (2 : K) ^ (Int.log 2 |x| - (t : Int)) := zpow_pos (by norm_num) _
    have hle : (2 : K) ^ (Int.log 2 |x|) ≤ |x| := by
      have := Int.zpow_log_le_self (b := 2) (by norm_num) hax
      exact_mod_cast this
    have hsplit : (2 : K) ^ (Int.log 2 |x|)
        = (2 : K) ^ (Int.log 2 |x| - (t : Int)) * 2 ^ t := by
      rw [← zpow_natCast, ← zpow_add₀ (by norm_num)]
      congr 1
      ring
    have hr := roundHalfEven_sub_le (x / (2 : K) ^ (Int.log 2 |x| - (t : Int)))
    unfold roundBits
    rw [if_neg hx]
    have e1 : (roundHalfEven (x / (2 : K) ^ (Int.log 2 |x| - (t : Int))) : K)
          * (2 : K) ^ (Int.log 2 |x| - (t : Int)) - x
        = ((roundHalfEven (x / (2 : K) ^ (Int.log 2 |x| - (t : Int))) : K)
          - x / (2 : K) ^ (Int.log 2 |x| - (t : Int)))
            * (2 : K) ^ (Int.log 2 |x| - (t : Int)) := by
      field_simp
    rw [e1, abs_mul, abs_of_pos hq]
    have h3 : |(roundHalfEven (x / (2 : K) ^ (Int.log 2 |x| - (t : Int))) : K)
          - x / (2 : K) ^ (Int.log 2 |x| - (t : Int))|
            * (2 : K) ^ (Int.log 2 |x| - (t : Int))
        ≤ 1 / 2 * (2 : K) ^ (Int.log 2 |x| - (t : Int)) :=
      mul_le_mul_of_nonneg_right hr hq.le
    have h4 : (2 : K) ^ (Int.log 2 |x| - (t : Int)) * 2 ^ t ≤ |x| := by
      rw [← hsplit]; exact hle
    have h5 : 1 / 2 * (2 : K) ^ (Int.log 2 |x| - (t : Int)) ≤ 1 / 2 ^ (t + 1) * |x| := by
      have : (1 : K) / 2 * (2 : K) ^ (Int.log 2 |x| - (t : Int))
          = 1 / 2 ^ (t + 1) * ((2 : K) ^ (Int.log 2 |x| - (t : Int)) * 2 ^ t) := by
        rw [pow_succ]
        field_simp
        ring
      rw [this]
      exact mul_le_mul_of_nonneg_left h4 (by positivity)
    linarith

/-- Rounding to `float` has a relative error of at most `2^-24`. -/
theorem round32_isRounding : IsRounding (1 / 2 ^ 24 : K) (fun _ => round32) := by
  intro n x
  exact roundBits_sub_le 23 x

theorem round32_sub_le (x : K) : |round32 x - x| ≤ 1 / 2 ^ 24 * |x| := roundBits_sub_le 23 x

theorem round64_sub_le (x : K) : |round64 x - x| ≤ 1 / 2 ^ 53 * |x| := roundBits_sub_le 52 x

end RoundingLemmas

/-! ## The reverb: the delay lengths with `float` rounding -/

section ChainLemmas

variable {K : Type} [LinearOrderedField K]

theorem isRounding_bounds {u : K} {fl : Nat → K → K} (hfl : IsRounding u fl) (n : Nat) (y : K)
    (hy : 0 ≤ y) : y * (1 - u) ≤ fl n y ∧ fl n y ≤ y * (1 + u) := by
  have h := hfl n y
  rw [abs_of_nonneg hy, abs_le] at h
  constructor <;> nlinarith [h.1, h.2]

theorem ALPHA_rounded_pow_seven : (127 : K) ≤ 192 * (ALPHA K * (1 - 1 / 4096)) ^ 7 := by
  unfold ALPHA
  have e : (943722057435498 / 1000000000000000 * (1 - 1 / 4096) : K)
      = 943722057435498 * 4095 / (1000000000000000 * 4096) := by norm_num
  rw [e, div_pow, ← mul_div_assoc, le_div_iff₀ (by positivity)]
  norm_num

theorem fDelaySamplesFl_id (s : K) (k : Nat) :
    fDelaySamplesFl (fun _ x => x) s k = fDelaySamplesAt s k := by
  induction k with
  | zero => rfl
  | succ k ih => rw [fDelaySamplesFl, fDelaySamplesAt, ih]

/-- The rounded delay lengths stay in `[127, s]`: seven products by `ALPHA`, each rounded with
a relative error of at most `1/4096`, do not take a room size of at least 192 below 127. -/
theorem fDelaySamplesFl_bounds (u : K) (fl : Nat → K → K) (hu0 : 0 ≤ u) (hu : u ≤ 1 / 4096)
    (hfl : IsRounding u fl) (s : K) (h1 : MIN_ROOM_SIZE K ≤ s) (h2 : s ≤ MAX_ROOM_SIZE K)
    (k : Nat) (hk : k ≤ 7) :
    127 ≤ fDelaySamplesFl fl s k ∧ fDelaySamplesFl fl s k ≤ s ∧
      fDelaySamplesFl fl s k ≤ 7552 := by
  unfold MIN_ROOM_SIZE at h1
  unfold MAX_ROOM_SIZE at h2
  have hs : 0 ≤ s := by linarith
  have hA0 : 0 < ALPHA K := ALPHA_pos
  have hA1 : ALPHA K ≤ 1 := ALPHA_le_one
  have ha0 : 0 ≤ ALPHA K * (1 - u) := mul_nonneg hA0.le (by linarith)
  have ha1 : ALPHA K * (1 - u) ≤ 1 := by nlinarith
  have hb1 : ALPHA K * (1 + u) ≤ 1 := by
    unfold ALPHA at hA0 hA1 ⊢
    have : (943722057435498 / 1000000000000000 : K) * (1 + 1 / 4096) ≤ 1 := by norm_num
    nlinarith
  have hchain : ∀ j : Nat, s * (ALPHA K * (1 - u)) ^ j ≤ fDelaySamplesFl fl s j ∧
      fDelaySamplesFl fl s j ≤ s := by
    intro j
    induction j with
    | zero => simp [fDelaySamplesFl]
    | succ j ih =>
      obtain ⟨i1, i2⟩ := ih
      have hx0 : 0 ≤ fDelaySamplesFl fl s j :=
        le_trans (mul_nonneg hs (pow_nonneg ha0 j)) i1
      have hy0 : 0 ≤ fDelaySamplesFl fl s j * ALPHA K := mul_nonneg hx0 hA0.le
      obtain ⟨r1, r2⟩ := isRounding_bounds hfl j _ hy0
      rw [fDelaySamplesFl]
      constructor
      · calc s * (ALPHA K * (1 - u)) ^ (j + 1)
            = s * (ALPHA K * (1 - u)) ^ j * (ALPHA K * (1 - u)) := by rw [pow_succ]; ring
          _ ≤ fDelaySamplesFl fl s j * (ALPHA K * (1 - u)) :=
              mul_le_mul_of_nonneg_right i1 ha0
          _ = fDelaySamplesFl fl s j * ALPHA K * (1 - u) := by ring
          _ ≤ fl j (fDelaySamplesFl fl s j * ALPHA K) := r1
      · calc fl j (fDelaySamplesFl fl s j * ALPHA K)
            ≤ fDelaySamplesFl fl s j * ALPHA K * (1 + u) := r2
          _ = fDelaySamplesFl fl s j * (ALPHA K * (1 + u)) := by ring
          _ ≤ fDelaySamplesFl fl s j * 1 := mul_le_mul_of_nonneg_left hb1 hx0
          _ ≤ s := by rw [mul_one]; exact i2
  obtain ⟨c1, c2⟩ := hchain k
  refine ⟨?_, c2, by linarith⟩
  have hpow7 : (ALPHA K * (1 - u)) ^ 7 ≤ (ALPHA K * (1 - u)) ^ k :=
    pow_le_pow_of_le_one ha0 ha1 hk
  have hlow : ALPHA K * (1 - 1 / 4096) ≤ ALPHA K * (1 - u) :=
    mul_le_mul_of_nonneg_left (by linarith) hA0.le
  have hlow0 : 0 ≤ ALPHA K * (1 - 1 / 4096) := mul_nonneg hA0.le (by norm_num)
  have hpowlow : (ALPHA K * (1 - 1 / 4096)) ^ 7 ≤ (ALPHA K * (1 - u)) ^ 7 :=
    pow_le_pow_left₀ hlow0 hlow 7
  calc (127 : K) ≤ 192 * (ALPHA K * (1 - 1 / 4096)) ^ 7 := ALPHA_rounded_pow_seven
    _ ≤ 192 * (ALPHA K * (1 - u)) ^ 7 := mul_le_mul_of_nonneg_left hpowlow (by norm_num)
    _ ≤ s * (ALPHA K * (1 - u)) ^ 7 := mul_le_mul_of_nonneg_right h1 (pow_nonneg ha0 7)
    _ ≤ s * (ALPHA K * (1 - u)) ^ k := mul_le_mul_of_nonneg_left hpow7 hs
    _ ≤ fDelaySamplesFl fl s k := c1

end ChainLemmas

section ChainExamples

variable {K : Type} [LinearOrderedField K] [FloorRing K]

theorem configureNodesFl_id (expf : K → K) (table : List Nat) (node : Fin 8 → Node K)
    (inp : BlockInput K) :
    configureNodesFl (fun _ x => x) expf table node inp = configureNodes expf table node inp := by
  unfold configureNodesFl configureNodes
  simp only [fDelaySamplesFl_id]

/-- The delay length of node 7 for the room size 192, each product rounded to `float`: it is
just below 128, while `192 * ALPHA^7` is just above. -/
theorem fDelaySamplesFl_192 :
    fDelaySamplesFl (fun _ => round32) (192 : K) 7 = 16777215 / 131072 ∧
    (128 : K) < fDelaySamplesAt (192 : K) 7 := by
  have r1 : round32 (192 * ALPHA K : K) = 2968693 / 16384 := by
    have h := round32_eq (192 * ALPHA K : K) (-16) (11874771 + 1)
      (by unfold ALPHA; norm_num) (by unfold ALPHA; norm_num)
      (roundHalfEven_of_gt _ (11874771) (by unfold ALPHA; norm_num)
        (by unfold ALPHA; norm_num))
    rw [h]
    norm_num
  have r2 : round32 (2968693 / 16384 * ALPHA K : K) = 2801621 / 16384 := by
    have h := round32_eq (2968693 / 16384 * ALPHA K : K) (-16) (11206484)
      (by unfold ALPHA; norm_num) (by unfold ALPHA; norm_num)
      (roundHalfEven_of_lt _ (11206484) (by unfold ALPHA; norm_num)
        (by unfold ALPHA; norm_num))
    rw [h]
    norm_num
  have r3 : round32 (2801621 / 16384 * ALPHA K : K) = 5287903 / 32768 := by
    have h := round32_eq (2801621 / 16384 * ALPHA K : K) (-16) (10575806)
      (by unfold ALPHA; norm_num) (by unfold ALPHA; norm_num)
      (roundHalfEven_of_lt _ (10575806) (by unfold ALPHA; norm_num)
        (by unfold ALPHA; norm_num))
    rw [h]
    norm_num
  have r4 : round32 (5287903 / 32768 * ALPHA K : K) = 9980621 / 65536 := by
    have h := round32_eq (5287903 / 32768 * ALPHA K : K) (-16) (9980621)
      (by unfold ALPHA; norm_num) (by unfold ALPHA; norm_num)
      (roundHalfEven_of_lt _ (9980621) (by unfold ALPHA; norm_num)
        (by unfold ALPHA; norm_num))
    rw [h]
    norm_num
  have r5 : round32 (9980621 / 65536 * ALPHA K : K) = 2354733 / 16384 := by
    have h := round32_eq (9980621 / 65536 * ALPHA K : K) (-16) (9418932)
      (by unfold ALPHA; norm_num) (by unfold ALPHA; norm_num)
      (roundHalfEven_of_lt _ (9418932) (by unfold ALPHA; norm_num)
        (by unfold ALPHA; norm_num))
    rw [h]
    norm_num
  have r6 : round32 (2354733 / 16384 * ALPHA K : K) = 4444427 / 32768 := by
    have h := round32_eq (2354733 / 16384 * ALPHA K : K) (-16) (8888853 + 1)
      (by unfold ALPHA; norm_num) (by unfold ALPHA; norm_num)
      (roundHalfEven_of_gt _ (8888853) (by unfold ALPHA; norm_num)
        (by unfold ALPHA; norm_num))
    rw [h]
    norm_num
  have r7 : round32 (4444427 / 32768 * ALPHA K : K) = 16777215 / 131072 := by
    have h := round32_eq (4444427 / 32768 * ALPHA K : K) (-17) (16777215)
      (by unfold ALPHA; norm_num) (by unfold ALPHA; norm_num)
      (roundHalfEven_of_lt _ (16777215) (by unfold ALPHA; norm_num)
        (by unfold ALPHA; norm_num))
    rw [h]
    norm_num
  constructor
  · simp only [fDelaySamplesFl]
    rw [r1, r2, r3, r4, r5, r6, r7]
  · rw [fDelaySamplesAt_eq]
    unfold ALPHA
    rw [div_pow, ← mul_div_assoc, lt_div_iff₀ (by positivity)]
    norm_num

/-- The delay length of node 2 for the room size 4580, each product rounded to `float`: it is
4079, while `4580 * ALPHA^2` is just below. -/
theorem fDelaySamplesFl_4580 :
    fDelaySamplesFl (fun _ => round32) (4580 : K) 2 = 4079 ∧
    fDelaySamplesAt (4580 : K) 2 < 4079 ∧ (4078 : K) ≤ fDelaySamplesAt (4580 : K) 2 := by
  have r1 : round32 (4580 * ALPHA K : K) = 4425981 / 1024 := by
    have h := round32_eq (4580 * ALPHA K : K) (-11) (8851961 + 1)
      (by unfold ALPHA; norm_num) (by unfold ALPHA; norm_num)
      (roundHalfEven_of_gt _ (8851961) (by unfold ALPHA; norm_num)
        (by unfold ALPHA; norm_num))
    rw [h]
    norm_num
  have r2 : round32 (4425981 / 1024 * ALPHA K : K) = 4079 := by
    have h := round32_eq (4425981 / 1024 * ALPHA K : K) (-12) (16707583 + 1)
      (by unfold ALPHA; norm_num) (by unfold ALPHA; norm_num)
      (roundHalfEven_of_gt _ (16707583) (by unfold ALPHA; norm_num)
        (by unfold ALPHA; norm_num))
    rw [h]
    norm_num
  refine ⟨?_, ?_, ?_⟩
  · simp only [fDelaySamplesFl]
    rw [r1, r2]
  · rw [fDelaySamplesAt_eq]
    unfold ALPHA
    norm_num
  · rw [fDelaySamplesAt_eq]
    unfold ALPHA
    norm_num

end ChainExamples

section ChainConfiguration

variable {K : Type} [LinearOrderedField K] [FloorRing K]

/-- The configuration of the nodes with rounded delay lengths: the prime lengths exist, each
node gets `a1 = p k * (fCutoffCoef / p0)` whenever the configuration returns, and it returns
when the node results have at most 127 samples. -/
theorem configureNodesFl_spec (u : K) (fl : Nat → K → K) (hu0 : 0 ≤ u) (hu : u ≤ 1 / 4096)
    (hfl : IsRounding u fl) (expf : K → K) (table : List Nat) (ht : IsPrimeTable table)
    (node : Fin 8 → Node K) (inp : BlockInput K)
    (h1 : MIN_ROOM_SIZE K ≤ inp.size) (h2 : inp.size ≤ MAX_ROOM_SIZE K) :
    ∃ (p0 : Nat) (p : Fin 8 → Nat),
      FindNearestPrime table (Int.floor inp.size).toNat = some p0 ∧ p0.Prime ∧
      (∀ k : Fin 8, FindNearestPrime table (Int.floor (fDelaySamplesFl fl inp.size k)).toNat
          = some (p k) ∧ (p k).Prime ∧ 127 ≤ p k ∧ p k ≤ p0) ∧
      (∀ node1 : Fin 8 → Node K, configureNodesFl fl expf table node inp = some node1 →
        ∀ k : Fin 8, (node1 k).a1 = (p k : K) * (cutoffCoef expf inp / (p0 : K))) ∧
      ((∀ k, (node k).result.length ≤ 127) →
        ∃ node1, configureNodesFl fl expf table node inp = some node1) := by
  have hs1 : (127 : K) ≤ inp.size := by unfold MIN_ROOM_SIZE at h1; linarith
  have hs2 : inp.size ≤ 7552 := h2
  obtain ⟨b1, b2, b3⟩ := floor_toNat_bounds hs1 hs2
  obtain ⟨p0, a1, a2, a3, a4⟩ := findNearestPrime_spec table ht (Int.floor inp.size).toNat
    (by omega) (by unfold PRIME_NUMBER_TABLE_SIZE; omega)
  have hnode : ∀ k : Fin 8, ∃ p, FindNearestPrime table
      (Int.floor (fDelaySamplesFl fl inp.size k)).toNat = some p ∧ p.Prime ∧ 127 ≤ p ∧
      p ≤ p0 := by
    intro k
    obtain ⟨c1, c2, c3⟩ := fDelaySamplesFl_bounds u fl hu0 hu hfl inp.size h1 h2 k (by omega)
    obtain ⟨e1, e2, e3⟩ := floor_toNat_bounds c1 c3
    obtain ⟨p, d1, d2, d3, d4⟩ := findNearestPrime_spec table ht
      (Int.floor (fDelaySamplesFl fl inp.size k)).toNat (by omega)
      (by unfold PRIME_NUMBER_TABLE_SIZE; omega)
    refine ⟨p, d1, d2, d4 127 prime_127 e1, ?_⟩
    apply a4 p d2
    have hfl2 : Int.floor (fDelaySamplesFl fl inp.size k) ≤ Int.floor inp.size :=
      Int.floor_le_floor c2
    have := Int.toNat_le_toNat hfl2
    omega
  choose p hp using hnode
  refine ⟨p0, p, a1, a2, hp, ?_, ?_⟩
  · intro node1 h k
    unfold configureNodesFl at h
    rw [floatToUInt16_of_range (by linarith) (by linarith)] at h
    simp only [Option.bind_eq_bind, Option.some_bind, a1] at h
    obtain ⟨n, q, g1, g2, g3, _⟩ := Node.set_of_some expf table _ _ _ _ _
      (allNodes_eq_some h k)
    obtain ⟨c1, c2, c3⟩ := fDelaySamplesFl_bounds u fl hu0 hu hfl inp.size h1 h2 k (by omega)
    obtain ⟨e1, e2, e3⟩ := floor_toNat_bounds c1 c3
    rw [floatToInt_of_range (by linarith) (by linarith)] at g1
    have hn : n = Int.floor (fDelaySamplesFl fl inp.size k) := (Option.some.inj g1).symm
    rw [hn, toUInt16_of_range e3 (by omega), (hp k).1] at g2
    have hq : q = p k := (Option.some.inj g2).symm
    rw [g3, hq]
  · intro hL
    unfold configureNodesFl
    rw [floatToUInt16_of_range (by linarith) (by linarith)]
    simp only [Option.bind_eq_bind, Option.some_bind, a1]
    have hset : ∀ k : Fin 8, ∃ nd, (node k).set expf table (betaOf inp)
        (fDelaySamplesFl fl inp.size k) (cutoffCoef expf inp / (p0 : K)) = some nd := by
      intro k
      obtain ⟨c1, c2, c3⟩ := fDelaySamplesFl_bounds u fl hu0 hu hfl inp.size h1 h2 k
        (by omega)
      obtain ⟨q, _, _, _, _, d5⟩ := Node.set_spec expf table ht (node k) (betaOf inp)
        (fDelaySamplesFl fl inp.size k) (cutoffCoef expf inp / (p0 : K)) c1 c3 (hL k)
      exact ⟨_, d5⟩
    obtain ⟨g, hg, _⟩ := allNodes_exists _ hset
    exact ⟨g, hg⟩

end ChainConfiguration


theorem halveLoop_spec : ∀ (fuel time : Nat), time ≤ 32768 * 2 ^ fuel →
    ∃ t, halveLoop (fuel + 1) time = some t ∧ t ≤ 32768 ∧ t ≤ time := by
  intro fuel
  induction fuel with
  | zero =>
    intro time h
    refine ⟨time, ?_, by omega, le_refl _⟩
    simp only [halveLoop, MAX_PREDELAY_SIZE]
    rw [if_neg (by omega)]
  | succ fuel ih =>
    intro time h
    by_cases hc : time > 32768
    · obtain ⟨t, a1, a2, a3⟩ := ih (time / 2) (by rw [pow_succ] at h; omega)
      refine ⟨t, ?_, a2, by omega⟩
      rw [halveLoop]
      simp only [MAX_PREDELAY_SIZE]
      rw [if_pos hc]
      exact a1
    · refine ⟨time, ?_, by omega, le_refl _⟩
      rw [halveLoop]
      simp only [MAX_PREDELAY_SIZE]
      rw [if_neg hc]

theorem delaySamples_spec (time : Nat) :
    ∃ t : Nat, delaySamples time = some (t : Int) ∧ t ≤ 32768 := by
  have hlt : time % 4294967296 < 4294967296 := Nat.mod_lt _ (by norm_num)
  obtain ⟨t, a1, a2, _⟩ := halveLoop_spec 33 (time % 4294967296) (by norm_num; omega)
  refine ⟨t, ?_, a2⟩
  unfold delaySamples
  rw [a1]
  simp only [doubleLoop, MIN_PREDELAY_SIZE, Nat.not_lt_zero, if_false]
  rw [toInt32_natCast (by omega)]

/-! ## The reverb: the loops of `processAudio` -/

section LoopLemmas

variable {K : Type} [LinearOrderedField K]

theorem samplesAt_spec (x : Fin 8 → List K) (len i : Nat) (hx : ∀ j, (x j).length = len)
    (hi : i < len) : samplesAt x i = some (fun j => (x j).getD i 0) := by
  unfold samplesAt
  apply allNodes_some
  intro j
  rw [List.getD_eq_getElem?_getD, List.getElem?_eq_getElem (by rw [hx j]; exact hi)]
  simp

theorem mixLoop_spec (dry w0 w1 : K) (input xa xb xc xd : List K) (s0 : K) (len : Nat)
    (h0 : input.length = len) (ha : xa.length = len) (hb : xb.length = len)
    (hc : xc.length = len) (hd : xd.length = len) :
    ∀ n : Nat, n ≤ len → ∃ (out : List K) (rms : K),
      forLoop (mixStep dry w0 w1 input xa xb xc xd) n ([], s0, 0)
        = some (out, (if n = 0 then s0 else tapAt xa xb xc xd (n - 1)), rms) ∧
      out.length = n ∧
      ∀ i : Nat, i < n → out[i]? = some (dry * input.getD i 0 + w0 * tapAt xa xb xc xd i
        + w1 * (if i = 0 then s0 else tapAt xa xb xc xd (i - 1))) := by
  intro n
  induction n with
  | zero =>
    intro _
    exact ⟨[], 0, rfl, rfl, by intro i hi; omega⟩
  | succ n ih =>
    intro hn
    obtain ⟨out, rms, a1, a2, a3⟩ := ih (by omega)
    have g0 : input[n]? = some (input.getD n 0) := by
      rw [List.getD_eq_getElem?_getD, List.getElem?_eq_getElem (by omega)]; simp
    have ga : xa[n]? = some (xa.getD n 0) := by
      rw [List.getD_eq_getElem?_getD, List.getElem?_eq_getElem (by omega)]; simp
    have gb : xb[n]? = some (xb.getD n 0) := by
      rw [List.getD_eq_getElem?_getD, List.getElem?_eq_getElem (by omega)]; simp
    have gc : xc[n]? = some (xc.getD n 0) := by
      rw [List.getD_eq_getElem?_getD, List.getElem?_eq_getElem (by omega)]; simp
    have gd : xd[n]? = some (xd.getD n 0) := by
      rw [List.getD_eq_getElem?_getD, List.getElem?_eq_getElem (by omega)]; simp
    refine ⟨out ++ [dry * input.getD n 0 + w0 * tapAt xa xb xc xd n
        + w1 * (if n = 0 then s0 else tapAt xa xb xc xd (n - 1))],
      rms + tapAt xa xb xc xd n * tapAt xa xb xc xd n, ?_, by simp [a2], ?_⟩
    · simp only [forLoop, a1, Option.some_bind, mixStep, g0, ga, gb, gc, gd]
      simp [tapAt]
    · intro i hi
      by_cases hin : i = n
      · subst hin
        rw [List.getElem?_append_right (by omega)]
        simp [a2]
      · rw [List.getElem?_append_left (by omega)]
        exact a3 i (by omega)

theorem mixLoop_of_some (dry w0 w1 : K) (input xa xb xc xd : List K) (s0 : K) :
    ∀ (n : Nat) (r : List K × K × K),
      forLoop (mixStep dry w0 w1 input xa xb xc xd) n ([], s0, 0) = some r →
      r.1.length = n ∧
      r.2.1 = (if n = 0 then s0 else tapAt xa xb xc xd (n - 1)) ∧
      ∀ i : Nat, i < n → r.1[i]? = some (dry * input.getD i 0 + w0 * tapAt xa xb xc xd i
        + w1 * (if i = 0 then s0 else tapAt xa xb xc xd (i - 1))) := by
  intro n
  induction n with
  | zero =>
    intro r h
    simp only [forLoop, Option.some.injEq] at h
    rw [← h]
    exact ⟨rfl, rfl, by intro i hi; omega⟩
  | succ n ih =>
    intro r h
    simp only [forLoop, Option.bind_eq_some] at h
    obtain ⟨r1, h1, h2⟩ := h
    obtain ⟨a1, a2, a3⟩ := ih r1 h1
    unfold mixStep at h2
    split at h2
    · rename_i v a b c d g0 ga gb gc gd
      simp only [Option.some.injEq] at h2
      have e0 : input.getD n 0 = v := by rw [List.getD_eq_getElem?_getD, g0]; rfl
      have ea : xa.getD n 0 = a := by rw [List.getD_eq_getElem?_getD, ga]; rfl
      have eb : xb.getD n 0 = b := by rw [List.getD_eq_getElem?_getD, gb]; rfl
      have ec : xc.getD n 0 = c := by rw [List.getD_eq_getElem?_getD, gc]; rfl
      have ed : xd.getD n 0 = d := by rw [List.getD_eq_getElem?_getD, gd]; rfl
      have htap : tapAt xa xb xc xd n = a + b + c + d := by
        unfold tapAt; rw [ea, eb, ec, ed]
      rw [← h2]
      refine ⟨by simp [a1], ?_, ?_⟩
      · simp [htap]
      · intro i hi
        by_cases hin : i = n
        · rw [hin]
          simp only []
          rw [List.getElem?_append_right (by omega), a1, Nat.sub_self, a2, e0, htap]
          rfl
        · simp only []
          rw [List.getElem?_append_left (by omega)]
          exact a3 i (by omega)
    · exact absurd h2 (by simp)

theorem filterLoop_spec (nd : Node K) :
    ∀ n : Nat, n ≤ nd.result.length → ∃ (res : List K) (y : K),
      forLoop Node.filterStep n nd = some { nd with result := res, y1 := y } ∧
      res.length = nd.result.length := by
  intro n
  induction n with
  | zero =>
    intro _
    exact ⟨nd.result, nd.y1, rfl, rfl⟩
  | succ n ih =>
    intro hn
    obtain ⟨res, y, a1, a2⟩ := ih (by omega)
    have hg : res[n]? = some res[n] := List.getElem?_eq_getElem (by omega)
    refine ⟨res.set n (nd.b0 * res[n] + nd.a1 * y), nd.b0 * res[n] + nd.a1 * y, ?_, ?_⟩
    · simp only [forLoop, a1, Option.some_bind, Node.filterStep, hg, Node.filter]
    · simp [a2]

theorem DcFilter.blockLoop_length (lambda : K) : ∀ (input : List K) (x1 y : K) (out : List K),
    (DcFilter.blockLoop lambda input x1 y out).2.2.length = out.length + input.length := by
  intro input
  induction input with
  | nil => intro x1 y out; simp [DcFilter.blockLoop]
  | cons x rest ih =>
    intro x1 y out
    rw [DcFilter.blockLoop, ih]
    simp
    omega

theorem DcFilter.processBlock_length (f : DcFilter K) (input : List K) :
    (f.processBlock input).1.length = input.length := by
  have := DcFilter.blockLoop_length f.lambda input f.x1 f.y1 []
  simpa [DcFilter.processBlock] using this

theorem init_wellFormed (L : Nat) : (SilkyVerbPatch.init L : SilkyVerbPatch K).WellFormed L where
  preL_length := List.length_replicate _ _
  preR_length := List.length_replicate _ _
  delayL_size := List.length_replicate _ _
  delayR_size := List.length_replicate _ _
  delayL_index := by show 0 < MAX_PREDELAY_SIZE; unfold MAX_PREDELAY_SIZE; omega
  delayR_index := by show 0 < MAX_PREDELAY_SIZE; unfold MAX_PREDELAY_SIZE; omega
  result_length := fun _ => List.length_replicate _ _
  node_size := fun _ => List.length_replicate _ _
  node_index := fun _ => by show 0 < BUFFER_LIMIT; unfold BUFFER_LIMIT; omega

theorem feedLoop_spec (k : Fin 8) (preL preR : List K) (x : Fin 8 → List K) (len : Nat)
    (hpl : preL.length = len) (hpr : preR.length = len) (hx : ∀ j, (x j).length = len)
    (nd : Node K) (N : Nat) (hN : nd.buffer.toCircularBuffer.getSize = N)
    (hN2 : N ≤ 4294967296) (hw : nd.buffer.writeIndex < N) :
    ∀ n : Nat, n ≤ len → ∃ cb : CircularBuffer K,
      forLoop (feedStep k preL preR x) n nd
        = some { nd with buffer := { nd.buffer with toCircularBuffer := cb } } ∧
      cb.getSize = N ∧ cb.writeIndex < N := by
  intro n
  induction n with
  | zero =>
    intro _
    exact ⟨nd.buffer.toCircularBuffer, rfl, hN, hw⟩
  | succ n ih =>
    intro hn
    obtain ⟨cb, a1, a2, a3⟩ := ih (by omega)
    have hpre : ∃ pre, (if usesPreL k then preL else preR)[n]? = some pre := by
      split_ifs
      · exact ⟨preL[n], List.getElem?_eq_getElem (by omega)⟩
      · exact ⟨preR[n], List.getElem?_eq_getElem (by omega)⟩
    obtain ⟨pre, hpre⟩ := hpre
    have hwr := CircularBuffer.write_eq cb
      (feedbackAcc k pre (fun j => (x j).getD n 0)) (by rw [a2]; exact a3) (by rw [a2]; exact hN2)
    refine ⟨{ buffer := (cb.buffer.set ((cb.writeIndex + 1) % cb.getSize)
                (feedbackAcc k pre (fun j => (x j).getD n 0))),
              writeIndex := (cb.writeIndex + 1) % cb.getSize }, ?_, ?_, ?_⟩
    · simp only [forLoop, a1, Option.some_bind, feedStep, hpre,
        samplesAt_spec x len n hx (by omega), Node.write, hwr]
    · simp only [CircularBuffer.getSize, List.length_set]
      exact a2
    · show (cb.writeIndex + 1) % cb.getSize < N
      rw [a2]
      exact Nat.mod_lt _ (by omega)

theorem Node.process_spec (nd : Node K) (hN : 0 < nd.buffer.toCircularBuffer.getSize) :
    ∃ (res : List K) (y : K),
      nd.process = some { nd with
        result := res
        y1 := y
        buffer := { nd.buffer with readIndex := toInt32 nd.delay_samples } } ∧
      res.length = nd.result.length := by
  obtain ⟨out, a1, a2, _⟩ := CrossFadeBuffer.fadeLoop_spec nd.buffer hN
    (toInt32 nd.delay_samples) nd.result.length nd.result.length
  obtain ⟨res, y, b1, b2⟩ := filterLoop_spec
    ({ nd with result := out,
               buffer := { nd.buffer with readIndex := toInt32 nd.delay_samples } } : Node K)
    out.length (le_refl _)
  refine ⟨res, y, ?_, by rw [b2]; exact a2⟩
  unfold Node.process
  simp only [CrossFadeBuffer.fade, a1, b1]

end LoopLemmas

section PreDelayLemmas

variable {K : Type} [LinearOrderedField K] [FloorRing K]

theorem tempoButton_spec (tc : Int) (len : Nat) (t : Nat) (ht : t ≤ 32768) :
    ∃ r, tempoButton tc len (((t : Int) : K)) = some r := by
  unfold tempoButton
  simp only []
  obtain ⟨r1, r2⟩ := toInt32_range (tc + len)
  split_ifs with h1 h2
  · obtain ⟨_, h1b⟩ := h1
    have hge : (t : Int) ≤ toInt32 (tc + len) := by
      have : (((t : Int)) : K) ≤ ((toInt32 (tc + len) : Int) : K) := h1b
      exact_mod_cast this
    have hcast : ((toInt32 (tc + len) : Int) : K) - (((t : Int)) : K)
        = (((toInt32 (tc + len) - (t : Int)) : Int) : K) := by push_cast; ring
    rw [hcast, floatToInt_intCast _ (by omega) (by omega)]
    exact ⟨_, rfl⟩
  · exact ⟨_, rfl⟩
  · exact ⟨_, rfl⟩

theorem preDelay_spec (st : SilkyVerbPatch K) (L : Nat) (hwf : st.WellFormed L)
    (left right : List K) (hl : left.length = L) (hr : right.length = L) (hL : L ≤ 32768)
    (time : Nat) :
    ∃ (t : Nat) (preL preR : List K) (bL bR : CrossFadeBuffer K),
      preDelay st left right time = some ((((t : Int)) : K), preL, preR, bL, bR) ∧ t ≤ 32768 ∧
      preL.length = L ∧ preR.length = L ∧
      bL.toCircularBuffer.getSize = MAX_PREDELAY_SIZE ∧ bL.writeIndex < MAX_PREDELAY_SIZE ∧
      bR.toCircularBuffer.getSize = MAX_PREDELAY_SIZE ∧ bR.writeIndex < MAX_PREDELAY_SIZE := by
  obtain ⟨t, t1, t2⟩ := delaySamples_spec time
  have hsL := hwf.delayL_size
  have hsR := hwf.delayR_size
  have hiL := hwf.delayL_index
  have hiR := hwf.delayR_index
  obtain ⟨cbL, a1, a2, a3, _⟩ := CircularBuffer.writeBlock_spec st.delayBufferL.toCircularBuffer
    left (by rw [hsL]; omega) (by rw [hsL, hl]; exact hL)
    (by rw [hsL]; unfold MAX_PREDELAY_SIZE; omega)
  obtain ⟨cbR, b1, b2, b3, _⟩ := CircularBuffer.writeBlock_spec st.delayBufferR.toCircularBuffer
    right (by rw [hsR]; omega) (by rw [hsR, hr]; exact hL)
    (by rw [hsR]; unfold MAX_PREDELAY_SIZE; omega)
  have hwL : cbL.writeIndex < MAX_PREDELAY_SIZE := by
    rw [a3, hsL]
    have := @Nat.and_le_right (st.delayBufferL.writeIndex + left.length) (MAX_PREDELAY_SIZE - 1)
    unfold MAX_PREDELAY_SIZE at this ⊢
    omega
  have hwR : cbR.writeIndex < MAX_PREDELAY_SIZE := by
    rw [b3, hsR]
    have := @Nat.and_le_right (st.delayBufferR.writeIndex + right.length) (MAX_PREDELAY_SIZE - 1)
    unfold MAX_PREDELAY_SIZE at this ⊢
    omega
  obtain ⟨outL, c1, c2, _⟩ := CrossFadeBuffer.fadeLoop_spec
    ({ st.delayBufferL with toCircularBuffer := cbL } : CrossFadeBuffer K)
    (by show 0 < cbL.getSize; rw [a2, hsL]; unfold MAX_PREDELAY_SIZE; omega)
    (t : Int) st.preL.length st.preL.length
  obtain ⟨outR, d1, d2, _⟩ := CrossFadeBuffer.fadeLoop_spec
    ({ st.delayBufferR with toCircularBuffer := cbR } : CrossFadeBuffer K)
    (by show 0 < cbR.getSize; rw [b2, hsR]; unfold MAX_PREDELAY_SIZE; omega)
    (t : Int) st.preR.length st.preR.length
  refine ⟨t, outL, outR,
    { toCircularBuffer := cbL, readIndex := (t : Int) },
    { toCircularBuffer := cbR, readIndex := (t : Int) },
    ?_, t2, by rw [c2, hwf.preL_length], by rw [d2, hwf.preR_length], ?_, hwL, ?_, hwR⟩
  · unfold preDelay
    simp only [Option.bind_eq_bind, t1, Option.some_bind, a1, b1,
      floatToInt_intCast (K := K) (t : Int) (by omega) (by omega), CrossFadeBuffer.fade, c1, d1,
      Option.pure_def]
  · show cbL.getSize = MAX_PREDELAY_SIZE
    rw [a2, hsL]
  · show cbR.getSize = MAX_PREDELAY_SIZE
    rw [b2, hsR]

end PreDelayLemmas

/-! ## The reverb: one call of `processAudio` -/

section OneCall

variable {K : Type} [LinearOrderedField K] [FloorRing K]

theorem processAudio_eq (expf sqrtf : K → K) (table : List Nat) (st : SilkyVerbPatch K)
    (inp : BlockInput K) (node1 node2 node3 : Fin 8 → Node K)
    (pre : K × List K × List K × CrossFadeBuffer K × CrossFadeBuffer K)
    (tb : Int × Option Nat) (mixL mixR : List K × K × K)
    (h1 : configureNodes expf table st.node inp = some node1)
    (h2 : preDelay st (st.dc.left.processBlock inp.left_input).1
      (st.dc.right.processBlock inp.right_input).1 inp.tempoTime = some pre)
    (h3 : tempoButton st.tempocounter inp.left_input.length pre.1 = some tb)
    (h4 : allNodes (fun k => forLoop
      (feedStep k pre.2.1 pre.2.2.1 (fun j => (node1 j).result)) inp.left_input.length (node1 k))
        = some node2)
    (h5 : forLoop (mixStep (dryCoef inp) (wetCoef0 expf inp) (wetCoef1 expf inp)
        (st.dc.left.processBlock inp.left_input).1 (node1 0).result (node1 2).result
        (node1 4).result (node1 6).result) inp.left_input.length ([], st.left_reverb_state, 0)
        = some mixL)
    (h6 : forLoop (mixStep (dryCoef inp) (wetCoef0 expf inp) (wetCoef1 expf inp)
        (st.dc.right.processBlock inp.right_input).1 (node1 1).result (node1 3).result
        (node1 5).result (node1 7).result) inp.left_input.length ([], st.right_reverb_state, 0)
        = some mixR)
    (h7 : allNodes (fun k => (node2 k).process) = some node3) :
    processAudio expf sqrtf table st inp = some {
      left := mixL.1
      right := mixR.1
      parameterF := sqrtf (mixL.2.2 / (inp.left_input.length : K))
      parameterG := sqrtf (mixR.2.2 / (inp.left_input.length : K))
      pushbutton := tb.2
      state := {
        tempocounter := tb.1
        dc := { left := (st.dc.left.processBlock inp.left_input).2,
                right := (st.dc.right.processBlock inp.right_input).2 }
        delayBufferL := pre.2.2.2.1
        delayBufferR := pre.2.2.2.2
        preL := pre.2.1
        preR := pre.2.2.1
        fPreDelaySamples := pre.1
        dry_coef := dryCoef inp
        wet_coef0 := wetCoef0 expf inp
        wet_coef1 := wetCoef1 expf inp
        left_reverb_state := mixL.2.1
        right_reverb_state := mixR.2.1
        node := node3 } } := by
  unfold processAudio
  simp only [Option.bind_eq_bind, h1, Option.some_bind, h2, h3, h4, h5, h6, h7, Option.pure_def]

theorem processAudio_spec (expf sqrtf : K → K) (st : SilkyVerbPatch K) (inp : BlockInput K)
    (L : Nat) (hwf : st.WellFormed L) (hin : inp.InRange L) (hL : L ≤ 127) :
    ∃ (p0 : Nat) (p : Fin 8 → Nat) (out : BlockOutput K),
      processAudio expf sqrtf primeNumberTable st inp = some out ∧
      FindNearestPrime primeNumberTable (Int.floor inp.size).toNat = some p0 ∧ p0.Prime ∧
      (∀ k : Fin 8,
        FindNearestPrime primeNumberTable (Int.floor (fDelaySamplesAt inp.size k)).toNat
          = some (p k) ∧ (p k).Prime ∧ 127 ≤ p k ∧ p k ≤ p0) ∧
      (∀ k : Fin 8,
        (out.state.node k).a1 = (p k : K) * (cutoffCoef expf inp / (p0 : K)) ∧
        (out.state.node k).b0 = ONE_OVER_SQRT8 K * expf (betaOf inp * (p k : K))
          * ((p k : K) * (cutoffCoef expf inp / (p0 : K)) - 1) ∧
        (out.state.node k).delay_samples = p k - L) ∧
      out.state.dry_coef = dryCoef inp ∧ out.state.wet_coef0 = wetCoef0 expf inp ∧
      out.state.wet_coef1 = wetCoef1 expf inp ∧
      out.left.length = L ∧ out.right.length = L ∧
      (∀ i : Nat, i < L → out.left[i]? = some (
        dryCoef inp * (st.dc.left.processBlock inp.left_input).1.getD i 0
        + wetCoef0 expf inp * tapAt (st.node 0).result (st.node 2).result (st.node 4).result
            (st.node 6).result i
        + wetCoef1 expf inp * (if i = 0 then st.left_reverb_state else
            tapAt (st.node 0).result (st.node 2).result (st.node 4).result
              (st.node 6).result (i - 1)))) ∧
      (∀ i : Nat, i < L → out.right[i]? = some (
        dryCoef inp * (st.dc.right.processBlock inp.right_input).1.getD i 0
        + wetCoef0 expf inp * tapAt (st.node 1).result (st.node 3).result (st.node 5).result
            (st.node 7).result i
        + wetCoef1 expf inp * (if i = 0 then st.right_reverb_state else
            tapAt (st.node 1).result (st.node 3).result (st.node 5).result
              (st.node 7).result (i - 1)))) ∧
      out.state.left_reverb_state = (if L = 0 then st.left_reverb_state else
        tapAt (st.node 0).result (st.node 2).result (st.node 4).result (st.node 6).result
          (L - 1)) ∧
      out.state.right_reverb_state = (if L = 0 then st.right_reverb_state else
        tapAt (st.node 1).result (st.node 3).result (st.node 5).result (st.node 7).result
          (L - 1)) ∧
      out.state.WellFormed L := by
  have hlenL := hin.left_length
  have hlenR := hin.right_length
  have hdl : (st.dc.left.processBlock inp.left_input).1.length = L := by
    rw [DcFilter.processBlock_length, hlenL]
  have hdr : (st.dc.right.processBlock inp.right_input).1.length = L := by
    rw [DcFilter.processBlock_length, hlenR]
  obtain ⟨p0, p, c1, c2, c3, c4⟩ := configureNodes_spec expf primeNumberTable
    primeNumberTable_isPrimeTable st.node inp hin.size_min hin.size_max
    (fun k => by rw [hwf.result_length k]; exact hL)
  obtain ⟨t, preL, preR, bL, bR, d1, d2, d3, d4, d5, d6, d7, d8⟩ := preDelay_spec st L hwf
    (st.dc.left.processBlock inp.left_input).1 (st.dc.right.processBlock inp.right_input).1
    hdl hdr (by omega) inp.tempoTime
  obtain ⟨tb, e1⟩ := tempoButton_spec (K := K) st.tempocounter inp.left_input.length t d2
  have hfeed : ∀ k : Fin 8, ∃ cb : CircularBuffer K,
      forLoop (feedStep k preL preR (fun j => (st.node j).result)) inp.left_input.length
        ({ st.node k with
            delay_samples := p k - (st.node k).result.length
            a1 := (p k : K) * (cutoffCoef expf inp / (p0 : K))
            b0 := ONE_OVER_SQRT8 K * expf (betaOf inp * (p k : K))
              * ((p k : K) * (cutoffCoef expf inp / (p0 : K)) - 1) } : Node K)
        = some { st.node k with
            delay_samples := p k - (st.node k).result.length
            a1 := (p k : K) * (cutoffCoef expf inp / (p0 : K))
            b0 := ONE_OVER_SQRT8 K * expf (betaOf inp * (p k : K))
              * ((p k : K) * (cutoffCoef expf inp / (p0 : K)) - 1)
            buffer := { (st.node k).buffer with toCircularBuffer := cb } } ∧
      cb.getSize = BUFFER_LIMIT ∧ cb.writeIndex < BUFFER_LIMIT := by
    intro k
    exact feedLoop_spec k preL preR (fun j => (st.node j).result) inp.left_input.length
      (by rw [d3, hlenL]) (by rw [d4, hlenL]) (fun j => by rw [hwf.result_length j, hlenL])
      ({ st.node k with
            delay_samples := p k - (st.node k).result.length
            a1 := (p k : K) * (cutoffCoef expf inp / (p0 : K))
            b0 := ONE_OVER_SQRT8 K * expf (betaOf inp * (p k : K))
              * ((p k : K) * (cutoffCoef expf inp / (p0 : K)) - 1) } : Node K)
      BUFFER_LIMIT (hwf.node_size k) (by unfold BUFFER_LIMIT; omega) (hwf.node_index k)
      inp.left_input.length (le_refl _)
  choose cbs hcbs using hfeed
  obtain ⟨outL, rmsL, f1, f2, f3⟩ := mixLoop_spec (dryCoef inp) (wetCoef0 expf inp)
    (wetCoef1 expf inp) (st.dc.left.processBlock inp.left_input).1 (st.node 0).result
    (st.node 2).result (st.node 4).result (st.node 6).result st.left_reverb_state L hdl
    (hwf.result_length 0) (hwf.result_length 2) (hwf.result_length 4) (hwf.result_length 6)
    L (le_refl _)
  obtain ⟨outR, rmsR, g1, g2, g3⟩ := mixLoop_spec (dryCoef inp) (wetCoef0 expf inp)
    (wetCoef1 expf inp) (st.dc.right.processBlock inp.right_input).1 (st.node 1).result
    (st.node 3).result (st.node 5).result (st.node 7).result st.right_reverb_state L hdr
    (hwf.result_length 1) (hwf.result_length 3) (hwf.result_length 5) (hwf.result_length 7)
    L (le_refl _)
  have hproc : ∀ k : Fin 8, ∃ (res : List K) (y : K),
      Node.process ({ st.node k with
            delay_samples := p k - (st.node k).result.length
            a1 := (p k : K) * (cutoffCoef expf inp / (p0 : K))
            b0 := ONE_OVER_SQRT8 K * expf (betaOf inp * (p k : K))
              * ((p k : K) * (cutoffCoef expf inp / (p0 : K)) - 1)
            buffer := { (st.node k).buffer with toCircularBuffer := cbs k } } : Node K)
        = some { st.node k with
            delay_samples := p k - (st.node k).result.length
            a1 := (p k : K) * (cutoffCoef expf inp / (p0 : K))
            b0 := ONE_OVER_SQRT8 K * expf (betaOf inp * (p k : K))
              * ((p k : K) * (cutoffCoef expf inp / (p0 : K)) - 1)
            result := res
            y1 := y
            buffer := { toCircularBuffer := cbs k,
                        readIndex := toInt32 (p k - (st.node k).result.length : Nat) } } ∧
      res.length = (st.node k).result.length := by
    intro k
    exact Node.process_spec ({ st.node k with
            delay_samples := p k - (st.node k).result.length
            a1 := (p k : K) * (cutoffCoef expf inp / (p0 : K))
            b0 := ONE_OVER_SQRT8 K * expf (betaOf inp * (p k : K))
              * ((p k : K) * (cutoffCoef expf inp / (p0 : K)) - 1)
            buffer := { (st.node k).buffer with toCircularBuffer := cbs k } } : Node K) (by
      show 0 < (cbs k).getSize
      rw [(hcbs k).2.1]; unfold BUFFER_LIMIT; omega)
  choose res y hres using hproc
  have hmain := processAudio_eq expf sqrtf primeNumberTable st inp _ _ _ _ tb
    (outL, (if L = 0 then st.left_reverb_state else
        tapAt (st.node 0).result (st.node 2).result (st.node 4).result (st.node 6).result
          (L - 1)), rmsL)
    (outR, (if L = 0 then st.right_reverb_state else
        tapAt (st.node 1).result (st.node 3).result (st.node 5).result (st.node 7).result
          (L - 1)), rmsR)
    c4 d1 e1
    (allNodes_some _ _ (fun k => (hcbs k).1))
    (by rw [hlenL]; exact f1) (by rw [hlenL]; exact g1)
    (allNodes_some _ _ (fun k => (hres k).1))
  refine ⟨p0, p, _, hmain, c1, c2, c3, ?_, rfl, rfl, rfl, f2, g2, f3, g3, rfl, rfl, ?_⟩
  · intro k
    refine ⟨rfl, rfl, ?_⟩
    show p k - (st.node k).result.length = p k - L
    rw [hwf.result_length k]
  · exact {
      preL_length := d3
      preR_length := d4
      delayL_size := d5
      delayR_size := d7
      delayL_index := d6
      delayR_index := d8
      result_length := fun k => by
        show (res k).length = L
        rw [(hres k).2, hwf.result_length k]
      node_size := fun k => (hcbs k).2.1
      node_index := fun k => (hcbs k).2.2 }

theorem processAudio_returns (expf sqrtf : K → K) (st : SilkyVerbPatch K) (inp : BlockInput K)
    (L : Nat) (hwf : st.WellFormed L) (hin : inp.InRange L) (hL : L ≤ 127) :
    ∃ out, processAudio expf sqrtf primeNumberTable st inp = some out := by
  obtain ⟨_, _, out, h, _⟩ := processAudio_spec expf sqrtf st inp L hwf hin hL
  exact ⟨out, h⟩

/-- What `processAudio` leaves in the audio buffer and in the reverb states whenever it
returns, for any prime table and any state. -/
theorem processAudio_of_some (expf sqrtf : K → K) (table : List Nat) (st : SilkyVerbPatch K)
    (inp : BlockInput K) (out : BlockOutput K)
    (h : processAudio expf sqrtf table st inp = some out) :
    out.state.dry_coef = dryCoef inp ∧ out.state.wet_coef0 = wetCoef0 expf inp ∧
    out.state.wet_coef1 = wetCoef1 expf inp ∧
    out.left.length = inp.left_input.length ∧ out.right.length = inp.left_input.length ∧
    (∀ i : Nat, i < inp.left_input.length → out.left[i]? = some (
      dryCoef inp * (st.dc.left.processBlock inp.left_input).1.getD i 0
      + wetCoef0 expf inp * tapAt (st.node 0).result (st.node 2).result (st.node 4).result
          (st.node 6).result i
      + wetCoef1 expf inp * (if i = 0 then st.left_reverb_state else
          tapAt (st.node 0).result (st.node 2).result (st.node 4).result
            (st.node 6).result (i - 1)))) ∧
    (∀ i : Nat, i < inp.left_input.length → out.right[i]? = some (
      dryCoef inp * (st.dc.right.processBlock inp.right_input).1.getD i 0
      + wetCoef0 expf inp * tapAt (st.node 1).result (st.node 3).result (st.node 5).result
          (st.node 7).result i
      + wetCoef1 expf inp * (if i = 0 then st.right_reverb_state else
          tapAt (st.node 1).result (st.node 3).result (st.node 5).result
            (st.node 7).result (i - 1)))) ∧
    out.state.left_reverb_state = (if inp.left_input.length = 0 then st.left_reverb_state else
      tapAt (st.node 0).result (st.node 2).result (st.node 4).result (st.node 6).result
        (inp.left_input.length - 1)) ∧
    out.state.right_reverb_state = (if inp.left_input.length = 0 then st.right_reverb_state else
      tapAt (st.node 1).result (st.node 3).result (st.node 5).result (st.node 7).result
        (inp.left_input.length - 1)) := by
  unfold processAudio at h
  simp only [Option.bind_eq_bind, Option.bind_eq_some, Option.pure_def, Option.some.injEq] at h
  obtain ⟨node1, h1, pre, _, tb, _, node2, _, mixL, h5, mixR, h6, node3, _, hout⟩ := h
  have hr := configureNodes_result expf table st.node node1 inp h1
  rw [hr 0, hr 2, hr 4, hr 6] at h5
  rw [hr 1, hr 3, hr 5, hr 7] at h6
  obtain ⟨a1, a2, a3⟩ := mixLoop_of_some _ _ _ _ _ _ _ _ _ _ _ h5
  obtain ⟨b1, b2, b3⟩ := mixLoop_of_some _ _ _ _ _ _ _ _ _ _ _ h6
  rw [← hout]
  exact ⟨rfl, rfl, rfl, a1, b1, a3, b3, a2, b2⟩

end OneCall

/-! ## The reverb: the dry path -/

section DryPath

variable {K : Type} [LinearOrderedField K] [FloorRing K]

theorem processAudio_wet_zero (expf sqrtf : K → K) (st : SilkyVerbPatch K) (inp : BlockInput K)
    (L : Nat) (hwf : st.WellFormed L) (hin : inp.InRange L) (hL : L ≤ 127)
    (hwet : inp.wet = 0) :
    ∃ out, processAudio expf sqrtf primeNumberTable st inp = some out ∧
      out.left = (st.dc.left.processBlock inp.left_input).1 ∧
      out.right = (st.dc.right.processBlock inp.right_input).1 := by
  obtain ⟨p0, p, out, h1, _, _, _, _, _, _, _, h9, h10, h11, h12, _⟩ :=
    processAudio_spec expf sqrtf st inp L hwf hin hL
  have hdry : dryCoef inp = 1 := by unfold dryCoef; rw [hwet]; ring
  have hw0 : wetCoef0 expf inp = 0 := by unfold wetCoef0; rw [hwet]; simp
  have hw1 : wetCoef1 expf inp = 0 := by unfold wetCoef1; rw [hwet]; simp
  have hdl : (st.dc.left.processBlock inp.left_input).1.length = L := by
    rw [DcFilter.processBlock_length, hin.left_length]
  have hdr : (st.dc.right.processBlock inp.right_input).1.length = L := by
    rw [DcFilter.processBlock_length, hin.right_length]
  refine ⟨out, h1, ?_, ?_⟩
  · apply List.ext_getElem?
    intro i
    by_cases hi : i < L
    · rw [h11 i hi, hdry, hw0, hw1, List.getD_eq_getElem?_getD,
        List.getElem?_eq_getElem (by rw [hdl]; exact hi)]
      simp
    · rw [List.getElem?_eq_none (by omega), List.getElem?_eq_none (by omega)]
  · apply List.ext_getElem?
    intro i
    by_cases hi : i < L
    · rw [h12 i hi, hdry, hw0, hw1, List.getD_eq_getElem?_getD,
        List.getElem?_eq_getElem (by rw [hdr]; exact hi)]
      simp
    · rw [List.getElem?_eq_none (by omega), List.getElem?_eq_none (by omega)]

theorem processAudio_wet_zero_of_some (expf sqrtf : K → K) (table : List Nat)
    (st : SilkyVerbPatch K) (inp : BlockInput K)
    (hlen : inp.right_input.length = inp.left_input.length) (hwet : inp.wet = 0)
    (out : BlockOutput K) (h : processAudio expf sqrtf table st inp = some out) :
    out.left = (st.dc.left.processBlock inp.left_input).1 ∧
    out.right = (st.dc.right.processBlock inp.right_input).1 := by
  obtain ⟨_, _, _, h4, h5, h6, h7, _⟩ := processAudio_of_some expf sqrtf table st inp out h
  have hdry : dryCoef inp = 1 := by unfold dryCoef; rw [hwet]; ring
  have hw0 : wetCoef0 expf inp = 0 := by unfold wetCoef0; rw [hwet]; simp
  have hw1 : wetCoef1 expf inp = 0 := by unfold wetCoef1; rw [hwet]; simp
  have hdl : (st.dc.left.processBlock inp.left_input).1.length = inp.left_input.length :=
    DcFilter.processBlock_length _ _
  have hdr : (st.dc.right.processBlock inp.right_input).1.length = inp.left_input.length := by
    rw [DcFilter.processBlock_length, hlen]
  constructor
  · apply List.ext_getElem?
    intro i
    by_cases hi : i < inp.left_input.length
    · rw [h6 i hi, hdry, hw0, hw1, List.getD_eq_getElem?_getD,
        List.getElem?_eq_getElem (by rw [hdl]; exact hi)]
      simp
    · rw [List.getElem?_eq_none (by omega), List.getElem?_eq_none (by omega)]
  · apply List.ext_getElem?
    intro i
    by_cases hi : i < inp.left_input.length
    · rw [h7 i hi, hdry, hw0, hw1, List.getD_eq_getElem?_getD,
        List.getElem?_eq_getElem (by rw [hdr]; exact hi)]
      simp
    · rw [List.getElem?_eq_none (by omega), List.getElem?_eq_none (by omega)]

end DryPath

theorem dcFilter_ones :
    ((DcFilter.init : DcFilter ℝ).processBlock [1, 1]).1 = [1, 199 / 200] := by
  simp [DcFilter.processBlock, DcFilter.blockLoop, DcFilter.init]
  norm_num

theorem example_inRange (wet : ℝ) :
    ({ left_input := [1, 1], right_input := [1, 1], size := 192, time := 1, cutoff := 1 / 5,
       wet := wet, sampleRate := 48000, tempoTime := 0 } : BlockInput ℝ).InRange 2 where
  left_length := rfl
  right_length := rfl
  size_min := by simp [MIN_ROOM_SIZE]
  size_max := by simp [MAX_ROOM_SIZE]; norm_num

section DryPathTaps

variable {K : Type} [LinearOrderedField K]

theorem FLT_MAX_pos : 0 < FLT_MAX K := by
  unfold FLT_MAX
  have : (0 : K) < 2 - 1 / 2 ^ 23 := by norm_num
  positivity

theorem FloatValue.ofExact_of_le {x : K} (h : |x| ≤ FLT_MAX K) :
    FloatValue.ofExact x = FloatValue.finite x := by
  unfold FloatValue.ofExact
  rw [if_pos h]

theorem getD_abs_le (l : List K) (B : K) (hB : 0 ≤ B) (h : ∀ x ∈ l, |x| ≤ B) (i : Nat) :
    |l.getD i 0| ≤ B := by
  rw [List.getD_eq_getElem?_getD]
  by_cases hi : i < l.length
  · rw [List.getElem?_eq_getElem hi]
    exact h _ (List.getElem_mem hi)
  · rw [List.getElem?_eq_none (by omega)]
    simpa using hB

/-- The sum of four node results of magnitude at most `FLT_MAX / 4` is at most `FLT_MAX` in
magnitude. -/
theorem tapAt_abs_le (xa xb xc xd : List K) (ha : ∀ x ∈ xa, |x| ≤ FLT_MAX K / 4)
    (hb : ∀ x ∈ xb, |x| ≤ FLT_MAX K / 4) (hc : ∀ x ∈ xc, |x| ≤ FLT_MAX K / 4)
    (hd : ∀ x ∈ xd, |x| ≤ FLT_MAX K / 4) (i : Nat) :
    |tapAt xa xb xc xd i| ≤ FLT_MAX K := by
  have hB : (0 : K) ≤ FLT_MAX K / 4 := by
    have := FLT_MAX_pos (K := K)
    positivity
  have h1 := getD_abs_le xa _ hB ha i
  have h2 := getD_abs_le xb _ hB hb i
  have h3 := getD_abs_le xc _ hB hc i
  have h4 := getD_abs_le xd _ hB hd i
  unfold tapAt
  rw [abs_le] at h1 h2 h3 h4 ⊢
  constructor <;> linarith [h1.1, h1.2, h2.1, h2.2, h3.1, h3.2, h4.1, h4.2]

/-- The sample stored by a pass of an output loop with `dry_coef = 1` and
`wet_coef0 = wet_coef1 = 0` is the input sample, when the four node results have magnitude at
most `FLT_MAX / 4` and the input sample and the reverb state are finite. -/
theorem mixSample_dry (v a b c d s : K) (hv : |v| ≤ FLT_MAX K) (ha : |a| ≤ FLT_MAX K / 4)
    (hb : |b| ≤ FLT_MAX K / 4) (hc : |c| ≤ FLT_MAX K / 4) (hd : |d| ≤ FLT_MAX K / 4) :
    mixSample (FloatValue.finite 1) (FloatValue.finite 0) (FloatValue.finite 0)
      (FloatValue.finite v) (FloatValue.finite a) (FloatValue.finite b) (FloatValue.finite c)
      (FloatValue.finite d) (FloatValue.finite s) = FloatValue.finite v := by
  have hM := FLT_MAX_pos (K := K)
  rw [abs_le] at ha hb hc hd
  have hab : |a + b| ≤ FLT_MAX K := by
    rw [abs_le]
    constructor <;> linarith [ha.1, ha.2, hb.1, hb.2]
  have habc : |a + b + c| ≤ FLT_MAX K := by
    rw [abs_le]
    constructor <;> linarith [ha.1, ha.2, hb.1, hb.2, hc.1, hc.2]
  have habcd : |a + b + c + d| ≤ FLT_MAX K := by
    rw [abs_le]
    constructor <;> linarith [ha.1, ha.2, hb.1, hb.2, hc.1, hc.2, hd.1, hd.2]
  have h0 : |(0 : K)| ≤ FLT_MAX K := by rw [abs_zero]; exact hM.le
  unfold mixSample
  simp only [FloatValue.mul, FloatValue.add, one_mul, zero_mul, add_zero,
    FloatValue.ofExact_of_le hv, FloatValue.ofExact_of_le hab, FloatValue.ofExact_of_le habc,
    FloatValue.ofExact_of_le habcd, FloatValue.ofExact_of_le h0]

theorem FloatValue.add_notFinite_left (y : FloatValue K) :
    FloatValue.add FloatValue.notFinite y = FloatValue.notFinite := by
  cases y <;> rfl

theorem FloatValue.add_notFinite_right (x : FloatValue K) :
    FloatValue.add x FloatValue.notFinite = FloatValue.notFinite := by
  cases x <;> rfl

theorem FloatValue.mul_notFinite_right (x : FloatValue K) :
    FloatValue.mul x FloatValue.notFinite = FloatValue.notFinite := by
  cases x <;> rfl

/-- The sample stored by a pass of an output loop with `dry_coef = 1` and
`wet_coef0 = wet_coef1 = 0` is not finite when the node results are `3e38`: their sum
overflows, and the product of zero and an infinity is a NaN. -/
theorem mixSample_overflow (v s : K) :
    mixSample (FloatValue.finite 1) (FloatValue.finite 0) (FloatValue.finite 0)
      (FloatValue.finite v) (FloatValue.finite (3 * 10 ^ 38)) (FloatValue.finite (3 * 10 ^ 38))
      (FloatValue.finite (3 * 10 ^ 38)) (FloatValue.finite (3 * 10 ^ 38))
      (FloatValue.finite s) = FloatValue.notFinite := by
  have h : ¬ |(3 * 10 ^ 38 + 3 * 10 ^ 38 : K)| ≤ FLT_MAX K := by
    rw [abs_of_pos (by positivity)]
    unfold FLT_MAX
    norm_num
  have h1 : FloatValue.add (FloatValue.finite (3 * 10 ^ 38 : K))
      (FloatValue.finite (3 * 10 ^ 38)) = FloatValue.notFinite := by
    show FloatValue.ofExact _ = _
    unfold FloatValue.ofExact
    rw [if_neg h]
  unfold mixSample
  simp only [h1, FloatValue.add_notFinite_left, FloatValue.mul_notFinite_right,
    FloatValue.add_notFinite_right]

end DryPathTaps

section DryPathClaim

variable {K : Type} [LinearOrderedField K] [FloorRing K]

/-- Claim C6, amended: with the Dry/Wet control equal to 0, for every room size, reverb time
and cutoff, for every input block and every internal state in which the node results have
magnitude at most `FLT_MAX / 4` and the stored reverb states at most `FLT_MAX`, whenever
`processAudio` returns, the stereo block it leaves in the audio buffer is the block it was
given after the DC filter `dc.process(buffer)`, sample for sample (dry path only). The
coefficients are `dry_coef = 1` and `wet_coef0 = wet_coef1 = 0`; the taps that the code
multiplies by these zeros have magnitude at most `FLT_MAX`, so do the reverb states in the
state it leaves, and on `float` values that may not be finite a pass of the output loop then
stores the finite input sample `v` it was given (a `float` product `0 * x` is zero only for a
finite `x`). It does return from every state of the shape set up by the constructor when the
room size is in range and the block has at most 127 samples. -/
theorem processAudio_dry_only (expf sqrtf : K → K) (st : SilkyVerbPatch K) (inp : BlockInput K)
    (hlen : inp.right_input.length = inp.left_input.length) (hwet : inp.wet = 0)
    (hres : ∀ (k : Fin 8) (x : K), x ∈ (st.node k).result → |x| ≤ FLT_MAX K / 4)
    (hstL : |st.left_reverb_state| ≤ FLT_MAX K)
    (hstR : |st.right_reverb_state| ≤ FLT_MAX K) :
    (∀ (table : List Nat) (out : BlockOutput K),
      processAudio expf sqrtf table st inp = some out →
        out.left = (st.dc.left.processBlock inp.left_input).1 ∧
        out.right = (st.dc.right.processBlock inp.right_input).1 ∧
        out.state.dry_coef = 1 ∧ out.state.wet_coef0 = 0 ∧ out.state.wet_coef1 = 0 ∧
        (∀ i : Nat, |tapAt (st.node 0).result (st.node 2).result (st.node 4).result
          (st.node 6).result i| ≤ FLT_MAX K) ∧
        (∀ i : Nat, |tapAt (st.node 1).result (st.node 3).result (st.node 5).result
          (st.node 7).result i| ≤ FLT_MAX K) ∧
        |out.state.left_reverb_state| ≤ FLT_MAX K ∧
        |out.state.right_reverb_state| ≤ FLT_MAX K ∧
        (∀ (i : Nat) (v s : K), |v| ≤ FLT_MAX K →
          mixSample (FloatValue.finite out.state.dry_coef)
            (FloatValue.finite out.state.wet_coef0) (FloatValue.finite out.state.wet_coef1)
            (FloatValue.finite v) (FloatValue.finite ((st.node 0).result.getD i 0))
            (FloatValue.finite ((st.node 2).result.getD i 0))
            (FloatValue.finite ((st.node 4).result.getD i 0))
            (FloatValue.finite ((st.node 6).result.getD i 0)) (FloatValue.finite s)
            = FloatValue.finite v ∧
          mixSample (FloatValue.finite out.state.dry_coef)
            (FloatValue.finite out.state.wet_coef0) (FloatValue.finite out.state.wet_coef1)
            (FloatValue.finite v) (FloatValue.finite ((st.node 1).result.getD i 0))
            (FloatValue.finite ((st.node 3).result.getD i 0))
            (FloatValue.finite ((st.node 5).result.getD i 0))
            (FloatValue.finite ((st.node 7).result.getD i 0)) (FloatValue.finite s)
            = FloatValue.finite v)) ∧
    (∀ L : Nat, st.WellFormed L → inp.InRange L → L ≤ 127 →
      ∃ out, processAudio expf sqrtf primeNumberTable st inp = some out) := by
  have hB : (0 : K) ≤ FLT_MAX K / 4 := by
    have := FLT_MAX_pos (K := K)
    positivity
  have htL := tapAt_abs_le (st.node 0).result (st.node 2).result (st.node 4).result
    (st.node 6).result (hres 0) (hres 2) (hres 4) (hres 6)
  have htR := tapAt_abs_le (st.node 1).result (st.node 3).result (st.node 5).result
    (st.node 7).result (hres 1) (hres 3) (hres 5) (hres 7)
  refine ⟨?_, fun L hwf hin hL => processAudio_returns expf sqrtf st inp L hwf hin hL⟩
  intro table out h
  obtain ⟨g1, g2⟩ := processAudio_wet_zero_of_some expf sqrtf table st inp hlen hwet out h
  obtain ⟨h1, h2, h3, _, _, _, _, h8, h9⟩ := processAudio_of_some expf sqrtf table st inp out h
  have hdry : dryCoef inp = 1 := by unfold dryCoef; rw [hwet]; ring
  have hw0 : wetCoef0 expf inp = 0 := by unfold wetCoef0; rw [hwet]; simp
  have hw1 : wetCoef1 expf inp = 0 := by unfold wetCoef1; rw [hwet]; simp
  have e1 : out.state.dry_coef = 1 := by rw [h1, hdry]
  have e2 : out.state.wet_coef0 = 0 := by rw [h2, hw0]
  have e3 : out.state.wet_coef1 = 0 := by rw [h3, hw1]
  refine ⟨g1, g2, e1, e2, e3, htL, htR, ?_, ?_, ?_⟩
  · rw [h8]
    split_ifs
    · exact hstL
    · exact htL _
  · rw [h9]
    split_ifs
    · exact hstR
    · exact htR _
  · intro i v s hv
    rw [e1, e2, e3]
    exact ⟨mixSample_dry v _ _ _ _ s hv (getD_abs_le _ _ hB (hres 0) i)
        (getD_abs_le _ _ hB (hres 2) i) (getD_abs_le _ _ hB (hres 4) i)
        (getD_abs_le _ _ hB (hres 6) i),
      mixSample_dry v _ _ _ _ s hv (getD_abs_le _ _ hB (hres 1) i)
        (getD_abs_le _ _ hB (hres 3) i) (getD_abs_le _ _ hB (hres 5) i)
        (getD_abs_le _ _ hB (hres 7) i)⟩

end DryPathClaim

/-- A state of the patch for the block size 2 in which every node result is `[3, 5]` and the
stored reverb states are 7 and -2. -/
theorem example_state_wellFormed :
    ({ (SilkyVerbPatch.init 2 : SilkyVerbPatch ℝ) with
        left_reverb_state := 7
        right_reverb_state := -2
        node := fun _ => { (Node.init 2 : Node ℝ) with result := [3, 5] } }
      : SilkyVerbPatch ℝ).WellFormed 2 where
  preL_length := List.length_replicate _ _
  preR_length := List.length_replicate _ _
  delayL_size := List.length_replicate _ _
  delayR_size := List.length_replicate _ _
  delayL_index := by show 0 < MAX_PREDELAY_SIZE; unfold MAX_PREDELAY_SIZE; omega
  delayR_index := by show 0 < MAX_PREDELAY_SIZE; unfold MAX_PREDELAY_SIZE; omega
  result_length := fun _ => rfl
  node_size := fun _ => List.length_replicate _ _
  node_index := fun _ => by show 0 < BUFFER_LIMIT; unfold BUFFER_LIMIT; omega

theorem processAudio_dry_only_witness :
    ∃ out, processAudio Real.exp Real.sqrt primeNumberTable
        ({ (SilkyVerbPatch.init 2 : SilkyVerbPatch ℝ) with
            left_reverb_state := 7
            right_reverb_state := -2
            node := fun _ => { (Node.init 2 : Node ℝ) with result := [3, 5] } }
          : SilkyVerbPatch ℝ)
        ({ left_input := [1, 1], right_input := [1, 1], size := 192, time := 1, cutoff := 1 / 5,
           wet := 0, sampleRate := 48000, tempoTime := 0 } : BlockInput ℝ) = some out ∧
      out.left = [1, 199 / 200] ∧ out.right = [1, 199 / 200] ∧
      tapAt ([3, 5] : List ℝ) [3, 5] [3, 5] [3, 5] 0 = 12 ∧
      |out.state.left_reverb_state| ≤ FLT_MAX ℝ ∧
      mixSample (FloatValue.finite out.state.dry_coef) (FloatValue.finite out.state.wet_coef0)
        (FloatValue.finite out.state.wet_coef1) (FloatValue.finite (199 / 200))
        (FloatValue.finite 5) (FloatValue.finite 5) (FloatValue.finite 5) (FloatValue.finite 5)
        (FloatValue.finite 12) = FloatValue.finite (199 / 200 : ℝ) := by
  have hF : (12 : ℝ) ≤ FLT_MAX ℝ / 4 := by
    unfold FLT_MAX
    norm_num
  have h := processAudio_dry_only Real.exp Real.sqrt
    ({ (SilkyVerbPatch.init 2 : SilkyVerbPatch ℝ) with
        left_reverb_state := 7
        right_reverb_state := -2
        node := fun _ => { (Node.init 2 : Node ℝ) with result := [3, 5] } }
      : SilkyVerbPatch ℝ)
    ({ left_input := [1, 1], right_input := [1, 1], size := 192, time := 1, cutoff := 1 / 5,
       wet := 0, sampleRate := 48000, tempoTime := 0 } : BlockInput ℝ) rfl rfl
    (by
      intro k x hx
      have hx2 : x ∈ ([3, 5] : List ℝ) := hx
      simp only [List.mem_cons, List.mem_singleton, List.not_mem_nil, or_false] at hx2
      rcases hx2 with rfl | rfl
      · rw [abs_of_pos (by norm_num)]; linarith
      · rw [abs_of_pos (by norm_num)]; linarith)
    (by
      show |(7 : ℝ)| ≤ FLT_MAX ℝ
      rw [abs_of_pos (by norm_num)]
      linarith)
    (by
      show |(-2 : ℝ)| ≤ FLT_MAX ℝ
      rw [abs_of_neg (by norm_num)]
      linarith)
  obtain ⟨out, hout⟩ := h.2 2 example_state_wellFormed (example_inRange 0) (by decide)
  obtain ⟨g1, g2, _, _, _, _, _, g8, _, g10⟩ := h.1 primeNumberTable out hout
  refine ⟨out, hout, ?_, ?_, ?_, g8, ?_⟩
  · rw [g1]
    exact dcFilter_ones
  · rw [g2]
    exact dcFilter_ones
  · simp [tapAt]
    norm_num
  · exact (g10 1 (199 / 200) 12 (by rw [abs_of_pos (by norm_num)]; linarith)).1

/-- Counterexample to claim C6: from the state set up by the constructor, for a block of two
samples equal to 1 on each channel and the Dry/Wet control at 0, `processAudio` leaves
`[1, 0.995]` in the left channel, not the block `[1, 1]` it was given. -/
theorem processAudio_dry_not_input :
    ∃ out, processAudio Real.exp Real.sqrt primeNumberTable (SilkyVerbPatch.init 2)
        ({ left_input := [1, 1], right_input := [1, 1], size := 192, time := 1, cutoff := 1 / 5,
           wet := 0, sampleRate := 48000, tempoTime := 0 } : BlockInput ℝ) = some out ∧
      out.left = [1, 199 / 200] ∧ out.left ≠ [1, 1] := by
  obtain ⟨out, h1, h2, _⟩ := processAudio_wet_zero Real.exp Real.sqrt (SilkyVerbPatch.init 2)
    ({ left_input := [1, 1], right_input := [1, 1], size := 192, time := 1, cutoff := 1 / 5,
       wet := 0, sampleRate := 48000, tempoTime := 0 } : BlockInput ℝ) 2
    (init_wellFormed 2) (example_inRange 0) (by omega) rfl
  have h3 : out.left = [1, 199 / 200] := by
    rw [h2]
    exact dcFilter_ones
  refine ⟨out, h1, h3, ?_⟩
  rw [h3]
  intro h
  have : (199 / 200 : ℝ) = 1 := by simpa using h
  norm_num at this

/-! ## The reverb: the feedback coefficients of the nodes -/

/-- The constant `6.28318530717959` of the source is `2π` to fourteen decimal places. -/
theorem two_pi_literal :
    |(628318530717959 / 100000000000000 : ℝ) - 2 * Real.pi| < 1 / 100000000000000 := by
  have h1 := Real.pi_gt_d20
  have h2 := Real.pi_lt_d20
  rw [abs_lt]
  constructor <;> norm_num at h1 h2 ⊢ <;> linarith

/-- Claim C7: for every room size in `[MIN_ROOM_SIZE, MAX_ROOM_SIZE] = [192, 7552]` and every
cutoff control from `MIN_CUTOFF` on (so for every one in `[MIN_CUTOFF, MAX_CUTOFF]`), the
per-block configuration of `processAudio` gives each of the eight nodes a feedback coefficient
`a1` with `0 < a1 < 1` over the reals: `a1` of node `k` is
`(p k / p0) * exp(-6.28318530717959 * cutoff)`, where `p k` is the prime length of node `k`,
`p0` the prime length of the room size and `p k ≤ p0`. The constant is the source's value of
`2π`. The prime length of node `k` is the one found for the `float` the code holds in
`fDelaySamples`, whatever the rounding `fl` of the statements `fDelaySamples *= ALPHA;` as long
as its relative error is at most `1/4096`. The coefficients are those of every configuration
that returns, whatever the block size; the configuration returns when the node results have
at most 127 samples; without rounding it is the configuration `configureNodes` made by
`processAudio`. -/
theorem processAudio_a1_bounds (u : ℝ) (fl : Nat → ℝ → ℝ) (hu0 : 0 ≤ u) (hu : u ≤ 1 / 4096)
    (hfl : IsRounding u fl) (node : Fin 8 → Node ℝ) (inp : BlockInput ℝ)
    (hs1 : MIN_ROOM_SIZE ℝ ≤ inp.size) (hs2 : inp.size ≤ MAX_ROOM_SIZE ℝ)
    (hc1 : MIN_CUTOFF ℝ ≤ inp.cutoff) :
    ∃ (p0 : Nat) (p : Fin 8 → Nat),
      FindNearestPrime primeNumberTable (Int.floor inp.size).toNat = some p0 ∧ p0.Prime ∧
      (∀ k : Fin 8,
        FindNearestPrime primeNumberTable (Int.floor (fDelaySamplesFl fl inp.size k)).toNat
          = some (p k) ∧ (p k).Prime ∧ p k ≤ p0) ∧
      (∀ node1 : Fin 8 → Node ℝ,
        configureNodesFl fl Real.exp primeNumberTable node inp = some node1 → ∀ k : Fin 8,
          (node1 k).a1 = ((p k : ℝ) / (p0 : ℝ))
            * Real.exp (-(628318530717959 / 100000000000000) * inp.cutoff) ∧
          0 < (node1 k).a1 ∧ (node1 k).a1 < 1) ∧
      ((∀ k, (node k).result.length ≤ 127) →
        ∃ node1, configureNodesFl fl Real.exp primeNumberTable node inp = some node1) ∧
      configureNodesFl (fun _ x => x) Real.exp primeNumberTable node inp
        = configureNodes Real.exp primeNumberTable node inp := by
  obtain ⟨p0, p, a1, a2, hp, hval1, hret⟩ := configureNodesFl_spec u fl hu0 hu hfl Real.exp
    primeNumberTable primeNumberTable_isPrimeTable node inp hs1 hs2
  have hp0 : (0 : ℝ) < p0 := by
    have : 0 < p0 := a2.pos
    exact_mod_cast this
  have hexp0 : 0 < Real.exp (-(628318530717959 / 100000000000000) * inp.cutoff) :=
    Real.exp_pos _
  have hcut : 0 < inp.cutoff := by
    unfold MIN_CUTOFF at hc1
    have : (0 : ℝ) < 1134 / 10000 := by norm_num
    linarith
  have hexp1 : Real.exp (-(628318530717959 / 100000000000000) * inp.cutoff) < 1 := by
    rw [Real.exp_lt_one_iff]
    have : (0 : ℝ) < 628318530717959 / 100000000000000 := by norm_num
    nlinarith
  have hval : ∀ k : Fin 8,
      0 < ((p k : ℝ) / (p0 : ℝ))
        * Real.exp (-(628318530717959 / 100000000000000) * inp.cutoff) ∧
      ((p k : ℝ) / (p0 : ℝ))
        * Real.exp (-(628318530717959 / 100000000000000) * inp.cutoff) < 1 := by
    intro k
    have hpk : (0 : ℝ) < p k := by
      have : 0 < p k := (hp k).2.1.pos
      exact_mod_cast this
    have hle : (p k : ℝ) ≤ p0 := by exact_mod_cast (hp k).2.2.2
    have hratio0 : 0 < (p k : ℝ) / p0 := div_pos hpk hp0
    have hratio1 : (p k : ℝ) / p0 ≤ 1 := (div_le_one hp0).2 hle
    refine ⟨mul_pos hratio0 hexp0, ?_⟩
    calc (p k : ℝ) / p0 * Real.exp (-(628318530717959 / 100000000000000) * inp.cutoff)
        ≤ 1 * Real.exp (-(628318530717959 / 100000000000000) * inp.cutoff) :=
          mul_le_mul_of_nonneg_right hratio1 (le_of_lt hexp0)
      _ < 1 := by rw [one_mul]; exact hexp1
  refine ⟨p0, p, a1, a2, fun k => ⟨(hp k).1, (hp k).2.1, (hp k).2.2.2⟩, ?_, hret,
    configureNodesFl_id Real.exp primeNumberTable node inp⟩
  intro node1 h k
  have ha1 : (node1 k).a1 = ((p k : ℝ) / (p0 : ℝ))
      * Real.exp (-(628318530717959 / 100000000000000) * inp.cutoff) := by
    rw [hval1 node1 h k]
    unfold cutoffCoef
    ring
  rw [ha1]
  exact ⟨rfl, hval k⟩

theorem processAudio_a1_bounds_witness :
    ∃ (p0 : Nat) (p : Fin 8 → Nat) (node1 : Fin 8 → Node ℝ),
      FindNearestPrime primeNumberTable (Int.floor (4580 : ℝ)).toNat = some p0 ∧
      FindNearestPrime primeNumberTable
        (Int.floor (fDelaySamplesFl (fun _ => round32) (4580 : ℝ) 2)).toNat = some (p 2) ∧
      p 2 = 4079 ∧
      configureNodesFl (fun _ => round32) Real.exp primeNumberTable (fun _ => Node.init 2)
        ({ left_input := [1, 1], right_input := [1, 1], size := 4580, time := 1,
           cutoff := 1 / 5, wet := 1 / 2, sampleRate := 48000, tempoTime := 0 } : BlockInput ℝ)
        = some node1 ∧
      ∀ k : Fin 8, (node1 k).a1 = ((p k : ℝ) / (p0 : ℝ))
          * Real.exp (-(628318530717959 / 100000000000000) * (1 / 5)) ∧
        0 < (node1 k).a1 ∧ (node1 k).a1 < 1 := by
  obtain ⟨p0, p, h1, _, h3, h4, h5, _⟩ := processAudio_a1_bounds (1 / 2 ^ 24)
    (fun _ => round32) (by norm_num) (by norm_num) round32_isRounding (fun _ => Node.init 2)
    ({ left_input := [1, 1], right_input := [1, 1], size := 4580, time := 1,
       cutoff := 1 / 5, wet := 1 / 2, sampleRate := 48000, tempoTime := 0 } : BlockInput ℝ)
    (by unfold MIN_ROOM_SIZE; norm_num) (by unfold MAX_ROOM_SIZE; norm_num)
    (by unfold MIN_CUTOFF; norm_num)
  obtain ⟨node1, hn⟩ := h5 (fun k => by simp [Node.init])
  have h2 := (h3 2).1
  have hp2 : p 2 = 4079 := by
    have hv : fDelaySamplesFl (fun _ => round32) (4580 : ℝ) ((2 : Fin 8) : Nat) = 4079 :=
      (fDelaySamplesFl_4580 (K := ℝ)).1
    have hf : (Int.floor (4079 : ℝ)).toNat = 4079 := by
      have : Int.floor (4079 : ℝ) = 4079 := by
        rw [Int.floor_eq_iff]
        norm_num
      rw [this]
      rfl
    have h2b := h2
    rw [hv, hf] at h2b
    obtain ⟨q, d1, d2, d3, d4⟩ := findNearestPrime_spec primeNumberTable
      primeNumberTable_isPrimeTable 4079 (by norm_num)
      (by unfold PRIME_NUMBER_TABLE_SIZE; norm_num)
    rw [d1] at h2b
    have hq : q = p 2 := Option.some.inj h2b
    have h4079 : Nat.Prime 4079 := by norm_num
    have := d4 4079 h4079 (le_refl _)
    omega
  exact ⟨p0, p, node1, h1, h2, hp2, hn, h4 node1 hn⟩

/-! ## The reverb: the output mix -/

section OutputMix

variable {K : Type} [LinearOrderedField K] [FloorRing K]

/-- Claim C8: in `processAudio`, for each channel and every `i < L` the output sample is
`dry_coef * in[i] + wet_coef0 * tap[i] + wet_coef1 * tap[i-1]`, where `in` is the DC-filtered
input block, `tap[i]` is `x0[i] + x2[i] + x4[i] + x6[i]` for the left channel and
`x1[i] + x3[i] + x5[i] + x7[i]` for the right one (`xk` being the result of node `k` from the
previous block) and `tap[-1]` is the stored reverb state of the channel; after a block of
`L ≥ 1` samples the stored reverb state of the channel is `tap[L-1]`.  This holds whenever
`processAudio` returns, and it returns from every state of the shape set up by the constructor
when the room size is in range and the block has at most 127 samples. -/
theorem processAudio_output_mix (expf sqrtf : K → K) (st : SilkyVerbPatch K)
    (inp : BlockInput K) :
    (∀ (table : List Nat) (out : BlockOutput K),
      processAudio expf sqrtf table st inp = some out →
      out.state.dry_coef = 1 - inp.wet ∧
      out.left.length = inp.left_input.length ∧ out.right.length = inp.left_input.length ∧
      (∀ i : Nat, i < inp.left_input.length → out.left[i]? = some (
        out.state.dry_coef * (st.dc.left.processBlock inp.left_input).1.getD i 0
        + out.state.wet_coef0 * tapAt (st.node 0).result (st.node 2).result (st.node 4).result
            (st.node 6).result i
        + out.state.wet_coef1 * (if i = 0 then st.left_reverb_state else
            tapAt (st.node 0).result (st.node 2).result (st.node 4).result
              (st.node 6).result (i - 1)))) ∧
      (∀ i : Nat, i < inp.left_input.length → out.right[i]? = some (
        out.state.dry_coef * (st.dc.right.processBlock inp.right_input).1.getD i 0
        + out.state.wet_coef0 * tapAt (st.node 1).result (st.node 3).result (st.node 5).result
            (st.node 7).result i
        + out.state.wet_coef1 * (if i = 0 then st.right_reverb_state else
            tapAt (st.node 1).result (st.node 3).result (st.node 5).result
              (st.node 7).result (i - 1)))) ∧
      (1 ≤ inp.left_input.length → out.state.left_reverb_state =
        tapAt (st.node 0).result (st.node 2).result (st.node 4).result (st.node 6).result
          (inp.left_input.length - 1)) ∧
      (1 ≤ inp.left_input.length → out.state.right_reverb_state =
        tapAt (st.node 1).result (st.node 3).result (st.node 5).result (st.node 7).result
          (inp.left_input.length - 1))) ∧
    (∀ L : Nat, st.WellFormed L → inp.InRange L → L ≤ 127 →
      ∃ out, processAudio expf sqrtf primeNumberTable st inp = some out) := by
  refine ⟨?_, fun L hwf hin hL => processAudio_returns expf sqrtf st inp L hwf hin hL⟩
  intro table out h
  obtain ⟨h1, h2, h3, h4, h5, h6, h7, h8, h9⟩ :=
    processAudio_of_some expf sqrtf table st inp out h
  refine ⟨by rw [h1]; rfl, h4, h5, ?_, ?_, ?_, ?_⟩
  · intro i hi
    rw [h1, h2, h3]
    exact h6 i hi
  · intro i hi
    rw [h1, h2, h3]
    exact h7 i hi
  · intro hL1
    rw [h8, if_neg (by omega)]
  · intro hL1
    rw [h9, if_neg (by omega)]

end OutputMix

theorem processAudio_output_mix_witness :
    ∃ out, processAudio Real.exp Real.sqrt primeNumberTable (SilkyVerbPatch.init 2)
        ({ left_input := [1, 1], right_input := [1, 1], size := 192, time := 1, cutoff := 1 / 5,
           wet := 1 / 2, sampleRate := 48000, tempoTime := 0 } : BlockInput ℝ) = some out ∧
      out.state.dry_coef = 1 - 1 / 2 ∧ out.left.length = 2 ∧ out.right.length = 2 := by
  have h := processAudio_output_mix Real.exp Real.sqrt (SilkyVerbPatch.init 2)
    ({ left_input := [1, 1], right_input := [1, 1], size := 192, time := 1, cutoff := 1 / 5,
       wet := 1 / 2, sampleRate := 48000, tempoTime := 0 } : BlockInput ℝ)
  obtain ⟨out, hout⟩ := h.2 2 (init_wellFormed 2) (example_inRange (1 / 2)) (by decide)
  obtain ⟨h1, h2, h3, _⟩ := h.1 primeNumberTable out hout
  exact ⟨out, hout, h1, h2, h3⟩

/-! ## CrossFadeBuffer: the blend as a convex combination, and its frame -/

namespace CrossFadeBuffer

section FadeOrder

variable {K : Type} [LinearOrderedField K]

/-- The blend of two values with weights `1 - x` and `x`, `0 ≤ x ≤ 1`, lies between them. -/
theorem blend_between (a b x : K) (h0 : 0 ≤ x) (h1 : x ≤ 1) :
    min a b ≤ a * (1 - x) + b * x ∧ a * (1 - x) + b * x ≤ max a b := by
  have hx : 0 ≤ 1 - x := by linarith
  constructor
  · have e : min a b = min a b * (1 - x) + min a b * x := by ring
    rw [e]
    exact add_le_add (mul_le_mul_of_nonneg_right (min_le_left a b) hx)
      (mul_le_mul_of_nonneg_right (min_le_right a b) h0)
  · have e : max a b = max a b * (1 - x) + max a b * x := by ring
    rw [e]
    exact add_le_add (mul_le_mul_of_nonneg_right (le_max_left a b) hx)
      (mul_le_mul_of_nonneg_right (le_max_right a b) h0)

/-- Claim C12: for `L ≥ 1` and every `i < L` the sample `out[i]` produced by `fade` is
`a * w0 + b * w1` with `a = read(readIndex + L - i)`, `b = read(newReadIndex + L - i)`, weights
`w0 = 1 - i/L` and `w1 = i/L` in `[0, 1]` that sum to one, hence `min a b ≤ out[i] ≤ max a b`. -/
theorem fade_convex (cb : CrossFadeBuffer K) (hN : 0 < cb.toCircularBuffer.getSize)
    (newReadIndex : Int) (L : Nat) (hL : 1 ≤ L) :
    ∃ out cb1, cb.fade newReadIndex L = some (out, cb1) ∧ out.length = L ∧
      ∀ i : Nat, i < L → ∃ a b w0 w1 y : K,
        cb.toCircularBuffer.read (cb.readIndex + L - i) = some a ∧
        cb.toCircularBuffer.read (newReadIndex + L - i) = some b ∧
        w0 = 1 - (i : K) / (L : K) ∧ w1 = (i : K) / (L : K) ∧
        0 ≤ w0 ∧ w0 ≤ 1 ∧ 0 ≤ w1 ∧ w1 ≤ 1 ∧ w0 + w1 = 1 ∧
        out[i]? = some y ∧ y = a * w0 + b * w1 ∧ min a b ≤ y ∧ y ≤ max a b := by
  obtain ⟨out, h1, h2, h3⟩ := fadeLoop_spec cb hN newReadIndex L L
  refine ⟨out, { cb with readIndex := newReadIndex }, ?_, h2, ?_⟩
  · simp only [fade, h1]
  · intro i hi
    obtain ⟨a, b, ha, hb, ho⟩ := h3 i hi
    have hLpos : (0 : K) < (L : K) := by exact_mod_cast hL
    have hx0 : (0 : K) ≤ (i : K) / (L : K) := div_nonneg (Nat.cast_nonneg i) hLpos.le
    have hx1 : (i : K) / (L : K) ≤ 1 := by
      rw [div_le_one hLpos]
      exact_mod_cast hi.le
    obtain ⟨hlo, hhi⟩ := blend_between a b _ hx0 hx1
    exact ⟨a, b, _, _, _, ha, hb, rfl, rfl, by linarith, by linarith, hx0, hx1, by ring,
      ho, rfl, hlo, hhi⟩

theorem fade_convex_witness :
    ∃ out cb1, ({ buffer := [1, 2, 3, 4], writeIndex := 0, readIndex := 0 } :
        CrossFadeBuffer ℚ).fade 1 2 = some (out, cb1) ∧ out.length = 2 ∧
      ∀ i : Nat, i < 2 → ∃ a b w0 w1 y : ℚ,
        CircularBuffer.read ⟨[1, 2, 3, 4], 0⟩ ((0 : Int) + (2 : Nat) - i) = some a ∧
        CircularBuffer.read ⟨[1, 2, 3, 4], 0⟩ ((1 : Int) + (2 : Nat) - i) = some b ∧
        w0 = 1 - (i : ℚ) / ((2 : Nat) : ℚ) ∧ w1 = (i : ℚ) / ((2 : Nat) : ℚ) ∧
        0 ≤ w0 ∧ w0 ≤ 1 ∧ 0 ≤ w1 ∧ w1 ≤ 1 ∧ w0 + w1 = 1 ∧
        out[i]? = some y ∧ y = a * w0 + b * w1 ∧ min a b ≤ y ∧ y ≤ max a b :=
  fade_convex ({ buffer := [1, 2, 3, 4], writeIndex := 0, readIndex := 0 } : CrossFadeBuffer ℚ)
    (by decide) 1 2 (by decide)

end FadeOrder

section FadeFrame

variable {K : Type} [Field K]

/-- Claim C13: `fade` called with the current read offset `d` and `L ≥ 1` returns
`out[i] = read(d + L - i)` for every `i < L` and leaves the buffer, read offset included,
as it was. -/
theorem fade_same_offset (cb : CrossFadeBuffer K) (hN : 0 < cb.toCircularBuffer.getSize)
    (L : Nat) :
    ∃ out cb1, cb.fade cb.readIndex L = some (out, cb1) ∧ out.length = L ∧
      cb1.readIndex = cb.readIndex ∧ cb1 = cb ∧
      ∀ i : Nat, i < L → ∃ a,
        cb.toCircularBuffer.read (cb.readIndex + L - i) = some a ∧ out[i]? = some a := by
  obtain ⟨out, h1, h2, h3⟩ := fadeLoop_spec cb hN cb.readIndex L L
  refine ⟨out, cb, ?_, h2, rfl, rfl, ?_⟩
  · simp only [fade, h1]
  · intro i hi
    obtain ⟨a, b, ha, hb, ho⟩ := h3 i hi
    have hab : b = a := by
      rw [ha] at hb
      exact (Option.some.inj hb).symm
    refine ⟨a, ha, ?_⟩
    rw [ho, hab]
    congr 1
    ring

theorem fade_same_offset_witness :
    ∃ out cb1, ({ buffer := [1, 2, 3, 4], writeIndex := 0, readIndex := 1 } :
        CrossFadeBuffer ℚ).fade 1 2 = some (out, cb1) ∧ out.length = 2 ∧
      cb1.readIndex = 1 ∧
      cb1 = { buffer := [1, 2, 3, 4], writeIndex := 0, readIndex := 1 } ∧
      ∀ i : Nat, i < 2 → ∃ a,
        CircularBuffer.read ⟨[1, 2, 3, 4], 0⟩ ((1 : Int) + (2 : Nat) - i) = some a ∧
        out[i]? = some a :=
  fade_same_offset
    ({ buffer := [1, 2, 3, 4], writeIndex := 0, readIndex := 1 } : CrossFadeBuffer ℚ)
    (by decide) 2

/-- Claim C14: `fade(newReadIndex, out)` with `out` of any length `L` changes only the read
offset, which becomes `newReadIndex`: the stored samples and the write cursor are those of the
call, and the first operand of a following fade is read at `newReadIndex + L2 - i`. -/
theorem fade_frame (cb : CrossFadeBuffer K) (newReadIndex : Int) (L : Nat)
    (h : 0 < cb.toCircularBuffer.getSize ∨ L = 0) :
    ∃ out cb1, cb.fade newReadIndex L = some (out, cb1) ∧ out.length = L ∧
      cb1 = { cb with readIndex := newReadIndex } ∧ cb1.readIndex = newReadIndex ∧
      cb1.buffer = cb.buffer ∧ cb1.writeIndex = cb.writeIndex ∧
      ∀ (n2 : Int) (L2 : Nat), 0 < cb.toCircularBuffer.getSize →
        ∃ out2 cb2, cb1.fade n2 L2 = some (out2, cb2) ∧ out2.length = L2 ∧
          ∀ i : Nat, i < L2 → ∃ a b,
            cb.toCircularBuffer.read (newReadIndex + L2 - i) = some a ∧
            cb.toCircularBuffer.read (n2 + L2 - i) = some b ∧
            out2[i]? = some (a * (1 - (i : K) / (L2 : K)) + b * ((i : K) / (L2 : K))) := by
  have hex : ∃ out, cb.fadeLoop newReadIndex L L = some out ∧ out.length = L := by
    rcases h with hN | h0
    · obtain ⟨out, h1, h2, _⟩ := fadeLoop_spec cb hN newReadIndex L L
      exact ⟨out, h1, h2⟩
    · subst h0
      exact ⟨[], rfl, rfl⟩
  obtain ⟨out, h1, h2⟩ := hex
  refine ⟨out, { cb with readIndex := newReadIndex }, ?_, h2, rfl, rfl, rfl, rfl, ?_⟩
  · simp only [fade, h1]
  · intro n2 L2 hN
    obtain ⟨out2, g1, g2, g3⟩ :=
      fadeLoop_spec ({ cb with readIndex := newReadIndex } : CrossFadeBuffer K) hN n2 L2 L2
    refine ⟨out2, { cb with readIndex := n2 }, ?_, g2, g3⟩
    simp only [fade, g1]

theorem fade_frame_witness :
    ∃ out cb1, ({ buffer := [1, 2, 3, 4], writeIndex := 0, readIndex := 1 } :
        CrossFadeBuffer ℚ).fade 3 2 = some (out, cb1) ∧ out.length = 2 ∧
      cb1 = { buffer := [1, 2, 3, 4], writeIndex := 0, readIndex := 3 } ∧ cb1.readIndex = 3 ∧
      cb1.buffer = [1, 2, 3, 4] ∧ cb1.writeIndex = 0 ∧
      ∀ (n2 : Int) (L2 : Nat), 0 < CircularBuffer.getSize (⟨[1, 2, 3, 4], 0⟩ : CircularBuffer ℚ) →
        ∃ out2 cb2, cb1.fade n2 L2 = some (out2, cb2) ∧ out2.length = L2 ∧
          ∀ i : Nat, i < L2 → ∃ a b,
            CircularBuffer.read ⟨[1, 2, 3, 4], 0⟩ ((3 : Int) + L2 - i) = some a ∧
            CircularBuffer.read ⟨[1, 2, 3, 4], 0⟩ (n2 + L2 - i) = some b ∧
            out2[i]? = some (a * (1 - (i : ℚ) / (L2 : ℚ)) + b * ((i : ℚ) / (L2 : ℚ))) :=
  fade_frame ({ buffer := [1, 2, 3, 4], writeIndex := 0, readIndex := 1 } : CrossFadeBuffer ℚ)
    3 2 (Or.inl (by decide))

end FadeFrame

end CrossFadeBuffer

/-! ## CircularBuffer: `interpolate` -/

namespace CircularBuffer

section Interpolate

variable {K : Type} [LinearOrderedField K] [FloorRing K]

/-- The value of `interpolate(f)` for `0 ≤ f`: the sample at offset `⌊f⌋` is weighted by the
fractional part of `f` and the sample at offset `⌊f⌋ + 1` by its complement. -/
theorem interpolate_eq (cb : CircularBuffer K) (hN : 0 < cb.getSize) (f : K) (h0 : 0 ≤ f)
    (h1 : Int.floor f + 1 < 2147483648) :
    ∃ low high, cb.read (Int.floor f) = some low ∧ cb.read (Int.floor f + 1) = some high ∧
      cb.interpolate f
        = some (low * (f - (Int.floor f : K)) + high * (1 - (f - (Int.floor f : K)))) := by
  obtain ⟨low, hlow⟩ := read_isSome cb hN (Int.floor f)
  obtain ⟨high, hhigh⟩ := read_isSome cb hN (Int.floor f + 1)
  have hf : f < 2147483648 := by
    have := Int.lt_floor_add_one f
    have h2 : ((Int.floor f + 1 : Int) : K) < ((2147483648 : Int) : K) := by exact_mod_cast h1
    push_cast at h2
    linarith
  refine ⟨low, high, hlow, hhigh, ?_⟩
  unfold interpolate
  rw [floatToInt_of_range h0 hf]
  simp only [if_pos h1, hlow, hhigh]

/-- At an integer offset `k`, `interpolate(k)` is the sample at offset `k + 1`. -/
theorem interpolate_intCast (cb : CircularBuffer K) (hN : 0 < cb.getSize) (k : Nat)
    (hk : (k : Int) + 1 < 2147483648) : cb.interpolate (k : K) = cb.read ((k : Int) + 1) := by
  have hfl : Int.floor (k : K) = (k : Int) := by simp
  obtain ⟨low, high, _, hhigh, h⟩ := interpolate_eq cb hN (k : K) (Nat.cast_nonneg k)
    (by rw [hfl]; exact hk)
  rw [hfl] at hhigh h
  rw [h, hhigh]
  congr 1
  push_cast
  ring

end Interpolate

/-- Evaluation for claim C11: on the buffer holding `10, 20, 30, 40` with the last write in
slot 3, `read(0) = 40` and `read(1) = 30`; `interpolate(0)` is `30 = read(1)`, not `read(0)`,
and `interpolate(1/4)` is `40 * (1/4) + 30 * (3/4) = 65/2`, not `40 * (3/4) + 30 * (1/4)`. -/
theorem interpolate_weights_swapped :
    ((CircularBuffer.mk [10, 20, 30, 40] 3 : CircularBuffer ℚ).read 0,
      (CircularBuffer.mk [10, 20, 30, 40] 3 : CircularBuffer ℚ).read 1,
      (CircularBuffer.mk [10, 20, 30, 40] 3 : CircularBuffer ℚ).interpolate 0,
      (CircularBuffer.mk [10, 20, 30, 40] 3 : CircularBuffer ℚ).interpolate (1 / 4))
      = (some 40, some 30, some 30, some (65 / 2)) := by
  have hN : 0 < (CircularBuffer.mk [10, 20, 30, 40] 3 : CircularBuffer ℚ).getSize := by decide
  have r0 : (CircularBuffer.mk [10, 20, 30, 40] 3 : CircularBuffer ℚ).read 0 = some 40 := by
    decide
  have r1 : (CircularBuffer.mk [10, 20, 30, 40] 3 : CircularBuffer ℚ).read 1 = some 30 := by
    decide
  have f0 : Int.floor (0 : ℚ) = 0 := Int.floor_zero
  have f1 : Int.floor (1 / 4 : ℚ) = 0 := by
    rw [Int.floor_eq_iff]
    norm_num
  obtain ⟨l0, g0, a0, b0, c0⟩ := interpolate_eq (CircularBuffer.mk [10, 20, 30, 40] 3) hN
    (0 : ℚ) le_rfl (by rw [f0]; decide)
  obtain ⟨l1, g1, a1, b1, c1⟩ := interpolate_eq (CircularBuffer.mk [10, 20, 30, 40] 3) hN
    (1 / 4 : ℚ) (by norm_num) (by rw [f1]; decide)
  rw [f0, r0] at a0
  rw [f0, zero_add, r1] at b0
  rw [f1, r0] at a1
  rw [f1, zero_add, r1] at b1
  cases a0
  cases b0
  cases a1
  cases b1
  rw [f0] at c0
  rw [f1] at c1
  rw [r0, r1, c0, c1]
  norm_num

end CircularBuffer

/-! ## The prime table: primes are fixed points of `FindNearestPrime` -/

/-- On a prime table `FindNearestPrime` returns a prime index unchanged. -/
theorem findNearestPrime_of_prime (t : List Nat) (ht : IsPrimeTable t) (n : Nat)
    (hp : n.Prime) (hn : n < PRIME_NUMBER_TABLE_SIZE) : FindNearestPrime t n = some n := by
  obtain ⟨p, h1, _, h3, h4⟩ := findNearestPrime_spec t ht n hp.two_le hn
  have : n ≤ p := h4 n hp le_rfl
  rw [h1, show p = n by omega]

/-- Claim C15: on the table built by `BuildPrimeTable`, `FindNearestPrime` returns `n` for
every prime `n < 7600`; for every `n` with `2 ≤ n < 7600` applying it to its own result gives
that result again; and it returns `97` at `97` and at `100`. -/
theorem findNearestPrime_idempotent (fuel : Nat) (hf : 88 ≤ fuel) (table : List Nat)
    (h0 : table.length = 7600) :
    ∃ t, BuildPrimeTable fuel table = some t ∧
      (∀ n : Nat, n.Prime → n < 7600 → FindNearestPrime t n = some n) ∧
      (∀ n : Nat, 2 ≤ n → n < 7600 →
        ∃ p, FindNearestPrime t n = some p ∧ FindNearestPrime t p = some p) ∧
      FindNearestPrime t 97 = some 97 ∧ FindNearestPrime t 100 = some 97 := by
  obtain ⟨t, h1, ht⟩ := buildPrimeTable_spec fuel hf table h0
  have p97 : Nat.Prime 97 := by norm_num
  refine ⟨t, h1, ?_, ?_, ?_, ?_⟩
  · intro n hp hn
    exact findNearestPrime_of_prime t ht n hp hn
  · intro n h2 hn
    obtain ⟨p, a1, a2, a3, _⟩ := findNearestPrime_spec t ht n h2 hn
    have hp : p < PRIME_NUMBER_TABLE_SIZE := by
      unfold PRIME_NUMBER_TABLE_SIZE
      omega
    exact ⟨p, a1, findNearestPrime_of_prime t ht p a2 hp⟩
  · exact findNearestPrime_of_prime t ht 97 p97 (by unfold PRIME_NUMBER_TABLE_SIZE; omega)
  · obtain ⟨p, a1, a2, a3, a4⟩ := findNearestPrime_spec t ht 100 (by omega)
      (by unfold PRIME_NUMBER_TABLE_SIZE; omega)
    have h97 : 97 ≤ p := a4 97 p97 (by omega)
    have hp : p = 97 := by
      interval_cases p
      · rfl
      · norm_num at a2
      · norm_num at a2
      · norm_num at a2
    rw [a1, hp]

theorem findNearestPrime_idempotent_witness :
    (88 ≤ 100 ∧ (List.replicate 7600 0 : List Nat).length = 7600) ∧
    ∃ t, BuildPrimeTable 100 (List.replicate 7600 0) = some t ∧
      (∀ n : Nat, n.Prime → n < 7600 → FindNearestPrime t n = some n) ∧
      (∀ n : Nat, 2 ≤ n → n < 7600 →
        ∃ p, FindNearestPrime t n = some p ∧ FindNearestPrime t p = some p) ∧
      FindNearestPrime t 97 = some 97 ∧ FindNearestPrime t 100 = some 97 :=
  ⟨⟨by decide, List.length_replicate 7600 0⟩,
    findNearestPrime_idempotent 100 (by decide) (List.replicate 7600 0)
      (List.length_replicate 7600 0)⟩

/-! ## The reverb: the indices of the nine prime lookups -/

section PrimeLookups

variable {K : Type} [LinearOrderedField K] [FloorRing K]

/-- Claim C18: for a room size `s` with `MIN_ROOM_SIZE = 192 ≤ s ≤ 7552 = MAX_ROOM_SIZE`, the
index `trunc(s)` of the lookup for the cutoff coefficient and the index `trunc(fDelaySamples)`
of the lookup of node `k`, `k = 0..7`, are defined and lie in `[2, 7600)`, and on the table of
the program each of the nine lookups returns a prime not above its index. Here `fDelaySamples`
is the `float` the code holds at the call for node `k`, whatever the rounding `fl` of the seven
statements `fDelaySamples *= ALPHA;` as long as its relative error is at most `1/4096` (the
rounding to `float` has `2^-24`); without rounding it is `s * ALPHA^k`. -/
theorem findNearestPrime_lookups_in_table (u : K) (fl : Nat → K → K) (hu0 : 0 ≤ u)
    (hu : u ≤ 1 / 4096) (hfl : IsRounding u fl) (s : K) (h1 : MIN_ROOM_SIZE K ≤ s)
    (h2 : s ≤ MAX_ROOM_SIZE K) :
    (∃ n p, floatToUInt16 s = some n ∧ 2 ≤ n ∧ n < PRIME_NUMBER_TABLE_SIZE ∧
      PRIME_NUMBER_TABLE_SIZE = 7600 ∧
      FindNearestPrime primeNumberTable n = some p ∧ p.Prime ∧ p ≤ n) ∧
    (∀ k : Nat, k ≤ 7 →
      ∃ z p, floatToInt (fDelaySamplesFl fl s k) = some z ∧ 2 ≤ toUInt16 z ∧
        toUInt16 z < PRIME_NUMBER_TABLE_SIZE ∧
        FindNearestPrime primeNumberTable (toUInt16 z) = some p ∧ p.Prime ∧
        p ≤ toUInt16 z) ∧
    ∀ k : Nat, fDelaySamplesFl (fun _ x => x) s k = s * ALPHA K ^ k := by
  have hs1 : (127 : K) ≤ s := by
    unfold MIN_ROOM_SIZE at h1
    linarith
  have hs2 : s ≤ 7552 := h2
  refine ⟨?_, ?_, fun k => by rw [fDelaySamplesFl_id, fDelaySamplesAt_eq]⟩
  · obtain ⟨b1, b2, b3⟩ := floor_toNat_bounds hs1 hs2
    have hn : (Int.floor s).toNat < PRIME_NUMBER_TABLE_SIZE := by
      unfold PRIME_NUMBER_TABLE_SIZE
      omega
    obtain ⟨p, a1, a2, a3, _⟩ := findNearestPrime_spec primeNumberTable
      primeNumberTable_isPrimeTable (Int.floor s).toNat (by omega) hn
    exact ⟨(Int.floor s).toNat, p, floatToUInt16_of_range (by linarith) (by linarith),
      by omega, hn, rfl, a1, a2, a3⟩
  · intro k hk
    obtain ⟨c1, _, c3⟩ := fDelaySamplesFl_bounds u fl hu0 hu hfl s h1 h2 k hk
    obtain ⟨b1, b2, b3⟩ := floor_toNat_bounds c1 c3
    have hz : toUInt16 (Int.floor (fDelaySamplesFl fl s k))
        = (Int.floor (fDelaySamplesFl fl s k)).toNat := toUInt16_of_range b3 (by omega)
    have hn : (Int.floor (fDelaySamplesFl fl s k)).toNat < PRIME_NUMBER_TABLE_SIZE := by
      unfold PRIME_NUMBER_TABLE_SIZE
      omega
    obtain ⟨p, a1, a2, a3, _⟩ := findNearestPrime_spec primeNumberTable
      primeNumberTable_isPrimeTable (Int.floor (fDelaySamplesFl fl s k)).toNat (by omega) hn
    refine ⟨Int.floor (fDelaySamplesFl fl s k), p,
      floatToInt_of_range (by linarith) (by linarith), ?_, ?_, ?_, a2, ?_⟩
    · rw [hz]; omega
    · rw [hz]; exact hn
    · rw [hz]; exact a1
    · rw [hz]; exact a3

end PrimeLookups

theorem findNearestPrime_lookups_in_table_witness :
    ((∃ n p, floatToUInt16 (192 : ℚ) = some n ∧ 2 ≤ n ∧ n < PRIME_NUMBER_TABLE_SIZE ∧
      PRIME_NUMBER_TABLE_SIZE = 7600 ∧
      FindNearestPrime primeNumberTable n = some p ∧ p.Prime ∧ p ≤ n) ∧
    (∀ k : Nat, k ≤ 7 →
      ∃ z p, floatToInt (fDelaySamplesFl (fun _ => round32) (192 : ℚ) k) = some z ∧
        2 ≤ toUInt16 z ∧ toUInt16 z < PRIME_NUMBER_TABLE_SIZE ∧
        FindNearestPrime primeNumberTable (toUInt16 z) = some p ∧ p.Prime ∧
        p ≤ toUInt16 z) ∧
    ∀ k : Nat, fDelaySamplesFl (fun _ x => x) (192 : ℚ) k = 192 * ALPHA ℚ ^ k) ∧
    floatToInt (fDelaySamplesFl (fun _ => round32) (192 : ℚ) 7) = some 127 ∧
    floatToInt (fDelaySamplesFl (fun _ x => x) (192 : ℚ) 7) = some 128 := by
  refine ⟨findNearestPrime_lookups_in_table (1 / 2 ^ 24 : ℚ) (fun _ => round32) (by norm_num)
    (by norm_num) round32_isRounding (192 : ℚ) (by unfold MIN_ROOM_SIZE; norm_num)
    (by unfold MAX_ROOM_SIZE; norm_num), ?_, ?_⟩
  · rw [(fDelaySamplesFl_192 (K := ℚ)).1, floatToInt_of_range (by norm_num) (by norm_num)]
    congr 1
    rw [Int.floor_eq_iff]
    norm_num
  · have h := (fDelaySamplesFl_192 (K := ℚ)).2
    have h3 : fDelaySamplesAt (192 : ℚ) 7 ≤ 192 :=
      (fDelaySamplesAt_bounds (192 : ℚ) (by unfold MIN_ROOM_SIZE; norm_num)
        (by unfold MAX_ROOM_SIZE; norm_num) 7 (le_refl _)).2.1
    have h4 : fDelaySamplesAt (192 : ℚ) 7 < 129 := by
      rw [fDelaySamplesAt_eq]
      unfold ALPHA
      norm_num
    rw [fDelaySamplesFl_id, floatToInt_of_range (by linarith) (by linarith)]
    congr 1
    rw [Int.floor_eq_iff]
    constructor
    · push_cast; linarith
    · push_cast; linarith

/-! ## The reverb: the range of `delaySamples` -/

/-- The first loop of `delaySamples` halves `time` exactly as often as needed: it returns
`time / 2^k` for the least `k` with `time / 2^k ≤ 32768`. -/
theorem halveLoop_least : ∀ (fuel time : Nat), time ≤ 32768 * 2 ^ fuel →
    ∃ k, k ≤ fuel ∧ halveLoop (fuel + 1) time = some (time / 2 ^ k) ∧
      time / 2 ^ k ≤ 32768 ∧ ∀ j : Nat, j < k → 32768 < time / 2 ^ j := by
  intro fuel
  induction fuel with
  | zero =>
    intro time h
    refine ⟨0, le_refl _, ?_, by simpa using h, by intro j hj; omega⟩
    simp only [halveLoop, MAX_PREDELAY_SIZE, pow_zero, Nat.div_one]
    rw [if_neg (by omega)]
  | succ fuel ih =>
    intro time h
    by_cases hc : time > 32768
    · obtain ⟨k, a0, a1, a2, a3⟩ := ih (time / 2) (by rw [pow_succ] at h; omega)
      have hdiv : ∀ j : Nat, time / 2 ^ (j + 1) = time / 2 / 2 ^ j := by
        intro j
        rw [pow_succ', Nat.div_div_eq_div_mul]
      refine ⟨k + 1, by omega, ?_, ?_, ?_⟩
      · rw [halveLoop]
        simp only [MAX_PREDELAY_SIZE]
        rw [if_pos hc, hdiv]
        exact a1
      · rw [hdiv]
        exact a2
      · intro j hj
        cases j with
        | zero => simpa using hc
        | succ j =>
          rw [hdiv]
          exact a3 j (by omega)
    · refine ⟨0, by omega, ?_, by simpa using hc, by intro j hj; omega⟩
      rw [halveLoop]
      simp only [MAX_PREDELAY_SIZE, pow_zero, Nat.div_one]
      rw [if_neg hc]

/-- Counterexample for claim C19: for `time = 32769` the method `delaySamples` returns
`32769 / 2 = 16384`, which is not above `16384`. -/
theorem delaySamples_half_reached :
    delaySamples 32769 = some 16384 ∧
    ¬ ∀ t : Nat, t < 4294967296 → 32768 < t →
      ∃ r : Int, delaySamples t = some r ∧ 16384 < r ∧ r ≤ 32768 := by
  have h : delaySamples 32769 = some 16384 := by decide
  refine ⟨h, ?_⟩
  intro hall
  obtain ⟨r, h1, h2, _⟩ := hall 32769 (by norm_num) (by norm_num)
  rw [h] at h1
  cases h1
  omega

/-- Claim C19, amended: for every 32-bit value `t`, `delaySamples` returns a value `r` with
`MIN_PREDELAY_SIZE = 0 ≤ r ≤ 32768 = MAX_PREDELAY_SIZE`; `r = t` when `t ≤ 32768`, and otherwise
`r = t / 2^k` for the least `k ≥ 1` with `t / 2^k ≤ 32768`, so that `16384 ≤ r ≤ 32768`. -/
theorem delaySamples_range (t : Nat) (ht : t < 4294967296) :
    ∃ r : Nat, delaySamples t = some (r : Int) ∧ MIN_PREDELAY_SIZE ≤ r ∧
      r ≤ MAX_PREDELAY_SIZE ∧ MAX_PREDELAY_SIZE = 32768 ∧
      (t ≤ 32768 → r = t) ∧
      (32768 < t → ∃ k : Nat, 1 ≤ k ∧ r = t / 2 ^ k ∧ t / 2 ^ k ≤ 32768 ∧
        (∀ j : Nat, j < k → 32768 < t / 2 ^ j) ∧ 16384 ≤ r) := by
  obtain ⟨k, _, a1, a2, a3⟩ := halveLoop_least 33 t (by norm_num; omega)
  have hd : delaySamples t = some ((t / 2 ^ k : Nat) : Int) := by
    unfold delaySamples
    rw [Nat.mod_eq_of_lt ht, a1]
    simp only [doubleLoop, MIN_PREDELAY_SIZE, Nat.not_lt_zero, if_false]
    rw [toInt32_natCast (by omega)]
  refine ⟨t / 2 ^ k, hd, Nat.zero_le _, a2, rfl, ?_, ?_⟩
  · intro hle
    cases k with
    | zero => simp
    | succ k =>
      have := a3 0 (by omega)
      simp at this
      omega
  · intro hlt
    cases k with
    | zero =>
      simp at a2
      omega
    | succ k =>
      refine ⟨k + 1, by omega, rfl, a2, a3, ?_⟩
      have h1 := a3 k (by omega)
      rw [pow_succ, ← Nat.div_div_eq_div_mul]
      omega

theorem delaySamples_range_witness :
    (100000 < 4294967296) ∧
    ∃ r : Nat, delaySamples 100000 = some (r : Int) ∧ MIN_PREDELAY_SIZE ≤ r ∧
      r ≤ MAX_PREDELAY_SIZE ∧ MAX_PREDELAY_SIZE = 32768 ∧
      (100000 ≤ 32768 → r = 100000) ∧
      (32768 < 100000 → ∃ k : Nat, 1 ≤ k ∧ r = 100000 / 2 ^ k ∧ 100000 / 2 ^ k ≤ 32768 ∧
        (∀ j : Nat, j < k → 32768 < 100000 / 2 ^ j) ∧ 16384 ≤ r) :=
  ⟨by decide, delaySamples_range 100000 (by decide)⟩

/-! ## CircularBuffer: `read` and capacities that do not divide `2^32` -/

namespace CircularBuffer

variable {K : Type}

/-- An offset that does not reach below slot 0 reads the slot `writeIndex - k`, whatever the
capacity. -/
theorem read_of_le (cb : CircularBuffer K) (hw : cb.writeIndex < cb.getSize)
    (hN : cb.getSize ≤ 4294967296) (k : Nat) (hk : k ≤ cb.writeIndex) :
    cb.read k = cb.buffer[cb.writeIndex - k]? := by
  unfold read
  rw [if_neg (by omega)]
  have h1 : (cb.writeIndex : Int) - k = ((cb.writeIndex - k : Nat) : Int) := by omega
  rw [h1, toUInt32_natCast (by omega), Nat.mod_eq_of_lt (by omega)]

/-- Evaluation for claim C20: in a buffer of capacity 3 the writes of `1, 2, 3, 4` leave the
cursor on slot 1; `read(0) = 4` and `read(1) = 3`, but `read(2)` computes
`(1 - 2) mod 2^32 = 4294967295`, whose remainder by 3 is 0, and returns `3` again, not `2`. -/
theorem read_capacity_three :
    ((CircularBuffer.mk [0, 0, 0] 0 : CircularBuffer ℚ).writeAll [1, 2, 3, 4]).map
        (fun cb => (cb.buffer, cb.writeIndex, cb.read 0, cb.read 1, cb.read 2))
      = some ([3, 4, 2], 1, some 4, some 3, some 3) ∧
    toUInt32 ((1 : Int) - 2) = 4294967295 ∧ 4294967295 % 3 = 0 := by
  decide

end CircularBuffer

/-! ## The reverb: the pre-delay at the largest offset -/

namespace CircularBuffer

variable {K : Type}

/-- In a buffer whose capacity divides `2^32`, offsets that differ by a multiple of the
capacity read the same slot. -/
theorem read_congr (cb : CircularBuffer K) (hN : (cb.getSize : Int) ∣ 4294967296) (z1 z2 : Int)
    (h : (cb.getSize : Int) ∣ z1 - z2) : cb.read z1 = cb.read z2 := by
  unfold read
  by_cases h0 : cb.getSize = 0
  · rw [if_pos h0, if_pos h0]
  · rw [if_neg h0, if_neg h0]
    have hd : (cb.getSize : Int) ∣ ((cb.writeIndex : Int) - z1 + (0 : Nat)
        - ((cb.writeIndex : Int) - z2)) := by
      have e : (cb.writeIndex : Int) - z1 + (0 : Nat) - ((cb.writeIndex : Int) - z2)
          = -(z1 - z2) := by push_cast; ring
      rw [e]
      exact (Int.dvd_neg).2 h
    have := slot_congr cb.getSize hN ((cb.writeIndex : Int) - z1) ((cb.writeIndex : Int) - z2) 0 hd
    rw [Nat.add_zero, Nat.mod_mod] at this
    rw [this]

end CircularBuffer

namespace CrossFadeBuffer

variable {K : Type} [Field K]

/-- The blend that follows a block write when the old and the new read offset are multiples of
the capacity: every read wraps onto the block just written, and the output is that block. -/
theorem fade_after_writeBlock_wrap (cb : CrossFadeBuffer K) (e : Nat) (he : e < 31)
    (hN : cb.toCircularBuffer.getSize = 2 ^ e)
    (hw : cb.writeIndex < cb.toCircularBuffer.getSize) (b : List K)
    (hL : b.length ≤ cb.toCircularBuffer.getSize) (n : Int)
    (hd : (cb.toCircularBuffer.getSize : Int) ∣ cb.readIndex)
    (hn : (cb.toCircularBuffer.getSize : Int) ∣ n) :
    ∃ cb1, cb.toCircularBuffer.writeBlock b = some cb1 ∧
      ({ cb with toCircularBuffer := cb1 } : CrossFadeBuffer K).fade n b.length
        = some (b, { toCircularBuffer := cb1, readIndex := n }) := by
  obtain ⟨cb1, h1, h2, _, h4, _⟩ :=
    CircularBuffer.read_after_writeBlock cb.toCircularBuffer e he hN hw b hL
  have hpos : 0 < cb1.getSize := by rw [h2, hN]; positivity
  have hdiv : (cb1.getSize : Int) ∣ 4294967296 := by
    rw [h2, hN]
    have : (4294967296 : Int) = 2 ^ 32 := by norm_num
    rw [this]
    push_cast
    have he32 : e ≤ 32 := by omega
    exact pow_dvd_pow 2 he32
  obtain ⟨out, g1, g2, g3⟩ := fadeLoop_spec
    ({ cb with toCircularBuffer := cb1 } : CrossFadeBuffer K) hpos n b.length b.length
  refine ⟨cb1, h1, ?_⟩
  have hout : out = b := by
    apply List.ext_getElem?
    intro i
    by_cases hi : i < b.length
    · obtain ⟨x, y, hx, hy, ho⟩ := g3 i hi
      obtain ⟨v, hv1, hv2⟩ := h4 (b.length - i) (by omega) (by omega)
      have hcast : ((b.length - i : Nat) : Int) = (b.length : Int) - i := by omega
      have hx2 : cb1.read (cb.readIndex + b.length - i) = cb1.read ((b.length - i : Nat) : Int) := by
        apply CircularBuffer.read_congr cb1 hdiv
        rw [hcast, h2]
        have e1 : cb.readIndex + (b.length : Int) - i - ((b.length : Int) - i) = cb.readIndex := by
          ring
        rw [e1]
        exact hd
      have hy2 : cb1.read (n + b.length - i) = cb1.read ((b.length - i : Nat) : Int) := by
        apply CircularBuffer.read_congr cb1 hdiv
        rw [hcast, h2]
        have e1 : n + (b.length : Int) - i - ((b.length : Int) - i) = n := by ring
        rw [e1]
        exact hn
      have hxv : x = v := by
        have : cb1.read (cb.readIndex + b.length - i) = some x := hx
        rw [hx2, hv2] at this
        exact (Option.some.inj this).symm
      have hyv : y = v := by
        have : cb1.read (n + b.length - i) = some y := hy
        rw [hy2, hv2] at this
        exact (Option.some.inj this).symm
      rw [show b.length - (b.length - i) = i by omega] at hv1
      rw [ho, hxv, hyv, hv1]
      congr 1
      ring
    · rw [List.getElem?_eq_none (by omega), List.getElem?_eq_none (by omega)]
  simp only [fade, g1, hout]

end CrossFadeBuffer

namespace CrossFadeBuffer

variable {K : Type} [Field K]

/-- Pass `i` of the loop of `fade` reads at the two offsets of `fadeOffsets`. -/
theorem fadeLoop_succ (cb : CrossFadeBuffer K) (newReadIndex : Int) (len i : Nat) :
    cb.fadeLoop newReadIndex len (i + 1) =
      match cb.fadeLoop newReadIndex len i with
      | none => none
      | some dst =>
        match cb.toCircularBuffer.read (cb.fadeOffsets newReadIndex len i).1,
          cb.toCircularBuffer.read (cb.fadeOffsets newReadIndex len i).2 with
        | some a, some b =>
          some (dst ++ [a * (1 - (i : K) / (len : K)) + b * ((i : K) / (len : K))])
        | _, _ => none := rfl

end CrossFadeBuffer

section PreDelayWrap

variable {K : Type} [LinearOrderedField K] [FloorRing K]

/-- The pre-delay at `delaySamples() = MAX_PREDELAY_SIZE`, from a read offset that is a multiple
of the capacity: the reads wrap onto the block just written and `preL`, `preR` are the input
blocks themselves. -/
theorem preDelay_at_capacity (st : SilkyVerbPatch K) (L : Nat) (hwf : st.WellFormed L)
    (left right : List K) (hl : left.length = L) (hr : right.length = L) (hL : L ≤ 32768)
    (time : Nat) (ht : delaySamples time = some 32768)
    (hdL : (32768 : Int) ∣ st.delayBufferL.readIndex)
    (hdR : (32768 : Int) ∣ st.delayBufferR.readIndex) :
    ∃ bL bR, preDelay st left right time = some (32768, left, right, bL, bR) ∧
      bL.readIndex = 32768 ∧ bR.readIndex = 32768 := by
  have hsL := hwf.delayL_size
  have hsR := hwf.delayR_size
  have hiL := hwf.delayL_index
  have hiR := hwf.delayR_index
  have hM : MAX_PREDELAY_SIZE = 2 ^ 15 := by
    unfold MAX_PREDELAY_SIZE
    norm_num
  have hM2 : MAX_PREDELAY_SIZE = 32768 := rfl
  obtain ⟨cbL, a1, a2⟩ := CrossFadeBuffer.fade_after_writeBlock_wrap st.delayBufferL 15
    (by norm_num) (by rw [hsL, hM]) (by rw [hsL]; exact hiL) left (by rw [hsL, hl, hM2]; exact hL)
    32768 (by rw [hsL, hM2]; exact hdL) (by rw [hsL, hM2]; norm_num)
  obtain ⟨cbR, b1, b2⟩ := CrossFadeBuffer.fade_after_writeBlock_wrap st.delayBufferR 15
    (by norm_num) (by rw [hsR, hM]) (by rw [hsR]; exact hiR) right
    (by rw [hsR, hr, hM2]; exact hL)
    32768 (by rw [hsR, hM2]; exact hdR) (by rw [hsR, hM2]; norm_num)
  rw [hl, ← hwf.preL_length] at a2
  rw [hr, ← hwf.preR_length] at b2
  refine ⟨{ toCircularBuffer := cbL, readIndex := 32768 },
    { toCircularBuffer := cbR, readIndex := 32768 }, ?_, rfl, rfl⟩
  have hf : floatToInt (((32768 : Int)) : K) = some 32768 :=
    floatToInt_intCast 32768 (by norm_num) (by norm_num)
  unfold preDelay
  simp only [Option.bind_eq_bind, ht, Option.some_bind, a1, b1, hf, a2, b2, Option.pure_def]
  norm_num

end PreDelayWrap

/-- Evaluation for claim C16: for `time = 65536` the method `delaySamples` returns `32768`, the
capacity of the pre-delay buffers; with blocks of two samples the first pass of `fade` then
reads at the offsets `2` and `32770`, the second of which is not below the capacity, and the
pre-delay of the first block `[1, 2]`, `[3, 4]` returns that block undelayed. -/
theorem preDelay_offset_not_below_capacity :
    delaySamples 65536 = some 32768 ∧
    (SilkyVerbPatch.init 2 : SilkyVerbPatch ℚ).delayBufferL.toCircularBuffer.getSize = 32768 ∧
    (SilkyVerbPatch.init 2 : SilkyVerbPatch ℚ).delayBufferL.fadeOffsets 32768 2 0
      = (2, 32770) ∧
    (SilkyVerbPatch.init 2 : SilkyVerbPatch ℚ).delayBufferL.fadeOffsets 32768 2 1
      = (1, 32769) ∧
    ∃ bL bR, preDelay (SilkyVerbPatch.init 2 : SilkyVerbPatch ℚ) [1, 2] [3, 4] 65536
      = some (32768, [1, 2], [3, 4], bL, bR) := by
  have ht : delaySamples 65536 = some 32768 := by decide
  refine ⟨ht, List.length_replicate _ _, by decide, by decide, ?_⟩
  obtain ⟨bL, bR, h, _⟩ := preDelay_at_capacity (SilkyVerbPatch.init 2 : SilkyVerbPatch ℚ) 2
    (init_wellFormed 2) [1, 2] [3, 4] rfl rfl (by norm_num) 65536 ht (by decide) (by decide)
  exact ⟨bL, bR, h⟩

/-! ## The reverb: the delay of a node in steady state -/

namespace CrossFadeBuffer

variable {K : Type} [Field K]

/-- The blend without a transition that follows writes made one at a time with `write(float)`:
with read offset `d` its sample `i` is the one written `d + L - i` writes before the last. -/
theorem fade_after_writes (cb : CircularBuffer K) (e : Nat) (he : e < 32)
    (hN : cb.getSize = 2 ^ e) (hw : cb.writeIndex < cb.getSize) (s : List K) (d L : Nat)
    (hd : d + L < min s.length cb.getSize) :
    ∃ cb1 out, cb.writeAll s = some cb1 ∧
      ({ toCircularBuffer := cb1, readIndex := (d : Int) } : CrossFadeBuffer K).fade d L
        = some (out, { toCircularBuffer := cb1, readIndex := (d : Int) }) ∧
      out.length = L ∧ ∀ i : Nat, i < L → out[i]? = s[s.length - 1 - (d + L - i)]? := by
  obtain ⟨cb1, h1, h2⟩ := CircularBuffer.read_after_writes cb e he hN hw s
  have hpos : 0 < cb1.getSize := by
    obtain ⟨v, _, hv⟩ := h2 0 (by omega)
    by_contra h0
    have h0 : cb1.getSize = 0 := by omega
    unfold CircularBuffer.read at hv
    rw [if_pos h0] at hv
    exact absurd hv (by simp)
  obtain ⟨out, g1, g2, g3⟩ := fadeLoop_spec
    ({ toCircularBuffer := cb1, readIndex := (d : Int) } : CrossFadeBuffer K) hpos (d : Int) L L
  refine ⟨cb1, out, h1, ?_, g2, ?_⟩
  · simp only [fade, g1]
  · intro i hi
    obtain ⟨x, y, hx, hy, ho⟩ := g3 i hi
    obtain ⟨v, hv1, hv2⟩ := h2 (d + L - i) (by omega)
    have hcast : ((d + L - i : Nat) : Int) = (d : Int) + L - i := by omega
    rw [hcast] at hv2
    have hxv : x = v := by
      have : cb1.read ((d : Int) + L - i) = some x := hx
      rw [hv2] at this
      exact (Option.some.inj this).symm
    have hyv : y = v := by
      rw [hv2] at hy
      exact (Option.some.inj hy).symm
    rw [ho, hxv, hyv, hv1]
    congr 1
    ring

end CrossFadeBuffer

/-- Evaluation for claim C17: a node buffer with `p = 127` and blocks of `L = 2` samples, so
that `delay_samples = 125`, after the samples `0, 1, ..., 129` were written one at a time. The
last block wrote `128` and `129`; `fade` returns `[2, 3]`, the samples written `126 = p - L + 1`
writes before them, and not `[3, 4]`. -/
theorem node_fade_after_writes :
    ∃ cb1, (Node.init 2 : Node ℚ).buffer.toCircularBuffer.writeAll
        ((List.range 130).map (fun j : Nat => (j : ℚ))) = some cb1 ∧
      ({ toCircularBuffer := cb1, readIndex := 125 } : CrossFadeBuffer ℚ).fade 125 2
        = some ([2, 3], { toCircularBuffer := cb1, readIndex := 125 }) := by
  have hsz : (Node.init 2 : Node ℚ).buffer.toCircularBuffer.getSize = 2 ^ 13 :=
    List.length_replicate _ _
  obtain ⟨cb1, out, h1, h2, h3, h4⟩ := CrossFadeBuffer.fade_after_writes
    (Node.init 2 : Node ℚ).buffer.toCircularBuffer 13 (by norm_num) hsz
    (by rw [hsz]; show 0 < 2 ^ 13; norm_num)
    ((List.range 130).map (fun j : Nat => (j : ℚ))) 125 2
    (by rw [hsz]; simp)
  refine ⟨cb1, h1, ?_⟩
  have hout : out = [2, 3] := by
    apply List.ext_getElem?
    intro i
    by_cases hi : i < 2
    · rw [h4 i hi]
      interval_cases i
      · simp
      · simp
    · rw [List.getElem?_eq_none (by omega), List.getElem?_eq_none (by simp; omega)]
  rw [← hout]
  exact h2

/-! ## The feedback matrix: columns and sums of squares -/

/-- The columns of the sign matrix are orthogonal, like its rows. -/
theorem signMatrix_columns (j k : Fin 8) :
    (∑ i, signMatrix i j * signMatrix i k) = if j = k then 8 else 0 := by
  rw [Fin.sum_univ_eight]
  fin_cases j <;> fin_cases k <;> rfl

/-- A matrix of integers whose rows are orthogonal with squared length 8 multiplies the sum of
squares of a vector, applied along its columns, by 8. -/
theorem sum_sq_of_orthogonal (a : Fin 8 → Fin 8 → Int)
    (h : ∀ j l : Fin 8, (∑ k, a j k * a l k) = if j = l then 8 else 0) (x : Fin 8 → ℝ) :
    (∑ k, (∑ j, (a j k : ℝ) * x j) ^ 2) = 8 * ∑ j, x j ^ 2 := by
  have hsq : ∀ k, (∑ j, (a j k : ℝ) * x j) ^ 2
      = ∑ j, ∑ l, ((a j k : ℝ) * (a l k : ℝ)) * (x j * x l) := by
    intro k
    rw [sq, Finset.sum_mul_sum]
    refine Finset.sum_congr rfl (fun j _ => Finset.sum_congr rfl (fun l _ => ?_))
    ring
  have hR : ∀ j l : Fin 8, (∑ k, (a j k : ℝ) * (a l k : ℝ)) = if j = l then 8 else 0 := by
    intro j l
    have := h j l
    have h2 : ((∑ k, a j k * a l k : Int) : ℝ) = ((if j = l then 8 else 0 : Int) : ℝ) := by
      rw [this]
    push_cast at h2
    rw [h2]
  simp only [hsq]
  rw [Finset.sum_comm]
  have hj : ∀ j, (∑ k, ∑ l, ((a j k : ℝ) * (a l k : ℝ)) * (x j * x l)) = 8 * x j ^ 2 := by
    intro j
    rw [Finset.sum_comm]
    have hl : ∀ l, (∑ k, ((a j k : ℝ) * (a l k : ℝ)) * (x j * x l))
        = (if j = l then 8 else 0) * (x j * x l) := by
      intro l
      rw [← Finset.sum_mul, hR]
    simp only [hl, ite_mul, zero_mul, Finset.sum_ite_eq, Finset.mem_univ, if_true]
    ring
  simp only [hj]
  rw [Finset.mul_sum]

/-! ## The reverb: the gain of a node at a constant input -/

/-- The constant `0.353553390593274` of the source is `1/√8` to fifteen decimal places. -/
theorem one_over_sqrt8_literal :
    |ONE_OVER_SQRT8 ℝ - 1 / Real.sqrt 8| < 1 / 10 ^ 15 := by
  have hs : (0 : ℝ) < Real.sqrt 8 := Real.sqrt_pos.2 (by norm_num)
  have hsq : Real.sqrt 8 * Real.sqrt 8 = 8 := Real.mul_self_sqrt (by norm_num)
  have h1 : (282842712474619 / 100000000000000 : ℝ) < Real.sqrt 8 := by
    rw [Real.lt_sqrt (by norm_num)]
    norm_num
  have h2 : Real.sqrt 8 < (282842712474620 / 100000000000000 : ℝ) := by
    rw [Real.sqrt_lt' (by norm_num)]
    norm_num
  have h3 : 1 / Real.sqrt 8 < ONE_OVER_SQRT8 ℝ := by
    unfold ONE_OVER_SQRT8
    rw [div_lt_iff₀ hs]
    nlinarith
  have h4 : ONE_OVER_SQRT8 ℝ < 1 / Real.sqrt 8 + 1 / 10 ^ 15 := by
    unfold ONE_OVER_SQRT8
    rw [← sub_lt_iff_lt_add, lt_div_iff₀ hs]
    nlinarith
  rw [abs_lt]
  constructor <;> linarith

/-- The sum of squares of the node inputs when every node output is scaled by `g` before it
goes through the sign matrix. -/
theorem sum_sq_feedback (g : ℝ) (v : Fin 8 → ℝ) :
    (∑ k, (g * ∑ j, (signMatrix k j : ℝ) * v j) ^ 2) = 8 * g ^ 2 * ∑ j, v j ^ 2 := by
  have h := sum_sq_of_orthogonal (fun j k => signMatrix k j)
    (fun j l => signMatrix_columns j l) v
  simp only [mul_pow]
  rw [← Finset.mul_sum, h]
  ring

/-! ## The reverb: the coefficients of a node computed in `float` -/

section SetFl

variable {K : Type} [LinearOrderedField K] [FloorRing K]

theorem Node.setFl_id (expf : K → K) (table : List Nat) (nd : Node K) (beta x c : K) :
    nd.setFl (fun _ y => y) expf table beta x c = nd.set expf table beta x c := rfl

/-- What `setFl` leaves whenever it returns. -/
theorem Node.setFl_of_some (fl : Nat → K → K) (expf : K → K) (table : List Nat)
    (nd nd1 : Node K) (beta x c : K) (h : nd.setFl fl expf table beta x c = some nd1) :
    ∃ (n : Int) (p : Nat), floatToInt x = some n ∧
      FindNearestPrime table (toUInt16 n) = some p ∧
      nd1.a1 = fl 0 ((p : K) * c) ∧
      nd1.b0 = fl 6 (fl 5 (fl 3 (fl 2 (ONE_OVER_SQRT8 K) * expf (fl 1 (beta * (p : K))))
        * fl 4 (nd1.a1 - 1))) := by
  unfold Node.setFl at h
  split at h
  · exact absurd h (by simp)
  · rename_i n hn
    split at h
    · exact absurd h (by simp)
    · rename_i p hp
      dsimp only at h
      split at h
      · exact absurd h (by simp)
      · simp only [Option.some.injEq] at h
        refine ⟨n, p, hn, hp, ?_, ?_⟩
        · rw [← h]
        · rw [← h]

theorem Node.setFl_spec (fl : Nat → K → K) (expf : K → K) (table : List Nat)
    (ht : IsPrimeTable table) (nd : Node K)
    (beta x c : K) (hx1 : 127 ≤ x) (hx2 : x ≤ 7552) (hL : nd.result.length ≤ 127) :
    ∃ p, FindNearestPrime table (Int.floor x).toNat = some p ∧ p.Prime ∧ 127 ≤ p ∧
      p ≤ (Int.floor x).toNat ∧
      nd.setFl fl expf table beta x c = some { nd with
        delay_samples := p - nd.result.length
        a1 := fl 0 ((p : K) * c)
        b0 := fl 6 (fl 5 (fl 3 (fl 2 (ONE_OVER_SQRT8 K) * expf (fl 1 (beta * (p : K))))
          * fl 4 (fl 0 ((p : K) * c) - 1))) } := by
  obtain ⟨b1, b2, b3⟩ := floor_toNat_bounds hx1 hx2
  obtain ⟨p, a1, a2, a3, a4⟩ := findNearestPrime_spec table ht (Int.floor x).toNat (by omega)
    (by unfold PRIME_NUMBER_TABLE_SIZE; omega)
  have hp127 : 127 ≤ p := a4 127 prime_127 b1
  refine ⟨p, a1, a2, hp127, a3, ?_⟩
  unfold Node.setFl
  rw [floatToInt_of_range (by linarith) (by linarith)]
  simp only []
  rw [toUInt16_of_range b3 (by omega), a1]
  simp only []
  rw [floatToSize_sub p nd.result.length (by omega) (by omega)]

/-- The roundings of `set` in the code have a relative error of at most `2^-24`. -/
theorem Node.setRounding_isRounding : IsRounding (1 / 2 ^ 24 : K) Node.setRounding := by
  have h64 : ∀ x : K, |round64 x - x| ≤ 1 / 2 ^ 24 * |x| := by
    intro x
    have h := round64_sub_le x
    have h2 : (1 : K) / 2 ^ 53 * |x| ≤ 1 / 2 ^ 24 * |x| :=
      mul_le_mul_of_nonneg_right (by norm_num) (abs_nonneg x)
    linarith
  intro n x
  unfold Node.setRounding
  split
  · exact h64 x
  · exact h64 x
  · exact h64 x
  · exact round32_sub_le x

end SetFl

theorem isRounding_abs_le {K : Type} [LinearOrderedField K] {u : K} {fl : Nat → K → K}
    (hfl : IsRounding u fl) (n : Nat) (x : K) : |fl n x| ≤ (1 + u) * |x| := by
  have h := hfl n x
  have h2 : |fl n x| ≤ |fl n x - x| + |x| := by
    have := abs_add (fl n x - x) x
    simpa using this
  linarith

/-- A number just below 1 rounds to the `float` 1. -/
theorem round32_near_one (y : ℝ) (h1 : 1 - 1 / 2 ^ 26 ≤ y) (h2 : y < 1) : round32 y = 1 := by
  have e : y / (2 : ℝ) ^ (-24 : Int) = y * 16777216 := by
    rw [zpow_neg, div_inv_eq_mul]
    norm_num
  have h := round32_eq y (-24) (16777215 + 1)
    (by norm_num; linarith) (by norm_num; linarith)
    (roundHalfEven_of_gt _ 16777215
      (by rw [e]; push_cast; linarith)
      (by rw [e]; push_cast; norm_num at h1 ⊢; linarith))
  rw [h]
  norm_num

/-- The correctly rounded `float` exponential is 1 at `-127 * 2^-60`. -/
theorem round32_exp_small : round32 (Real.exp (-127 / 1152921504606846976)) = 1 := by
  apply round32_near_one
  · have := Real.add_one_le_exp (-127 / 1152921504606846976 : ℝ)
    norm_num at this ⊢
    linarith
  · rw [Real.exp_lt_one_iff]
    norm_num

/-- The coefficients that `set` computes in `float` for `beta = -2^-60`, the prime length 127
and `fCutoffCoef = 1/512`. -/
theorem Node.setFl_example :
    (Node.init 2 : Node ℝ).setFl Node.setRounding (fun x => round32 (Real.exp x))
        primeNumberTable (-(1 / 2 ^ 60)) 127 (1 / 512)
      = some { (Node.init 2 : Node ℝ) with
          delay_samples := 125
          a1 := 127 / 512
          b0 := -8920633 / 33554432 } := by
  have s0 : round32 (127 * (1 / 512) : ℝ) = 127 / 512 := by
    have h := round32_eq (127 * (1 / 512) : ℝ) (-26) (16646144)
      (by norm_num) (by norm_num)
      (roundHalfEven_of_lt _ (16646144) (by norm_num)
        (by norm_num))
    rw [h]
    norm_num
  have s1 : round32 (-(1 / 2 ^ 60) * 127 : ℝ) = -127 / 1152921504606846976 := by
    have h := round32_eq_of_neg (-(1 / 2 ^ 60) * 127 : ℝ) (-77) (-16646144)
      (by norm_num) (by norm_num)
      (roundHalfEven_of_lt _ (-16646144) (by norm_num)
        (by norm_num))
    rw [h]
    norm_num
  have s2 : round64 (ONE_OVER_SQRT8 ℝ : ℝ)
      = 6369051672525777 / 18014398509481984 := by
    have h := round64_eq (ONE_OVER_SQRT8 ℝ : ℝ) (-54) (6369051672525776 + 1)
      (by unfold ONE_OVER_SQRT8; norm_num) (by unfold ONE_OVER_SQRT8; norm_num)
      (roundHalfEven_of_gt _ (6369051672525776) (by unfold ONE_OVER_SQRT8; norm_num)
        (by unfold ONE_OVER_SQRT8; norm_num))
    rw [h]
    norm_num
  have s3 : round64 (6369051672525777 / 18014398509481984 * 1 : ℝ)
      = 6369051672525777 / 18014398509481984 := by
    have h := round64_eq (6369051672525777 / 18014398509481984 * 1 : ℝ) (-54)
      (6369051672525777)
      (by norm_num) (by norm_num)
      (roundHalfEven_of_lt _ (6369051672525777) (by norm_num)
        (by norm_num))
    rw [h]
    norm_num
  have s4 : round32 (127 / 512 - 1 : ℝ) = -385 / 512 := by
    have h := round32_eq_of_neg (127 / 512 - 1 : ℝ) (-24) (-12615680)
      (by norm_num) (by norm_num)
      (roundHalfEven_of_lt _ (-12615680) (by norm_num)
        (by norm_num))
    rw [h]
    norm_num
  have s5 : round64 (6369051672525777 / 18014398509481984 * (-385 / 512) : ℝ)
      = -4789228308442235 / 18014398509481984 := by
    have h := round64_eq_of_neg (6369051672525777 / 18014398509481984 * (-385 / 512) : ℝ)
      (-54) (-4789228308442235)
      (by norm_num) (by norm_num)
      (roundHalfEven_of_lt _ (-4789228308442235) (by norm_num)
        (by norm_num))
    rw [h]
    norm_num
  have s6 : round32 (-4789228308442235 / 18014398509481984 : ℝ) = -8920633 / 33554432 := by
    have h := round32_eq_of_neg (-4789228308442235 / 18014398509481984 : ℝ) (-25) (-8920633)
      (by norm_num) (by norm_num)
      (roundHalfEven_of_lt _ (-8920633) (by norm_num)
        (by norm_num))
    rw [h]
    norm_num
  obtain ⟨p, _, _, a3, a4, a5⟩ := Node.setFl_spec Node.setRounding
    (fun x => round32 (Real.exp x)) primeNumberTable
    primeNumberTable_isPrimeTable (Node.init 2 : Node ℝ) (-(1 / 2 ^ 60)) 127 (1 / 512)
    (le_refl _) (by norm_num) (by simp [Node.init])
  have hfl : (Int.floor (127 : ℝ)).toNat = 127 := by
    have : Int.floor (127 : ℝ) = 127 := by
      rw [Int.floor_eq_iff]
      norm_num
    rw [this]
    rfl
  have hp : p = 127 := by rw [hfl] at a4; omega
  subst hp
  rw [a5]
  have hL : (Node.init 2 : Node ℝ).result.length = 2 := by simp [Node.init]
  have e0 : Node.setRounding 0 (((127 : Nat) : ℝ) * (1 / 512)) = 127 / 512 := by
    show round32 (((127 : Nat) : ℝ) * (1 / 512)) = 127 / 512
    push_cast
    exact s0
  have e1 : Node.setRounding 1 (-(1 / 2 ^ 60) * ((127 : Nat) : ℝ))
      = -127 / 1152921504606846976 := by
    show round32 (-(1 / 2 ^ 60) * ((127 : Nat) : ℝ)) = -127 / 1152921504606846976
    push_cast
    exact s1
  have e2 : Node.setRounding 2 (ONE_OVER_SQRT8 ℝ) = 6369051672525777 / 18014398509481984 := s2
  have e3 : Node.setRounding 3 ((6369051672525777 / 18014398509481984 : ℝ) * 1)
      = 6369051672525777 / 18014398509481984 := s3
  have e4 : Node.setRounding 4 ((127 / 512 : ℝ) - 1) = -385 / 512 := s4
  have e5 : Node.setRounding 5 ((6369051672525777 / 18014398509481984 : ℝ) * (-385 / 512))
      = -4789228308442235 / 18014398509481984 := s5
  have e6 : Node.setRounding 6 (-4789228308442235 / 18014398509481984 : ℝ)
      = -8920633 / 33554432 := s6
  rw [e0, e1, e2, round32_exp_small, e3, e4, e5, e6, hL]

/-- The bound on the gain `(1 + u)^6 * ONE_OVER_SQRT8 * E` of a node whose coefficients carry
six roundings of relative error `u ≤ 2^-20`, for a decay `E` at or below
`exp(-10^-4 * (1 - 2^-20))`. -/
theorem rounded_gain_sq_lt (u E : ℝ) (hu0 : 0 ≤ u) (hu : u ≤ 1 / 2 ^ 20) (hE0 : 0 ≤ E)
    (hE : E * (1 + 1 / 10000 * (1 - 1 / 2 ^ 20)) ≤ 1) :
    8 * ((1 + u) ^ 6 * ONE_OVER_SQRT8 ℝ * E) ^ 2 < 1 := by
  have hU6 : (1 + u) ^ 6 ≤ (1 + 1 / 2 ^ 20) ^ 6 := pow_le_pow_left₀ (by linarith) (by linarith) 6
  have hU0 : 0 ≤ (1 + u) ^ 6 := pow_nonneg (by linarith) 6
  have hC0 : 0 ≤ ONE_OVER_SQRT8 ℝ := by unfold ONE_OVER_SQRT8; norm_num
  have hW : (0 : ℝ) < 1 + 1 / 10000 * (1 - 1 / 2 ^ 20) := by norm_num
  have h1 : (1 + u) ^ 6 * ONE_OVER_SQRT8 ℝ * E * (1 + 1 / 10000 * (1 - 1 / 2 ^ 20))
      ≤ (1 + 1 / 2 ^ 20) ^ 6 * ONE_OVER_SQRT8 ℝ := by
    have h2 : (1 + u) ^ 6 * ONE_OVER_SQRT8 ℝ * (E * (1 + 1 / 10000 * (1 - 1 / 2 ^ 20)))
        ≤ (1 + u) ^ 6 * ONE_OVER_SQRT8 ℝ * 1 :=
      mul_le_mul_of_nonneg_left hE (mul_nonneg hU0 hC0)
    have h3 : (1 + u) ^ 6 * ONE_OVER_SQRT8 ℝ ≤ (1 + 1 / 2 ^ 20) ^ 6 * ONE_OVER_SQRT8 ℝ :=
      mul_le_mul_of_nonneg_right hU6 hC0
    linarith
  have h0 : 0 ≤ (1 + u) ^ 6 * ONE_OVER_SQRT8 ℝ * E * (1 + 1 / 10000 * (1 - 1 / 2 ^ 20)) :=
    mul_nonneg (mul_nonneg (mul_nonneg hU0 hC0) hE0) hW.le
  have h4 : ((1 + u) ^ 6 * ONE_OVER_SQRT8 ℝ * E * (1 + 1 / 10000 * (1 - 1 / 2 ^ 20))) ^ 2
      ≤ ((1 + 1 / 2 ^ 20) ^ 6 * ONE_OVER_SQRT8 ℝ) ^ 2 := pow_le_pow_left₀ h0 h1 2
  have h5 : 8 * ((1 + 1 / 2 ^ 20 : ℝ) ^ 6 * ONE_OVER_SQRT8 ℝ) ^ 2
      < (1 + 1 / 10000 * (1 - 1 / 2 ^ 20)) ^ 2 := by
    unfold ONE_OVER_SQRT8
    norm_num
  have h6 : ((1 + u) ^ 6 * ONE_OVER_SQRT8 ℝ * E * (1 + 1 / 10000 * (1 - 1 / 2 ^ 20))) ^ 2
      = ((1 + u) ^ 6 * ONE_OVER_SQRT8 ℝ * E) ^ 2 * (1 + 1 / 10000 * (1 - 1 / 2 ^ 20)) ^ 2 := by
    ring
  have hW2 : (0 : ℝ) < (1 + 1 / 10000 * (1 - 1 / 2 ^ 20)) ^ 2 := by positivity
  have h7 : 8 * ((1 + u) ^ 6 * ONE_OVER_SQRT8 ℝ * E) ^ 2
      * (1 + 1 / 10000 * (1 - 1 / 2 ^ 20)) ^ 2
      < 1 * (1 + 1 / 10000 * (1 - 1 / 2 ^ 20)) ^ 2 := by
    rw [h6] at h4
    linarith
  exact lt_of_mul_lt_mul_right h7 hW2.le

/-- The decay `exp(t)` for an exponent at or below `-10^-4 * (1 - 2^-20)`. -/
theorem exp_margin (t : ℝ) (ht : t ≤ -(1 / 10000 * (1 - 1 / 2 ^ 20))) :
    Real.exp t * (1 + 1 / 10000 * (1 - 1 / 2 ^ 20)) ≤ 1 := by
  have h5 : Real.exp t ≤ Real.exp (-(1 / 10000 * (1 - 1 / 2 ^ 20))) := Real.exp_le_exp.2 ht
  have h6 : (1 : ℝ) + 1 / 10000 * (1 - 1 / 2 ^ 20)
      ≤ Real.exp (1 / 10000 * (1 - 1 / 2 ^ 20)) := by
    have := Real.add_one_le_exp (1 / 10000 * (1 - 1 / 2 ^ 20) : ℝ)
    linarith
  have h7 : Real.exp (-(1 / 10000 * (1 - 1 / 2 ^ 20)))
      * Real.exp (1 / 10000 * (1 - 1 / 2 ^ 20)) = 1 := by
    rw [← Real.exp_add]
    simp
  calc Real.exp t * (1 + 1 / 10000 * (1 - 1 / 2 ^ 20))
      ≤ Real.exp (-(1 / 10000 * (1 - 1 / 2 ^ 20)))
          * Real.exp (1 / 10000 * (1 - 1 / 2 ^ 20)) :=
        mul_le_mul h5 h6 (by norm_num) (Real.exp_pos _).le
    _ = 1 := h7

/-- The magnitude of the coefficient `b0` computed with six roundings, against `1 - a1`. -/
theorem rounded_b0_abs_le (u : ℝ) (fl : Nat → ℝ → ℝ) (expf : ℝ → ℝ) (hu0 : 0 ≤ u)
    (hfl : IsRounding u fl) (t a : ℝ) (be : |expf t| ≤ (1 + u) * Real.exp t) (ha : a < 1) :
    |fl 6 (fl 5 (fl 3 (fl 2 (ONE_OVER_SQRT8 ℝ) * expf t) * fl 4 (a - 1)))|
      ≤ (1 + u) ^ 6 * ONE_OVER_SQRT8 ℝ * Real.exp t * (1 - a) := by
  have hC0 : 0 < ONE_OVER_SQRT8 ℝ := by unfold ONE_OVER_SQRT8; norm_num
  have hU : 0 ≤ 1 + u := by linarith
  have hE0 := Real.exp_pos t
  have b2 : |fl 2 (ONE_OVER_SQRT8 ℝ)| ≤ (1 + u) * ONE_OVER_SQRT8 ℝ := by
    have := isRounding_abs_le hfl 2 (ONE_OVER_SQRT8 ℝ)
    rwa [abs_of_pos hC0] at this
  have b4 : |fl 4 (a - 1)| ≤ (1 + u) * (1 - a) := by
    have h := isRounding_abs_le hfl 4 (a - 1)
    have h2 : |a - 1| = 1 - a := by rw [abs_of_neg (by linarith), neg_sub]
    rw [h2] at h
    exact h
  have b3 : |fl 3 (fl 2 (ONE_OVER_SQRT8 ℝ) * expf t)|
      ≤ (1 + u) * ((1 + u) * ONE_OVER_SQRT8 ℝ * ((1 + u) * Real.exp t)) := by
    have h := isRounding_abs_le hfl 3 (fl 2 (ONE_OVER_SQRT8 ℝ) * expf t)
    rw [abs_mul] at h
    have h2 : |fl 2 (ONE_OVER_SQRT8 ℝ)| * |expf t|
        ≤ (1 + u) * ONE_OVER_SQRT8 ℝ * ((1 + u) * Real.exp t) :=
      mul_le_mul b2 be (abs_nonneg _) (mul_nonneg hU hC0.le)
    calc |fl 3 (fl 2 (ONE_OVER_SQRT8 ℝ) * expf t)|
        ≤ (1 + u) * (|fl 2 (ONE_OVER_SQRT8 ℝ)| * |expf t|) := h
      _ ≤ (1 + u) * ((1 + u) * ONE_OVER_SQRT8 ℝ * ((1 + u) * Real.exp t)) :=
        mul_le_mul_of_nonneg_left h2 hU
  have b5 : |fl 5 (fl 3 (fl 2 (ONE_OVER_SQRT8 ℝ) * expf t) * fl 4 (a - 1))|
      ≤ (1 + u) * ((1 + u) * ((1 + u) * ONE_OVER_SQRT8 ℝ * ((1 + u) * Real.exp t))
        * ((1 + u) * (1 - a))) := by
    have h := isRounding_abs_le hfl 5 (fl 3 (fl 2 (ONE_OVER_SQRT8 ℝ) * expf t) * fl 4 (a - 1))
    rw [abs_mul] at h
    have h2 : |fl 3 (fl 2 (ONE_OVER_SQRT8 ℝ) * expf t)| * |fl 4 (a - 1)|
        ≤ (1 + u) * ((1 + u) * ONE_OVER_SQRT8 ℝ * ((1 + u) * Real.exp t))
          * ((1 + u) * (1 - a)) :=
      mul_le_mul b3 b4 (abs_nonneg _)
        (mul_nonneg hU (mul_nonneg (mul_nonneg hU hC0.le) (mul_nonneg hU hE0.le)))
    calc |fl 5 (fl 3 (fl 2 (ONE_OVER_SQRT8 ℝ) * expf t) * fl 4 (a - 1))|
        ≤ (1 + u) * (|fl 3 (fl 2 (ONE_OVER_SQRT8 ℝ) * expf t)| * |fl 4 (a - 1)|) := h
      _ ≤ _ := mul_le_mul_of_nonneg_left h2 hU
  have b6 := isRounding_abs_le hfl 6
    (fl 5 (fl 3 (fl 2 (ONE_OVER_SQRT8 ℝ) * expf t) * fl 4 (a - 1)))
  calc |fl 6 (fl 5 (fl 3 (fl 2 (ONE_OVER_SQRT8 ℝ) * expf t) * fl 4 (a - 1)))|
      ≤ (1 + u) * |fl 5 (fl 3 (fl 2 (ONE_OVER_SQRT8 ℝ) * expf t) * fl 4 (a - 1))| := b6
    _ ≤ (1 + u) * ((1 + u) * ((1 + u) * ((1 + u) * ONE_OVER_SQRT8 ℝ * ((1 + u) * Real.exp t))
        * ((1 + u) * (1 - a)))) := mul_le_mul_of_nonneg_left b5 hU
    _ = (1 + u) ^ 6 * ONE_OVER_SQRT8 ℝ * Real.exp t * (1 - a) := by ring

/-- The gain of a node computed in `float`: for `a1 < 1` and `beta * p ≤ -10^-4` the number
`b0 / (1 - a1)` has a square below `1/8`. -/
theorem rounded_gain_lt (u : ℝ) (fl : Nat → ℝ → ℝ) (expf : ℝ → ℝ) (hu0 : 0 ≤ u)
    (hu : u ≤ 1 / 2 ^ 20) (hfl : IsRounding u fl)
    (hexp : ∀ x : ℝ, x ≤ 0 → |expf x| ≤ (1 + u) * Real.exp x)
    (x a : ℝ) (ha : a < 1) (hx : x ≤ -(1 / 10000)) :
    8 * (fl 6 (fl 5 (fl 3 (fl 2 (ONE_OVER_SQRT8 ℝ) * expf (fl 1 x)) * fl 4 (a - 1)))
      / (1 - a)) ^ 2 < 1 := by
  have hD : 0 < 1 - a := by linarith
  have ht : fl 1 x ≤ -(1 / 10000 * (1 - 1 / 2 ^ 20)) := by
    have h := hfl 1 x
    have hx0 : x < 0 := by linarith
    rw [abs_of_neg hx0, abs_le] at h
    have h1 : fl 1 x ≤ x * (1 - u) := by linarith [h.2]
    have h2 : x * (1 - u) ≤ -(1 / 10000) * (1 - u) :=
      mul_le_mul_of_nonneg_right hx (by linarith [show (1 : ℝ) / 2 ^ 20 < 1 by norm_num])
    have h3 : -(1 / 10000 : ℝ) * (1 - u) ≤ -(1 / 10000 * (1 - 1 / 2 ^ 20)) := by
      nlinarith
    linarith
  have hb := rounded_b0_abs_le u fl expf hu0 hfl (fl 1 x) a
    (hexp _ (by linarith [show (0 : ℝ) ≤ 1 / 10000 * (1 - 1 / 2 ^ 20) by norm_num])) ha
  have hg : |fl 6 (fl 5 (fl 3 (fl 2 (ONE_OVER_SQRT8 ℝ) * expf (fl 1 x)) * fl 4 (a - 1)))
      / (1 - a)| ≤ (1 + u) ^ 6 * ONE_OVER_SQRT8 ℝ * Real.exp (fl 1 x) := by
    rw [abs_div, abs_of_pos hD, div_le_iff₀ hD]
    exact hb
  have hsq : (fl 6 (fl 5 (fl 3 (fl 2 (ONE_OVER_SQRT8 ℝ) * expf (fl 1 x)) * fl 4 (a - 1)))
      / (1 - a)) ^ 2 ≤ ((1 + u) ^ 6 * ONE_OVER_SQRT8 ℝ * Real.exp (fl 1 x)) ^ 2 := by
    rw [← sq_abs]
    exact pow_le_pow_left₀ (abs_nonneg _) hg 2
  have hlt := rounded_gain_sq_lt u (Real.exp (fl 1 x)) hu0 hu (Real.exp_pos _).le
    (exp_margin _ ht)
  linarith

/-- A gain whose square is below `1/8` is below `1/√8` in magnitude and does not increase the
sum of squares through the sign matrix. -/
theorem gain_of_sq_lt (g : ℝ) (h : 8 * g ^ 2 < 1) :
    |g| < 1 / Real.sqrt 8 ∧
    ∀ v : Fin 8 → ℝ, (∑ k, (g * ∑ j, (signMatrix k j : ℝ) * v j) ^ 2) ≤ ∑ j, v j ^ 2 := by
  have hs : (0 : ℝ) < Real.sqrt 8 := Real.sqrt_pos.2 (by norm_num)
  have hsq : Real.sqrt 8 * Real.sqrt 8 = 8 := Real.mul_self_sqrt (by norm_num)
  constructor
  · rw [lt_div_iff₀ hs]
    by_contra hc
    push_neg at hc
    have h0 : 0 ≤ |g| := abs_nonneg g
    have h1 : 1 ≤ (|g| * Real.sqrt 8) ^ 2 := by nlinarith
    have h2 : (|g| * Real.sqrt 8) ^ 2 = 8 * g ^ 2 := by
      rw [mul_pow, sq_abs, sq (Real.sqrt 8), hsq]
      ring
    linarith
  · intro v
    have hv : 0 ≤ ∑ j, v j ^ 2 := Finset.sum_nonneg (fun j _ => sq_nonneg (v j))
    rw [sum_sq_feedback]
    calc 8 * g ^ 2 * ∑ j, v j ^ 2 ≤ 1 * ∑ j, v j ^ 2 :=
          mul_le_mul_of_nonneg_right h.le hv
      _ = ∑ j, v j ^ 2 := one_mul _

/-- The fixed point of the recurrence `y = b0 * x + a1 * y` for `a1 < 1`. -/
theorem fixed_point_iff (b0 a1 : ℝ) (h : a1 < 1) (x y : ℝ) :
    y = b0 * x + a1 * y ↔ y = b0 / (1 - a1) * x := by
  have hne : (1 - a1) ≠ 0 := by linarith
  constructor
  · intro hy
    field_simp
    linarith
  · intro hy
    have : y * (1 - a1) = b0 * x := by
      rw [hy]
      field_simp
    linarith

/-- The value of `beta * p` in `processAudio`: for a reverb time of at most
`MAX_REVERB_TIME = 16` seconds, a sample rate of at most 500 kHz and a prime length of at least
127 it is below `-10^-4`. -/
theorem betaOf_mul_le (inp : BlockInput ℝ) (p : Nat) (ht0 : 0 < inp.time) (ht : inp.time ≤ 16)
    (hr0 : 0 < inp.sampleRate) (hr : inp.sampleRate ≤ 500000) (hp : 127 ≤ p) :
    betaOf inp * (p : ℝ) ≤ -(1 / 10000) := by
  unfold betaOf reverbTimeSamples
  have hp2 : (127 : ℝ) ≤ p := by exact_mod_cast hp
  have hT : 0 < inp.time * inp.sampleRate := mul_pos ht0 hr0
  have hT2 : inp.time * inp.sampleRate ≤ 16 * 500000 :=
    mul_le_mul ht hr hr0.le (by norm_num)
  rw [neg_div, neg_mul, neg_le_neg_iff, div_mul_eq_mul_div, le_div_iff₀ hT]
  nlinarith

/-- Claim C21, amended: in exact arithmetic, whenever `set(beta, d, c)` returns, with `p` the
prime length, `b0 = ONE_OVER_SQRT8 * exp(beta * p) * (a1 - 1)`, and if `a1 < 1` the recurrence
`y = b0 * x + a1 * y` has for a constant input `x` the single fixed point
`y = -ONE_OVER_SQRT8 * exp(beta * p) * x`. For the coefficients computed in `float`, every
operation having a relative error of at most `u ≤ 2^-20` and `expf(x) ≤ (1 + u) * exp(x)` for
`x ≤ 0`: if `a1 < 1` and `beta * p ≤ -10^-4`, the single fixed point is
`y = (b0 / (1 - a1)) * x`, this gain has magnitude strictly below `1/√8`, and through the sign
matrix it does not increase the sum of squares. The call returns for a prime table,
`127 ≤ d ≤ 7552` and a result of at most 127 samples. -/
theorem node_set_dc_gain (u : ℝ) (fl : Nat → ℝ → ℝ) (expf : ℝ → ℝ) (hu0 : 0 ≤ u)
    (hu : u ≤ 1 / 2 ^ 20) (hfl : IsRounding u fl)
    (hexp : ∀ x : ℝ, x ≤ 0 → |expf x| ≤ (1 + u) * Real.exp x)
    (table : List Nat) (nd : Node ℝ) (beta d c : ℝ) :
    (∀ nd1 : Node ℝ, nd.set Real.exp table beta d c = some nd1 → ∃ (n : Int) (p : Nat),
      floatToInt d = some n ∧ FindNearestPrime table (toUInt16 n) = some p ∧
      nd1.a1 = (p : ℝ) * c ∧
      nd1.b0 = ONE_OVER_SQRT8 ℝ * Real.exp (beta * (p : ℝ)) * (nd1.a1 - 1) ∧
      (nd1.a1 < 1 → ∀ x y : ℝ, (y = nd1.b0 * x + nd1.a1 * y
        ↔ y = -(ONE_OVER_SQRT8 ℝ * Real.exp (beta * (p : ℝ))) * x))) ∧
    (∀ nd1 : Node ℝ, nd.setFl fl expf table beta d c = some nd1 → ∃ (n : Int) (p : Nat),
      floatToInt d = some n ∧ FindNearestPrime table (toUInt16 n) = some p ∧
      nd1.a1 = fl 0 ((p : ℝ) * c) ∧
      (nd1.a1 < 1 → beta * (p : ℝ) ≤ -(1 / 10000) →
        (∀ x y : ℝ, (y = nd1.b0 * x + nd1.a1 * y ↔ y = nd1.b0 / (1 - nd1.a1) * x)) ∧
        |nd1.b0 / (1 - nd1.a1)| < 1 / Real.sqrt 8 ∧
        ∀ v : Fin 8 → ℝ,
          (∑ k, (nd1.b0 / (1 - nd1.a1) * ∑ j, (signMatrix k j : ℝ) * v j) ^ 2)
            ≤ ∑ j, v j ^ 2)) ∧
    (IsPrimeTable table → 127 ≤ d → d ≤ 7552 → nd.result.length ≤ 127 →
      ∃ (nd1 nd2 : Node ℝ) (p : Nat), nd.set Real.exp table beta d c = some nd1 ∧
        nd.setFl fl expf table beta d c = some nd2 ∧ p.Prime ∧ 127 ≤ p ∧
        FindNearestPrime table (Int.floor d).toNat = some p ∧
        nd1.a1 = (p : ℝ) * c ∧ nd2.a1 = fl 0 ((p : ℝ) * c)) := by
  refine ⟨?_, ?_, ?_⟩
  · intro nd1 h
    obtain ⟨n, p, h1, h2, h3, h4⟩ := Node.set_of_some Real.exp table nd nd1 beta d c h
    refine ⟨n, p, h1, h2, h3, h4, ?_⟩
    intro ha x y
    rw [h4]
    constructor
    · intro hy
      have hne : (1 - nd1.a1) ≠ 0 := by linarith
      apply mul_left_cancel₀ hne
      linarith
    · intro hy
      rw [hy]
      ring
  · intro nd1 h
    obtain ⟨n, p, h1, h2, h3, h4⟩ := Node.setFl_of_some fl expf table nd nd1 beta d c h
    refine ⟨n, p, h1, h2, h3, ?_⟩
    intro ha hm
    have hg : 8 * (nd1.b0 / (1 - nd1.a1)) ^ 2 < 1 := by
      rw [h4]
      exact rounded_gain_lt u fl expf hu0 hu hfl hexp (beta * (p : ℝ)) nd1.a1 ha hm
    obtain ⟨g1, g2⟩ := gain_of_sq_lt _ hg
    exact ⟨fun x y => fixed_point_iff nd1.b0 nd1.a1 ha x y, g1, g2⟩
  · intro ht h1 h2 hL
    obtain ⟨p, a1, a2, a3, _, a5⟩ := Node.set_spec Real.exp table ht nd beta d c h1 h2 hL
    obtain ⟨q, b1, _, _, _, b5⟩ := Node.setFl_spec fl expf table ht nd beta d c h1 h2 hL
    have hq : q = p := by
      rw [a1] at b1
      exact (Option.some.inj b1).symm
    subst hq
    exact ⟨_, _, q, a5, b5, a2, a3, a1, rfl, rfl⟩

theorem round32_a1_example : round32 (((127 : Nat) : ℝ) * (1 / 512)) = 127 / 512 := by
  have h := round32_eq (((127 : Nat) : ℝ) * (1 / 512)) (-26) (16646144)
    (by norm_num) (by norm_num)
    (roundHalfEven_of_lt _ (16646144) (by norm_num) (by norm_num))
  rw [h]
  norm_num

theorem node_set_dc_gain_witness :
    ∃ (nd2 : Node ℝ),
      (Node.init 2 : Node ℝ).setFl Node.setRounding (fun x => round32 (Real.exp x))
        primeNumberTable (-(1 / 1024)) 127 (1 / 512) = some nd2 ∧
      nd2.a1 = 127 / 512 ∧
      (∀ x y : ℝ, (y = nd2.b0 * x + nd2.a1 * y ↔ y = nd2.b0 / (1 - nd2.a1) * x)) ∧
      |nd2.b0 / (1 - nd2.a1)| < 1 / Real.sqrt 8 ∧
      ∀ v : Fin 8 → ℝ,
        (∑ k, (nd2.b0 / (1 - nd2.a1) * ∑ j, (signMatrix k j : ℝ) * v j) ^ 2)
          ≤ ∑ j, v j ^ 2 := by
  have hexp : ∀ x : ℝ, x ≤ 0 → |(fun x => round32 (Real.exp x)) x|
      ≤ (1 + 1 / 2 ^ 24) * Real.exp x := by
    intro x _
    have h := isRounding_abs_le (round32_isRounding (K := ℝ)) 0 (Real.exp x)
    rwa [abs_of_pos (Real.exp_pos x)] at h
  have h := node_set_dc_gain (1 / 2 ^ 24) Node.setRounding (fun x => round32 (Real.exp x))
    (by norm_num) (by norm_num) Node.setRounding_isRounding hexp primeNumberTable
    (Node.init 2 : Node ℝ) (-(1 / 1024)) 127 (1 / 512)
  obtain ⟨nd1, nd2, p, _, h2, _, h4, h5, _, h7⟩ := h.2.2 primeNumberTable_isPrimeTable
    (le_refl _) (by norm_num) (by simp [Node.init])
  have hfl : (Int.floor (127 : ℝ)).toNat = 127 := by
    have : Int.floor (127 : ℝ) = 127 := by
      rw [Int.floor_eq_iff]
      norm_num
    rw [this]
    rfl
  obtain ⟨q, d1, d2, d3, d4⟩ := findNearestPrime_spec primeNumberTable
    primeNumberTable_isPrimeTable (Int.floor (127 : ℝ)).toNat (by rw [hfl]; norm_num)
    (by rw [hfl]; unfold PRIME_NUMBER_TABLE_SIZE; norm_num)
  have hq127 : q = 127 := by
    have := d4 127 prime_127 (by rw [hfl])
    rw [hfl] at d3
    omega
  subst hq127
  have hp : p = 127 := by
    rw [d1] at h5
    exact (Option.some.inj h5).symm
  subst hp
  have ha1 : nd2.a1 = 127 / 512 := by
    rw [h7]
    exact round32_a1_example
  obtain ⟨n, q2, e1, e2, _, e4⟩ := h.2.1 nd2 h2
  have hq2 : q2 = 127 := by
    rw [floatToInt_of_range (by norm_num) (by norm_num)] at e1
    have hn : n = Int.floor (127 : ℝ) := (Option.some.inj e1).symm
    have hn2 : toUInt16 n = (Int.floor (127 : ℝ)).toNat := by
      rw [hn]
      have : Int.floor (127 : ℝ) = 127 := by
        rw [Int.floor_eq_iff]
        norm_num
      rw [this]
      rfl
    rw [hn2, d1] at e2
    exact (Option.some.inj e2).symm
  subst hq2
  obtain ⟨f1, f2, f3⟩ := e4 (by rw [ha1]; norm_num) (by norm_num)
  exact ⟨nd2, h2, ha1, f1, f2, f3⟩

/-- Counterexample for claim C21: computed in `float`, `set` with `beta = -2^-60 < 0`, the prime
length 127 and `fCutoffCoef = 1/512` gives `a1 = 127/512 < 1` and `b0 = -8920633 / 2^25`; the
recurrence has for a constant input `x` the single fixed point `-G * x` with
`G = 8920633 / 25231360 = 0.3535533955`, which is above `1/√8 = 0.3535533906`, and through the
sign matrix the sum of squares of the node outputs grows. -/
theorem node_set_loop_gain_above_one :
    ∃ (nd1 : Node ℝ),
      (Node.init 2 : Node ℝ).setFl Node.setRounding (fun x => round32 (Real.exp x))
        primeNumberTable (-(1 / 2 ^ 60)) 127 (1 / 512) = some nd1 ∧
      nd1.a1 = 127 / 512 ∧ nd1.b0 = -8920633 / 33554432 ∧ nd1.a1 < 1 ∧
      (∀ x y : ℝ, y = nd1.b0 * x + nd1.a1 * y ↔ y = -(8920633 / 25231360) * x) ∧
      1 / Real.sqrt 8 < |-(8920633 / 25231360 : ℝ)| ∧
      ∃ v : Fin 8 → ℝ, (∑ j, v j ^ 2)
        < ∑ k, (-(8920633 / 25231360) * ∑ j, (signMatrix k j : ℝ) * v j) ^ 2 := by
  refine ⟨_, Node.setFl_example, rfl, rfl, ?_, ?_, ?_, ?_⟩
  · show (127 / 512 : ℝ) < 1
    norm_num
  · intro x y
    show y = (-8920633 / 33554432 : ℝ) * x + 127 / 512 * y ↔ _
    constructor
    · intro h
      linarith
    · intro h
      rw [h]
      ring
  · rw [abs_neg, abs_of_pos (by norm_num)]
    have hs : (0 : ℝ) < Real.sqrt 8 := Real.sqrt_pos.2 (by norm_num)
    have h1 : (25231360 / 8920633 : ℝ) < Real.sqrt 8 := by
      rw [Real.lt_sqrt (by norm_num)]
      norm_num
    rw [div_lt_iff₀ hs]
    nlinarith
  · refine ⟨fun j => if j = 0 then 1 else 0, ?_⟩
    rw [sum_sq_feedback]
    have hv : (∑ j : Fin 8, (if j = 0 then (1 : ℝ) else 0) ^ 2) = 1 := by
      simp [Fin.sum_univ_eight]
    rw [hv, mul_one, neg_sq]
    norm_num

/-! ## The feedback matrix and its transpose -/

/-- Counterexample for claim C22: the sign matrix is not symmetric; node 4 takes `x0` with the
sign `+1` while node 0 takes `x4` with the sign `-1`. -/
theorem signMatrix_not_symmetric :
    signMatrix 0 4 = -1 ∧ signMatrix 4 0 = 1 ∧
    ¬ ∀ j k : Fin 8, signMatrix j k = signMatrix k j := by
  refine ⟨by decide, by decide, ?_⟩
  intro h
  exact absurd (h 0 4) (by decide)

/-- Claim C22, amended: the sign matrix `S` of the feedback network commutes with its
transpose, `S * Sᵀ = Sᵀ * S = 8 * I`: rows and columns are orthogonal with squared length 8, so
the matrix and its transpose both give a network that multiplies the energy of the node outputs
by 8. -/
theorem signMatrix_normal :
    (∀ j k : Fin 8, (∑ i, signMatrix j i * signMatrix k i) = if j = k then 8 else 0) ∧
    (∀ j k : Fin 8, (∑ i, signMatrix i j * signMatrix i k) = if j = k then 8 else 0) ∧
    (Matrix.of signMatrix * (Matrix.of signMatrix).transpose
      = (8 : Int) • (1 : Matrix (Fin 8) (Fin 8) Int)) ∧
    ((Matrix.of signMatrix).transpose * Matrix.of signMatrix
      = (8 : Int) • (1 : Matrix (Fin 8) (Fin 8) Int)) ∧
    (∀ x : Fin 8 → ℝ, (∑ k, (∑ j, (signMatrix k j : ℝ) * x j) ^ 2) = 8 * ∑ j, x j ^ 2) ∧
    (∀ x : Fin 8 → ℝ, (∑ k, (∑ j, (signMatrix j k : ℝ) * x j) ^ 2) = 8 * ∑ j, x j ^ 2) := by
  refine ⟨signMatrix_orthogonal, signMatrix_columns, ?_, ?_, ?_, ?_⟩
  · ext j k
    rw [Matrix.mul_apply]
    simp only [Matrix.transpose_apply, Matrix.of_apply, Matrix.smul_apply, Matrix.one_apply]
    rw [signMatrix_orthogonal]
    split_ifs <;> simp
  · ext j k
    rw [Matrix.mul_apply]
    simp only [Matrix.transpose_apply, Matrix.of_apply, Matrix.smul_apply, Matrix.one_apply]
    rw [signMatrix_columns]
    split_ifs <;> simp
  · intro x
    exact sum_sq_of_orthogonal (fun j k => signMatrix k j) (fun j l => signMatrix_columns j l) x
  · intro x
    exact sum_sq_of_orthogonal signMatrix signMatrix_orthogonal x

/-! ## CircularBuffer: the frame of the block write -/

namespace CircularBuffer

variable {K : Type}

/-- Claim C23: in a buffer of capacity `N = 2^e` with write cursor `p < N`, the block write of
`L ≤ N` samples returns, stores `block[i]` in slot `(p + i) mod N` for every `i < L`, leaves
every other slot as it was and moves the write cursor to `(p + L) mod N`. -/
theorem writeBlock_frame (cb : CircularBuffer K) (e : Nat) (he : e < 31)
    (hN : cb.getSize = 2 ^ e) (hw : cb.writeIndex < cb.getSize) (block : List K)
    (hL : block.length ≤ cb.getSize) :
    ∃ cb1, cb.writeBlock block = some cb1 ∧ cb1.getSize = cb.getSize ∧
      cb1.writeIndex = (cb.writeIndex + block.length) % cb.getSize ∧
      (∀ i : Nat, i < block.length →
        cb1.buffer[(cb.writeIndex + i) % cb.getSize]? = block[i]?) ∧
      (∀ j : Nat, j < cb.getSize →
        (∀ i : Nat, i < block.length → j ≠ (cb.writeIndex + i) % cb.getSize) →
        cb1.buffer[j]? = cb.buffer[j]?) := by
  have hlt : cb.getSize < 2147483648 := by
    rw [hN]
    calc 2 ^ e ≤ 2 ^ 30 := Nat.pow_le_pow_right (by norm_num) (by omega)
      _ < 2147483648 := by norm_num
  obtain ⟨cb1, h1, h2, h3, h4⟩ := writeBlock_spec cb block (le_of_lt hw) hL hlt
  refine ⟨cb1, h1, h2, ?_, ?_, ?_⟩
  · rw [h3, hN, Nat.and_pow_two_sub_one_eq_mod]
  · intro i hi
    rw [h4]
    by_cases hc : cb.writeIndex + i < cb.getSize
    · rw [Nat.mod_eq_of_lt hc, if_pos ⟨by omega, by omega, hc⟩]
      congr 1
      omega
    · have hm : (cb.writeIndex + i) % cb.getSize = cb.writeIndex + i - cb.getSize := by
        rw [Nat.mod_eq_sub_mod (by omega)]
        exact Nat.mod_eq_of_lt (by omega)
      rw [hm, if_neg (by omega), if_pos (by omega)]
      congr 1
      omega
  · intro j hj hne
    rw [h4]
    by_cases hc1 : cb.writeIndex ≤ j ∧ j < cb.writeIndex + block.length ∧ j < cb.getSize
    · exfalso
      apply hne (j - cb.writeIndex) (by omega)
      rw [show cb.writeIndex + (j - cb.writeIndex) = j by omega, Nat.mod_eq_of_lt hj]
    · rw [if_neg hc1]
      by_cases hc2 : j + cb.getSize < cb.writeIndex + block.length
      · exfalso
        apply hne (j + cb.getSize - cb.writeIndex) (by omega)
        rw [show cb.writeIndex + (j + cb.getSize - cb.writeIndex) = j + cb.getSize by omega,
          Nat.add_mod_right, Nat.mod_eq_of_lt hj]
      · rw [if_neg hc2]

theorem writeBlock_frame_witness :
    ∃ cb1, (CircularBuffer.mk [0, 0, 0, 0] 3 : CircularBuffer ℚ).writeBlock [1, 2] = some cb1 ∧
      cb1.getSize = (CircularBuffer.mk [0, 0, 0, 0] 3 : CircularBuffer ℚ).getSize ∧
      cb1.writeIndex = (3 + 2) % (CircularBuffer.mk [0, 0, 0, 0] 3 : CircularBuffer ℚ).getSize ∧
      (∀ i : Nat, i < 2 →
        cb1.buffer[(3 + i) % (CircularBuffer.mk [0, 0, 0, 0] 3 : CircularBuffer ℚ).getSize]?
          = ([1, 2] : List ℚ)[i]?) ∧
      (∀ j : Nat, j < (CircularBuffer.mk [0, 0, 0, 0] 3 : CircularBuffer ℚ).getSize →
        (∀ i : Nat, i < 2 →
          j ≠ (3 + i) % (CircularBuffer.mk [0, 0, 0, 0] 3 : CircularBuffer ℚ).getSize) →
        cb1.buffer[j]? = ([0, 0, 0, 0] : List ℚ)[j]?) :=
  writeBlock_frame (CircularBuffer.mk [0, 0, 0, 0] 3 : CircularBuffer ℚ) 2 (by decide)
    (by decide) (by decide) [1, 2] (by decide)

end CircularBuffer

/-! ## The reverb: the pre-delay at offset zero -/

namespace CrossFadeBuffer

variable {K : Type} [Field K]

theorem fadeLoopFl_id (cb : CrossFadeBuffer K) (newReadIndex : Int) (len : Nat) :
    ∀ n : Nat, fadeLoopFl (fun x => x) cb newReadIndex len n = fadeLoop cb newReadIndex len n := by
  intro n
  induction n with
  | zero => rfl
  | succ n ih =>
    rw [fadeLoopFl, fadeLoop, ih]

end CrossFadeBuffer

section BlendRounded

variable {K : Type} [LinearOrderedField K]

end BlendRounded

namespace CrossFadeBuffer

variable {K : Type} [LinearOrderedField K]

end CrossFadeBuffer

section ZeroPreDelay

variable {K : Type} [LinearOrderedField K] [FloorRing K]

end ZeroPreDelay

namespace CrossFadeBuffer

variable {K : Type}

/-- The offsets read by a blend of `L` samples from the offset `r` to the offset `d`, when
`r + L` and `d + L` are at most 7552. -/
theorem fadeOffsets_small (cb : CrossFadeBuffer K) (d L i : Nat) (hi : i < L)
    (hr0 : 0 ≤ cb.readIndex) (hr : cb.readIndex + L ≤ 7552) (hd : d + L ≤ 7552) :
    cb.fadeOffsets (toInt32 (d : Int)) L i = (cb.readIndex + L - i, (d : Int) + L - i) ∧
    0 ≤ cb.readIndex + L - i ∧ cb.readIndex + L - i < 8192 ∧
    0 ≤ (d : Int) + L - i ∧ (d : Int) + L - i < 8192 := by
  have h1 : toInt32 (d : Int) = d := toInt32_natCast (by omega)
  obtain ⟨r, hr1⟩ := Int.eq_ofNat_of_zero_le hr0
  have h2 : toInt32 (cb.readIndex + L - i) = cb.readIndex + L - i := by
    rw [hr1, show (r : Int) + L - i = ((r + L - i : Nat) : Int) by omega]
    exact toInt32_natCast (by omega)
  have h3 : toInt32 ((d : Int) + L - i) = (d : Int) + L - i := by
    rw [show (d : Int) + L - i = ((d + L - i : Nat) : Int) by omega]
    exact toInt32_natCast (by omega)
  unfold fadeOffsets
  rw [h1, h2, h3]
  refine ⟨rfl, by omega, by omega, by omega, by omega⟩

end CrossFadeBuffer

section NodeProcess

variable {K : Type} [LinearOrderedField K]

/-- Whenever `process()` returns, the read offset of the node buffer is `delay_samples`, which
it does not change. -/
theorem Node.process_of_some (nd nd1 : Node K) (h : nd.process = some nd1) :
    nd1.buffer.readIndex = toInt32 nd.delay_samples ∧ nd1.delay_samples = nd.delay_samples := by
  unfold Node.process at h
  cases hf : nd.buffer.fade (toInt32 nd.delay_samples) nd.result.length with
  | none =>
    rw [hf] at h
    exact absurd h (by simp)
  | some r =>
    obtain ⟨res, buf⟩ := r
    rw [hf] at h
    simp only at h
    have hbuf : buf.readIndex = toInt32 nd.delay_samples := by
      unfold CrossFadeBuffer.fade at hf
      split at hf
      · exact absurd hf (by simp)
      · simp only [Option.some.injEq, Prod.mk.injEq] at hf
        rw [← hf.2]
    obtain ⟨res1, y, a1, _⟩ := filterLoop_spec
      ({ nd with result := res, buffer := buf } : Node K) res.length (le_refl _)
    rw [a1] at h
    simp only [Option.some.injEq] at h
    rw [← h]
    exact ⟨hbuf, rfl⟩

end NodeProcess

section NodeOffsets

variable {K : Type} [LinearOrderedField K] [FloorRing K]

/-- Whenever `processAudio` returns, the read offset of each node buffer is the node's
`delay_samples`. -/
theorem processAudio_readIndex_of_some (expf sqrtf : K → K) (table : List Nat)
    (st : SilkyVerbPatch K) (inp : BlockInput K) (out : BlockOutput K)
    (h : processAudio expf sqrtf table st inp = some out) (k : Fin 8) :
    (out.state.node k).buffer.readIndex = toInt32 (out.state.node k).delay_samples := by
  unfold processAudio at h
  simp only [Option.bind_eq_bind, Option.bind_eq_some, Option.pure_def, Option.some.injEq] at h
  obtain ⟨node1, _, pre, _, tb, _, node2, _, mixL, _, mixR, _, node3, h7, hout⟩ := h
  have hk := allNodes_eq_some h7 k
  obtain ⟨a1, a2⟩ := Node.process_of_some (node2 k) (node3 k) hk
  rw [← hout]
  show (node3 k).buffer.readIndex = toInt32 (node3 k).delay_samples
  rw [a1, a2]

/-- Claim C25: for a room size in `[192, 7552]` and blocks of `L` samples, `1 ≤ L ≤ 127`,
`processAudio` returns and `Node::set` gives each node `delay_samples = p - L` with `p` the
prime length, `127 ≤ p ≤ 7552`, so that `p - L` is not negative; the offsets that pass `i < L`
of the node's `fade` gives to `read`, `readIndex + L - i` and `delay_samples + L - i = p - i`, lie
in `[0, BUFFER_LIMIT) = [0, 8192)`, the capacity of the node buffer, when the previous read
offset `readIndex` has `0 ≤ readIndex` and `readIndex + L ≤ 7552`, as it has after the
constructor and again after the call. -/
theorem node_offsets_in_buffer (expf sqrtf : K → K) (st : SilkyVerbPatch K)
    (inp : BlockInput K) (L : Nat) (hwf : st.WellFormed L) (hin : inp.InRange L)
    (hL : L ≤ 127)
    (hprev : ∀ k, 0 ≤ (st.node k).buffer.readIndex ∧ (st.node k).buffer.readIndex + L ≤ 7552) :
    ∃ (p : Fin 8 → Nat) (node1 : Fin 8 → Node K) (out : BlockOutput K),
      configureNodes expf primeNumberTable st.node inp = some node1 ∧
      processAudio expf sqrtf primeNumberTable st inp = some out ∧
      BUFFER_LIMIT = 8192 ∧
      ∀ k : Fin 8,
        (p k).Prime ∧ 127 ≤ p k ∧ p k ≤ 7552 ∧ L ≤ p k ∧
        (node1 k).delay_samples = p k - L ∧ (0 : K) ≤ (p k : K) - (L : K) ∧
        (node1 k).buffer.toCircularBuffer.getSize = BUFFER_LIMIT ∧
        (node1 k).buffer.readIndex = (st.node k).buffer.readIndex ∧
        (∀ i : Nat, i < L →
          (node1 k).buffer.fadeOffsets (toInt32 (node1 k).delay_samples) L i
            = ((st.node k).buffer.readIndex + L - i, (p k : Int) - i) ∧
          0 ≤ (st.node k).buffer.readIndex + L - i ∧
          (st.node k).buffer.readIndex + L - i < 8192 ∧
          0 ≤ (p k : Int) - i ∧ (p k : Int) - i < 8192) ∧
        (out.state.node k).buffer.readIndex = ((p k - L : Nat) : Int) ∧
        0 ≤ (out.state.node k).buffer.readIndex ∧
        (out.state.node k).buffer.readIndex + L ≤ 7552 := by
  obtain ⟨p0, p, c1, c2, c3, c4⟩ := configureNodes_spec expf primeNumberTable
    primeNumberTable_isPrimeTable st.node inp hin.size_min hin.size_max
    (fun k => by rw [hwf.result_length k]; exact hL)
  obtain ⟨q0, q, out, h1, _, _, h4, h5, _⟩ := processAudio_spec expf sqrtf st inp L hwf hin hL
  have hq : ∀ k, q k = p k := by
    intro k
    have := (h4 k).1
    rw [(c3 k).1] at this
    exact (Option.some.inj this).symm
  have hp : ∀ k, p k ≤ 7552 := by
    intro k
    obtain ⟨b1, _, b3⟩ := fDelaySamplesAt_bounds inp.size hin.size_min hin.size_max k (by omega)
    obtain ⟨d1, d2, _⟩ := floor_toNat_bounds b1 b3
    obtain ⟨r, e1, _, e3, _⟩ := findNearestPrime_spec primeNumberTable
      primeNumberTable_isPrimeTable (Int.floor (fDelaySamplesAt inp.size k)).toNat (by omega)
      (by unfold PRIME_NUMBER_TABLE_SIZE; omega)
    rw [(c3 k).1] at e1
    cases e1
    omega
  refine ⟨p, _, out, c4, h1, rfl, ?_⟩
  intro k
  have hk127 := (c3 k).2.2.1
  have hri := processAudio_readIndex_of_some expf sqrtf primeNumberTable st inp out h1 k
  rw [(h5 k).2.2, hq k, toInt32_natCast (by have := hp k; omega)] at hri
  have hcast : (0 : K) ≤ (p k : K) - (L : K) := by
    have : (L : K) ≤ (p k : K) := by exact_mod_cast (show L ≤ p k by omega)
    linarith
  refine ⟨(c3 k).2.1, hk127, hp k, by omega, ?_, hcast, hwf.node_size k, rfl, ?_, hri, ?_, ?_⟩
  · show p k - (st.node k).result.length = p k - L
    rw [hwf.result_length k]
  · intro i hi
    have hoff := CrossFadeBuffer.fadeOffsets_small (st.node k).buffer (p k - L) L i hi
      (hprev k).1 (hprev k).2 (by have := hp k; omega)
    have hd : ((p k - L : Nat) : Int) + L - i = (p k : Int) - i := by omega
    rw [hd] at hoff
    have hds : toInt32 ((p k - (st.node k).result.length : Nat) : Int)
        = toInt32 ((p k - L : Nat) : Int) := by rw [hwf.result_length k]
    refine ⟨?_, hoff.2⟩
    show CrossFadeBuffer.fadeOffsets (st.node k).buffer
      (toInt32 ((p k - (st.node k).result.length : Nat) : Int)) L i = _
    rw [hds]
    exact hoff.1
  · rw [hri]; omega
  · rw [hri]; have := hp k; omega

end NodeOffsets

theorem node_offsets_in_buffer_witness :
    ∃ (p : Fin 8 → Nat) (node1 : Fin 8 → Node ℝ) (out : BlockOutput ℝ),
      configureNodes Real.exp primeNumberTable (SilkyVerbPatch.init 2 : SilkyVerbPatch ℝ).node
        ({ left_input := [1, 1], right_input := [1, 1], size := 192, time := 1, cutoff := 1 / 5,
           wet := 1 / 2, sampleRate := 48000, tempoTime := 0 } : BlockInput ℝ) = some node1 ∧
      processAudio Real.exp Real.sqrt primeNumberTable (SilkyVerbPatch.init 2)
        ({ left_input := [1, 1], right_input := [1, 1], size := 192, time := 1, cutoff := 1 / 5,
           wet := 1 / 2, sampleRate := 48000, tempoTime := 0 } : BlockInput ℝ) = some out ∧
      ∀ k : Fin 8, (p k).Prime ∧ 127 ≤ p k ∧ p k ≤ 7552 ∧
        (node1 k).delay_samples = p k - 2 ∧
        (out.state.node k).buffer.readIndex = ((p k - 2 : Nat) : Int) := by
  obtain ⟨p, node1, out, h1, h2, _, h3⟩ := node_offsets_in_buffer Real.exp Real.sqrt
    (SilkyVerbPatch.init 2 : SilkyVerbPatch ℝ)
    ({ left_input := [1, 1], right_input := [1, 1], size := 192, time := 1, cutoff := 1 / 5,
       wet := 1 / 2, sampleRate := 48000, tempoTime := 0 } : BlockInput ℝ) 2
    (init_wellFormed 2) (example_inRange (1 / 2)) (by decide)
    (fun _ => ⟨le_refl (0 : Int), (by decide : (0 : Int) + (2 : Nat) ≤ 7552)⟩)
  exact ⟨p, node1, out, h1, h2, fun k => ⟨(h3 k).1, (h3 k).2.1, (h3 k).2.2.1,
    (h3 k).2.2.2.2.1, (h3 k).2.2.2.2.2.2.2.2.2.1⟩⟩

/-! ## The prime table: the passes of the sieve -/

theorem sieveStrides_spec : ∀ (fuel stride : Nat) (t : List Nat), SieveInv stride t →
    stride.Prime → stride ≤ 89 → 90 - stride ≤ fuel →
    ∃ l, sieveStrides 87 fuel stride t = some l ∧ l.Sorted (· < ·) ∧
      ∀ m : Nat, m ∈ l ↔ (stride ≤ m ∧ m ≤ 87 ∧ m.Prime) := by
  intro fuel
  induction fuel with
  | zero => intro stride t _ _ h1 h2; omega
  | succ fuel ih =>
    intro stride t hinv hp h89 hf
    by_cases hle : stride ≤ 87
    · obtain ⟨t1, s1, a1, a2, a3, a4, a5, a6, a7⟩ := sieve_step stride t hinv hp hle
      obtain ⟨l, b1, b2, b3⟩ := ih s1 t1 a7 a3 a5 (by omega)
      refine ⟨stride :: l, ?_, ?_, ?_⟩
      · simp only [sieveStrides]
        rw [if_pos hle]
        simp only [a1, a2, b1, Option.map_some']
      · rw [List.sorted_cons]
        refine ⟨?_, b2⟩
        intro m hm
        have := (b3 m).1 hm
        omega
      · intro m
        rw [List.mem_cons, b3]
        constructor
        · rintro (h | ⟨h1, h2, h3⟩)
          · rw [h]
            exact ⟨le_refl _, hle, hp⟩
          · exact ⟨by omega, h2, h3⟩
        · rintro ⟨h1, h2, h3⟩
          by_cases hm : m = stride
          · exact Or.inl hm
          · right
            refine ⟨?_, h2, h3⟩
            by_contra hlt
            exact a6 m (by omega) (by omega) h3
    · refine ⟨[], ?_, List.sorted_nil, ?_⟩
      · simp only [sieveStrides]
        rw [if_neg hle]
      · intro m
        constructor
        · intro h
          exact absurd h (List.not_mem_nil m)
        · rintro ⟨h1, h2, _⟩
          omega

/-- The primes up to 87, the integer square root of the table size, in increasing order. -/
theorem primes_le_87 (l : List Nat) (hs : l.Sorted (· < ·))
    (hm : ∀ m : Nat, m ∈ l ↔ (2 ≤ m ∧ m ≤ 87 ∧ m.Prime)) :
    l = [2, 3, 5, 7, 11, 13, 17, 19, 23, 29, 31, 37, 41, 43, 47, 53, 59, 61, 67, 71, 73, 79, 83] := by
  apply List.eq_of_perm_of_sorted _ hs (by decide)
  rw [List.perm_ext_iff_of_nodup hs.nodup (by decide)]
  intro m
  rw [hm]
  constructor
  · rintro ⟨h2, h87, hp⟩
    interval_cases m <;> first | decide | (exfalso; revert hp; norm_num)
  · intro h
    simp only [List.mem_cons, List.mem_singleton, List.not_mem_nil, or_false] at h
    rcases h with h | h | h | h | h | h | h | h | h | h | h | h | h | h | h | h | h | h | h | h
      | h | h | h <;> subst h <;> refine ⟨by omega, by omega, by norm_num⟩

/-- The invariant of the outer loop of `BuildPrimeTable` holds at its first test. -/
theorem sieveInv_two (t0 t1 : List Nat) (h0 : t0.length = PRIME_NUMBER_TABLE_SIZE)
    (h1 : fillOnes PRIME_NUMBER_TABLE_SIZE 0 t0 = some t1) :
    1 < t1.length ∧ SieveInv 2 ((t1.set 0 0).set 1 0) := by
  obtain ⟨t2, g1, h2, h3⟩ := fillOnes_spec PRIME_NUMBER_TABLE_SIZE 0 t0 (by omega)
  rw [h1] at g1
  cases g1
  have hlen1 : t1.length = PRIME_NUMBER_TABLE_SIZE := by rw [h2, h0]
  have hsz : 1 < t1.length := by rw [hlen1]; unfold PRIME_NUMBER_TABLE_SIZE; omega
  refine ⟨hsz, by simpa using hlen1, ?_⟩
  intro i hi
  rcases i with _ | _ | i
  · refine ⟨0, ?_, ?_⟩
    · rw [List.getElem?_set_ne (by omega)]
      exact List.getElem?_set_self (by omega)
    · constructor
      · intro h; exact absurd rfl h
      · rintro ⟨g, _⟩; omega
  · refine ⟨0, ?_, ?_⟩
    · exact List.getElem?_set_self (by simpa using hsz)
    · constructor
      · intro h; exact absurd rfl h
      · rintro ⟨g, _⟩; omega
  · refine ⟨1, ?_, ?_⟩
    · rw [List.getElem?_set_ne (by omega), List.getElem?_set_ne (by omega), h3]
      rw [if_pos (by omega)]
    · constructor
      · intro _
        refine ⟨by omega, ?_⟩
        intro q hq hlt _
        have := hq.two_le
        omega
      · intro _; exact one_ne_zero

theorem buildPrimeTableStrides_spec (fuel : Nat) (hf : 88 ≤ fuel) (t0 : List Nat)
    (h0 : t0.length = PRIME_NUMBER_TABLE_SIZE) :
    BuildPrimeTableStrides fuel t0
      = some [2, 3, 5, 7, 11, 13, 17, 19, 23, 29, 31, 37, 41, 43, 47, 53, 59, 61, 67, 71, 73,
          79, 83] := by
  obtain ⟨t1, hfill, _, _⟩ := fillOnes_spec PRIME_NUMBER_TABLE_SIZE 0 t0 (by omega)
  obtain ⟨hsz, hinv⟩ := sieveInv_two t0 t1 h0 hfill
  obtain ⟨l, b1, b2, b3⟩ := sieveStrides_spec fuel 2 _ hinv Nat.prime_two (by omega) (by omega)
  have hl := primes_le_87 l b2 b3
  unfold BuildPrimeTableStrides
  simp only [hfill, sqrt_table_size]
  rw [if_pos hsz, b1, hl]

/-- Claim C26: `BuildPrimeTable` on a table of 7600 entries returns, which in the model means
that every index it read or wrote was inside the table; the outer loop makes its passes for
exactly the primes `2, 3, ..., 83`, each search for the next non-zero entry stopping at the next
prime, and it is left with `stride = 89`, an index below 7600. -/
theorem buildPrimeTable_strides (fuel : Nat) (hf : 88 ≤ fuel) (table : List Nat)
    (h0 : table.length = 7600) :
    ∃ t, BuildPrimeTableAux fuel table = some (t, 89) ∧ BuildPrimeTable fuel table = some t ∧
      t.length = 7600 ∧ Nat.sqrt PRIME_NUMBER_TABLE_SIZE = 87 ∧
      BuildPrimeTableStrides fuel table
        = some [2, 3, 5, 7, 11, 13, 17, 19, 23, 29, 31, 37, 41, 43, 47, 53, 59, 61, 67, 71, 73,
            79, 83] ∧
      (∀ m : Nat, m ∈ [2, 3, 5, 7, 11, 13, 17, 19, 23, 29, 31, 37, 41, 43, 47, 53, 59, 61, 67,
          71, 73, 79, 83] ↔ (m.Prime ∧ m ≤ 83)) ∧
      89 < PRIME_NUMBER_TABLE_SIZE := by
  obtain ⟨t, s, h1, h2, h3, h4, h5⟩ := buildPrimeTableAux_spec fuel hf table h0
  have hs : s = 89 := by
    interval_cases s
    · exact absurd h3 (by norm_num)
    · rfl
  subst hs
  refine ⟨t, h1, by simp [BuildPrimeTable, h1], h2.1, sqrt_table_size,
    buildPrimeTableStrides_spec fuel hf table h0, ?_, by unfold PRIME_NUMBER_TABLE_SIZE; omega⟩
  intro m
  constructor
  · intro h
    simp only [List.mem_cons, List.mem_singleton, List.not_mem_nil, or_false] at h
    rcases h with h | h | h | h | h | h | h | h | h | h | h | h | h | h | h | h | h | h | h | h
      | h | h | h <;> subst h <;> refine ⟨by norm_num, by omega⟩
  · rintro ⟨hp, h83⟩
    interval_cases m <;> first | decide | (exfalso; revert hp; norm_num)

theorem buildPrimeTable_strides_witness :
    (88 ≤ 100 ∧ (List.replicate 7600 0 : List Nat).length = 7600) ∧
    ∃ t, BuildPrimeTableAux 100 (List.replicate 7600 0) = some (t, 89) ∧
      BuildPrimeTable 100 (List.replicate 7600 0) = some t ∧
      t.length = 7600 ∧ Nat.sqrt PRIME_NUMBER_TABLE_SIZE = 87 ∧
      BuildPrimeTableStrides 100 (List.replicate 7600 0)
        = some [2, 3, 5, 7, 11, 13, 17, 19, 23, 29, 31, 37, 41, 43, 47, 53, 59, 61, 67, 71, 73,
            79, 83] ∧
      (∀ m : Nat, m ∈ [2, 3, 5, 7, 11, 13, 17, 19, 23, 29, 31, 37, 41, 43, 47, 53, 59, 61, 67,
          71, 73, 79, 83] ↔ (m.Prime ∧ m ≤ 83)) ∧
      89 < PRIME_NUMBER_TABLE_SIZE :=
  ⟨⟨by decide, List.length_replicate 7600 0⟩,
    buildPrimeTable_strides 100 (by decide) (List.replicate 7600 0)
      (List.length_replicate 7600 0)⟩

/-! ## The prime table: scans that leave the table -/

/-- On a prime table the scan of `FindNearestPrime` started at 0 or 1 finds the entries 1 and
0 zero, steps from 0 to 65535 and reads outside the table. -/
theorem findNearestPrime_below_two (t : List Nat) (ht : IsPrimeTable t) :
    t[0]? = some 0 ∧ t[1]? = some 0 ∧ t[65535]? = none ∧
    FindNearestPrime t 0 = none ∧ FindNearestPrime t 1 = none := by
  have h0 : t[0]? = some 0 := by
    obtain ⟨v, hv1, hv2⟩ := ht.2 0 (by unfold PRIME_NUMBER_TABLE_SIZE; omega)
    have : v = 0 := by
      by_contra hne
      exact Nat.not_prime_zero (hv2.1 hne)
    rw [hv1, this]
  have h1 : t[1]? = some 0 := by
    obtain ⟨v, hv1, hv2⟩ := ht.2 1 (by unfold PRIME_NUMBER_TABLE_SIZE; omega)
    have : v = 0 := by
      by_contra hne
      exact Nat.not_prime_one (hv2.1 hne)
    rw [hv1, this]
  have h2 : t[65535]? = none := by
    apply List.getElem?_eq_none
    rw [ht.1]
    unfold PRIME_NUMBER_TABLE_SIZE
    omega
  have step : ∀ (fuel n : Nat), t[n]? = some 0 →
      findLoop t (fuel + 1) n = findLoop t fuel ((n + 65535) % 65536) := by
    intro fuel n h
    rw [findLoop]
    simp only [h, if_true]
  have out : ∀ (fuel n : Nat), t[n]? = none → findLoop t (fuel + 1) n = none := by
    intro fuel n h
    rw [findLoop]
    simp only [h]
  have e0 : FindNearestPrime t 0 = none := by
    unfold FindNearestPrime
    rw [show (65536 : Nat) = 65534 + 1 + 1 from rfl, step _ 0 h0]
    exact out _ _ h2
  have e1 : FindNearestPrime t 1 = none := by
    unfold FindNearestPrime
    rw [show (65536 : Nat) = 65533 + 1 + 1 + 1 from rfl, step _ 1 h1]
    rw [show (1 + 65535) % 65536 = 0 from rfl, step _ 0 h0]
    exact out _ _ h2
  exact ⟨h0, h1, h2, e0, e1⟩

/-- Claim C27: on the table built by `BuildPrimeTable`, for every `n < 7600` the scan of
`FindNearestPrime` stays inside the table, and so returns, if and only if `2 ≤ n`; started at
0 or 1 it finds the entries 1 and 0 zero, the 16-bit counter steps from 0 to 65535, and the
entry 65535 it reads next is outside the 7600 entries of the table. -/
theorem findNearestPrime_in_table_iff (fuel : Nat) (hf : 88 ≤ fuel) (table : List Nat)
    (h0 : table.length = 7600) :
    ∃ t, BuildPrimeTable fuel table = some t ∧ t.length = 7600 ∧
      (∀ n : Nat, n < 7600 → ((∃ p, FindNearestPrime t n = some p) ↔ 2 ≤ n)) ∧
      t[0]? = some 0 ∧ t[1]? = some 0 ∧ (0 + 65535) % 65536 = 65535 ∧ t[65535]? = none ∧
      FindNearestPrime t 0 = none ∧ FindNearestPrime t 1 = none := by
  obtain ⟨t, h1, ht⟩ := buildPrimeTable_spec fuel hf table h0
  obtain ⟨a0, a1, a2, a3, a4⟩ := findNearestPrime_below_two t ht
  refine ⟨t, h1, ht.1, ?_, a0, a1, rfl, a2, a3, a4⟩
  intro n hn
  constructor
  · rintro ⟨p, hp⟩
    by_contra hlt
    have hn01 : n = 0 ∨ n = 1 := by omega
    rcases hn01 with h | h
    · rw [h, a3] at hp
      exact absurd hp (by simp)
    · rw [h, a4] at hp
      exact absurd hp (by simp)
  · intro h2
    obtain ⟨p, hp, _⟩ := findNearestPrime_spec t ht n h2 hn
    exact ⟨p, hp⟩

theorem findNearestPrime_in_table_iff_witness :
    (88 ≤ 100 ∧ (List.replicate 7600 0 : List Nat).length = 7600) ∧
    ∃ t, BuildPrimeTable 100 (List.replicate 7600 0) = some t ∧ t.length = 7600 ∧
      (∀ n : Nat, n < 7600 → ((∃ p, FindNearestPrime t n = some p) ↔ 2 ≤ n)) ∧
      t[0]? = some 0 ∧ t[1]? = some 0 ∧ (0 + 65535) % 65536 = 65535 ∧ t[65535]? = none ∧
      FindNearestPrime t 0 = none ∧ FindNearestPrime t 1 = none :=
  ⟨⟨by decide, List.length_replicate 7600 0⟩,
    findNearestPrime_in_table_iff 100 (by decide) (List.replicate 7600 0)
      (List.length_replicate 7600 0)⟩

/-! ## DcFilter: the block method and the per-sample method -/

namespace DcFilter

variable {K : Type} [Field K]

theorem blockLoop_eq_processEach (lambda : K) : ∀ (input : List K) (x1 y : K) (out : List K),
    blockLoop lambda input x1 y out
      = ((processEach { lambda := lambda, x1 := x1, y1 := y } input).2.x1,
         (processEach { lambda := lambda, x1 := x1, y1 := y } input).2.y1,
         out ++ (processEach { lambda := lambda, x1 := x1, y1 := y } input).1) := by
  intro input
  induction input with
  | nil => intro x1 y out; simp [blockLoop, processEach]
  | cons x rest ih =>
    intro x1 y out
    rw [blockLoop]
    simp only [ih, processEach, process, List.append_assoc, List.singleton_append]

theorem processEach_lambda : ∀ (input : List K) (f : DcFilter K),
    (f.processEach input).2.lambda = f.lambda := by
  intro input
  induction input with
  | nil => intro f; rfl
  | cons x rest ih => intro f; simp only [processEach, ih, process]

theorem processEach_length : ∀ (input : List K) (f : DcFilter K),
    (f.processEach input).1.length = input.length := by
  intro input
  induction input with
  | nil => intro f; rfl
  | cons x rest ih => intro f; simp only [processEach, List.length_cons, ih]

/-- The samples and the final state of the per-sample processing of a block: the recurrence
`y[i] = x[i] - x[i-1] + lambda * y[i-1]` started at `x[-1] = x1`, `y[-1] = y1`. -/
theorem processEach_recurrence : ∀ (input : List K) (f : DcFilter K),
    (∀ i : Nat, i < input.length →
      (f.processEach input).1[i]? = some (input.getD i 0
        - (if i = 0 then f.x1 else input.getD (i - 1) 0)
        + f.lambda * (if i = 0 then f.y1 else (f.processEach input).1.getD (i - 1) 0))) ∧
    (f.processEach input).2.x1 = (if input.length = 0 then f.x1 else input.getD (input.length - 1) 0) ∧
    (f.processEach input).2.y1 = (if input.length = 0 then f.y1
      else (f.processEach input).1.getD (input.length - 1) 0) := by
  intro input
  induction input with
  | nil =>
    intro f
    refine ⟨fun i hi => absurd hi (by simp), rfl, rfl⟩
  | cons x rest ih =>
    intro f
    obtain ⟨h1, h2, h3⟩ := ih (f.process x).2
    have hlen := processEach_length rest (f.process x).2
    refine ⟨?_, ?_, ?_⟩
    · intro i hi
      cases i with
      | zero => simp [processEach, process]
      | succ i =>
        have hi2 : i < rest.length := by simpa using hi
        simp only [processEach, List.getElem?_cons_succ, List.getD_cons_succ, Nat.add_sub_cancel]
        rw [h1 i hi2, if_neg (Nat.succ_ne_zero i)]
        cases i with
        | zero => simp [process]
        | succ i =>
          simp only [Nat.add_sub_cancel, List.getD_cons_succ, if_neg (Nat.succ_ne_zero i)]
          simp [process]
    · simp only [processEach, h2]
      cases rest with
      | nil => simp [process]
      | cons z zs => simp
    · simp only [processEach, h3]
      cases rest with
      | nil => simp [process]
      | cons z zs =>
        simp only [List.length_cons, Nat.add_sub_cancel]
        simp

/-- Claim C28: for every filter (`lambda`, `x1`, `y1`) and input block `x[0..n)`, the block
method `process(input, output, n)` gives the outputs and the final filter of the calls
`process(x[0])`, ..., `process(x[n-1])` made in order: `y[i] = x[i] - x[i-1] + lambda * y[i-1]`
with `x[-1] = x1`, `y[-1] = y1`, final state `(x[n-1], y[n-1])`, and for `n = 0` the filter is
unchanged. -/
theorem processBlock_refines (f : DcFilter K) (input : List K) :
    f.processBlock input = f.processEach input ∧
    (f.processBlock input).1.length = input.length ∧
    (f.processBlock input).2.lambda = f.lambda ∧
    (∀ i : Nat, i < input.length →
      (f.processBlock input).1[i]? = some (input.getD i 0
        - (if i = 0 then f.x1 else input.getD (i - 1) 0)
        + f.lambda * (if i = 0 then f.y1 else (f.processBlock input).1.getD (i - 1) 0))) ∧
    (f.processBlock input).2.x1 = (if input.length = 0 then f.x1 else input.getD (input.length - 1) 0) ∧
    (f.processBlock input).2.y1 = (if input.length = 0 then f.y1
      else (f.processBlock input).1.getD (input.length - 1) 0) ∧
    f.processBlock [] = ([], f) := by
  have heq : f.processBlock input = f.processEach input := by
    unfold processBlock
    rw [blockLoop_eq_processEach]
    have hl := processEach_lambda input f
    cases hf : f.processEach input with
    | mk ys g =>
      rw [hf] at hl
      simp only [List.nil_append]
      cases g with
      | mk l a b =>
        simp only at hl
        subst hl
        rfl
  obtain ⟨h1, h2, h3⟩ := processEach_recurrence input f
  refine ⟨heq, ?_, ?_, ?_, ?_, ?_, rfl⟩
  · rw [heq]; exact processEach_length input f
  · rw [heq]; exact processEach_lambda input f
  · rw [heq]; exact h1
  · rw [heq]; exact h2
  · rw [heq]; exact h3

theorem processBlock_refines_witness :
    ({ lambda := 1 / 2, x1 := 1, y1 := 2 } : DcFilter ℚ).processBlock [3, 5]
      = ({ lambda := 1 / 2, x1 := 1, y1 := 2 } : DcFilter ℚ).processEach [3, 5] ∧
    (({ lambda := 1 / 2, x1 := 1, y1 := 2 } : DcFilter ℚ).processBlock [3, 5]).1 = [3, 7 / 2] ∧
    (({ lambda := 1 / 2, x1 := 1, y1 := 2 } : DcFilter ℚ).processBlock [3, 5]).2
      = { lambda := 1 / 2, x1 := 5, y1 := 7 / 2 } := by
  have h := processBlock_refines ({ lambda := 1 / 2, x1 := 1, y1 := 2 } : DcFilter ℚ) [3, 5]
  refine ⟨h.1, ?_, ?_⟩
  · simp only [processBlock, blockLoop]
    norm_num
  · simp only [processBlock, blockLoop]
    norm_num

end DcFilter

/-! ## TempoSyncedPingPongDelayPatch: the ratio index -/

namespace TempoSyncedPingPongDelayPatch

section RatioIndex

variable {K : Type} [LinearOrderedField K] [FloorRing K]

/-- Claim C29, amended: for every Ratio control value `v` with `0 ≤ v < 1` the index
`ratio = trunc(v * RATIOS_COUNT)` is valid, `0 ≤ ratio < RATIOS_COUNT = 9`: the reads
`ratios[ratio]` and `counters[ratio]` are inside the tables and the ratio selected is between
1/4 and 4. -/
theorem ratioOf_valid (v : K) (h0 : 0 ≤ v) (h1 : v < 1) :
    ∃ (r : Nat) (q : K) (c : Nat), ratioOf v = some (r : Int) ∧ r < RATIOS_COUNT ∧
      RATIOS_COUNT = 9 ∧ (ratios K)[r]? = some q ∧ 1 / 4 ≤ q ∧ q ≤ 4 ∧
      counterOf (r : Int) = some c ∧
      ∀ period : K, delayTime period (r : Int)
        = some (max (1 / 10000) (min (9999 / 10000) (period * q))) := by
  have hv0 : (0 : K) ≤ v * 9 := by positivity
  have hv9 : v * 9 < 9 := by linarith
  have hfl0 : 0 ≤ Int.floor (v * 9) := Int.floor_nonneg.2 hv0
  have hfl9 : Int.floor (v * 9) < 9 := by
    rw [Int.floor_lt]
    exact_mod_cast hv9
  have hr : ratioOf v = some (((Int.floor (v * 9)).toNat : Nat) : Int) := by
    unfold ratioOf RATIOS_COUNT
    push_cast
    rw [floatToInt_of_range hv0 (by linarith), Int.toNat_of_nonneg hfl0]
  have hlt : (Int.floor (v * 9)).toNat < 9 := by omega
  generalize (Int.floor (v * 9)).toNat = r at hr hlt
  have hq : ∃ q : K, (ratios K)[r]? = some q ∧ 1 / 4 ≤ q ∧ q ≤ 4 := by
    interval_cases r <;> simp only [ratios] <;> norm_num
  have hc : ∃ c : Nat, counters[r]? = some c := by
    interval_cases r <;> simp [counters]
  obtain ⟨q, q1, q2, q3⟩ := hq
  obtain ⟨c, c1⟩ := hc
  refine ⟨r, q, c, hr, hlt, rfl, q1, q2, q3, ?_, ?_⟩
  · unfold counterOf
    rw [if_pos (by omega), Int.toNat_ofNat, c1]
  · intro period
    unfold delayTime
    rw [if_pos (by omega), Int.toNat_ofNat]
    simp only [q1]

end RatioIndex

theorem ratioOf_valid_witness :
    ∃ (r : Nat) (q : ℚ) (c : Nat), ratioOf (1 / 2 : ℚ) = some (r : Int) ∧ r < RATIOS_COUNT ∧
      RATIOS_COUNT = 9 ∧ (ratios ℚ)[r]? = some q ∧ 1 / 4 ≤ q ∧ q ≤ 4 ∧
      counterOf (r : Int) = some c ∧
      ∀ period : ℚ, delayTime period (r : Int)
        = some (max (1 / 10000) (min (9999 / 10000) (period * q))) :=
  ratioOf_valid (1 / 2 : ℚ) (by norm_num) (by norm_num)

/-- Counterexample for claim C29: at the control value `v = 1` the index is
`trunc(1 * 9) = 9 = RATIOS_COUNT`, and `ratios[9]` and `counters[9]` are outside the tables. -/
theorem ratioOf_one :
    ratioOf (1 : ℚ) = some 9 ∧ (ratios ℚ)[9]? = none ∧ counterOf 9 = none ∧
    (∀ period : ℚ, delayTime period 9 = none) ∧
    ¬ ∀ v : ℚ, 0 ≤ v → v ≤ 1 →
      ∃ r : Int, ratioOf v = some r ∧ 0 ≤ r ∧ r < (RATIOS_COUNT : Int) := by
  have h9 : ratioOf (1 : ℚ) = some 9 := by
    unfold ratioOf RATIOS_COUNT
    have : ((1 : ℚ) * ((9 : Nat) : ℚ)) = ((9 : Int) : ℚ) := by norm_num
    rw [this, floatToInt_intCast 9 (by norm_num) (by norm_num)]
  refine ⟨h9, rfl, rfl, fun _ => rfl, ?_⟩
  intro h
  obtain ⟨r, hr1, _, hr3⟩ := h 1 (by norm_num) (by norm_num)
  rw [h9] at hr1
  cases hr1
  exact absurd hr3 (by decide)

end TempoSyncedPingPongDelayPatch

end Lich
